import Mathlib

/-!
# Chat relay server: session, room and thread state with the streaming coordinator

A shallow embedding of `chat-app/server.js`.

* The module-level maps `activeUsers`, `chatRooms`, `userThreads`, `userSessions` and
  `activeStreams` are the fields of `State`, each an association list in insertion order.
* Message objects live in `State.heap`; a thread array holds references (heap positions), so
  that the mutation of `aiMessage` by the streaming callbacks is seen through the thread,
  as it is in JavaScript.
* A handler that is suspended at an `await` is a `Task`; it is resumed by an event of its
  own (`sendSaved`, `createSaved`, `response`, `data`, ...), so other handlers can run
  between the two halves, as they can on the Node event loop.
* `uuidv4()` results and `new Date()` readings are inputs of the events that use them.
* `socket.emit` and `socket.to(room).emit` append to `State.emitted`.
* Thread ids, usernames and room ids are strings. `room.threads` is a plain object: its keys
  are its own properties, and a read of a name it inherits from `Object.prototype`
  (`inheritedNames`) gives the inherited value, on which `push` and `slice` throw.
* A handler that throws ends as a rejected promise that nothing handles; what it did up to
  there stays. What the runtime does with an unhandled rejection (a warning or the end of the
  process, by version and flags) is not modelled: the statements about a throwing handler say
  what it left in the store.
* `saveData` collects the rooms in a plain object too, where the assignment under the key
  `__proto__` stores nothing.
* The HTTP route `POST /api/chat` runs behind `express.json()`, which refuses a body over
  100 kB before the handler (`apiRoute`).
* The errors of the backend client are inputs of the backend events; `canceledError` is the
  one axios raises for an aborted request.
-/

namespace ChatApp

/-! ## String-keyed maps (`Map`, and the plain object `room.threads`) -/

/-- Lookup, as `Map.prototype.get` and the read `obj[k]` of an own property: the value stored
under `k`. -/
def mapGet {β : Type} : List (String × β) → String → Option β
  | [], _ => none
  | (k', v) :: rest, k => if k' = k then some v else mapGet rest k

/-- Membership of a key, as `Map.prototype.has`. -/
def mapHas {β : Type} (m : List (String × β)) (k : String) : Bool :=
  (mapGet m k).isSome

/-- Update, as `Map.prototype.set` and `obj[k] = v`: replaces in place, or appends a new key. -/
def mapSet {β : Type} : List (String × β) → String → β → List (String × β)
  | [], k, v => [(k, v)]
  | (k', v') :: rest, k, v =>
    if k' = k then (k, v) :: rest else (k', v') :: mapSet rest k v

/-- Removal of a key, as `Map.prototype.delete`. -/
def mapDelete {β : Type} : List (String × β) → String → List (String × β)
  | [], _ => []
  | (k', v') :: rest, k =>
    if k' = k then mapDelete rest k else (k', v') :: mapDelete rest k

/-! ## Data model -/

/-- The `type` field of a message object. -/
inductive MsgType where
  | user
  | ai
deriving DecidableEq, Repr

/-- A message object (`userMessage`, `aiMessage`). `isStreaming` is absent on user messages. -/
structure Message where
  id : String
  username : String
  message : String
  timestamp : String
  type : MsgType
  isStreaming : Option Bool
deriving DecidableEq, Repr

/-- The `newThread` descriptor of `create-thread`. -/
structure ThreadInfo where
  id : String
  name : String
  createdAt : String
deriving DecidableEq, Repr

/-- A value of `chatRooms`. `users` is `none` when the field is not a `Set`
(as after a reload from JSON); thread arrays hold heap references. -/
structure Room where
  id : String
  name : String
  users : Option (List String)
  threads : List (String × List Nat)
  activeThreads : List (String × String)
deriving DecidableEq, Repr

/-- A value of `activeUsers`. -/
structure User where
  username : String
  apiKey : String
  roomId : String
deriving DecidableEq, Repr

/-- A value of `userSessions`. -/
structure Session where
  username : String
  apiKey : String
  roomId : String
  lastSeen : String
  socketId : String
deriving DecidableEq, Repr

/-- A JavaScript error object, as far as the handlers read it. -/
structure JsError where
  name : String
  message : String
deriving DecidableEq, Repr

/-- One line of the backend stream after `JSON.parse`: the `response` and `done` fields
(`response` is `""` when absent or empty, both falsy). -/
structure StreamLine where
  response : String
  done : Bool
deriving DecidableEq, Repr

/-- The `type` of the object handed to `onChunk`. -/
inductive ChunkType where
  | chunk
  | done
deriving DecidableEq, Repr

/-- The argument of `onChunk`: `{ type, content }`. -/
structure Chunk where
  type : ChunkType
  content : String
deriving DecidableEq, Repr

/-- Where an emission goes: `socket.emit` or `socket.to(roomId).emit` (the room without the
emitting socket). -/
inductive Target where
  | toSocket (socketId : String)
  | toRoom (roomId : String) (exceptSocket : String)
deriving DecidableEq, Repr

/-- The outbound events with their payloads. -/
inductive OutEvent where
  | threadsLoaded (threads : List ThreadInfo)
  | messagesLoaded (messages : List Message) (activeThread : String)
  | messagesLoadedInherited (activeThread : String)
  | userJoined (username : String)
  | error (message : String)
  | generationStopped (messageId : String)
  | newMessage (m : Message)
  | messageSent (m : Message)
  | aiMessageStart (m : Message)
  | aiMessageChunk (messageId : String) (content : String)
  | aiMessageDone (messageId : String) (content : String)
deriving DecidableEq, Repr

/-- State of the promise chain of `callOllamaStreamWithAbort`. -/
inductive Phase where
  | posting
  | streaming
deriving DecidableEq, Repr

/-- The closure of one `send-message` handler from `activeStreams.set` on, with the locals of
`callOllamaStreamWithAbort`: `full`, whether the returned promise has settled (the handler has
then run its clean-up or its `catch`), and whether `controller.abort()` was called. -/
structure Gen where
  socketId : String
  roomId : String
  aiRef : Nat
  aiId : String
  prompt : String
  phase : Phase
  full : String
  settled : Bool
  aborted : Bool
deriving DecidableEq, Repr

/-- A suspended handler. -/
inductive Task where
  | sendSaving (socketId username roomId threadId message : String) (userRef : Nat)
  | createSaving (socketId username : String)
  | gen (g : Gen)
  | completed
deriving DecidableEq, Repr

/-- The server state. -/
structure State where
  activeUsers : List (String × User)
  chatRooms : List (String × Room)
  userThreads : List (String × List ThreadInfo)
  userSessions : List (String × Session)
  activeStreams : List (String × Nat)
  heap : List Message
  tasks : List Task
  emitted : List (Target × OutEvent)
deriving DecidableEq, Repr

/-- What the backend client can report for one request: `axios.post` resolving or
rejecting, then the `data`, `end` and `error` events of the response stream. The lines of a
`data` event are its non-empty lines after `JSON.parse`, `none` where the parse threw. -/
inductive BackendEvent where
  | response
  | requestFailed (e : JsError)
  | data (lines : List (Option StreamLine))
  | streamEnd
  | streamError (e : JsError)
deriving DecidableEq, Repr

/-- What the event loop can run next: a socket event, the return of a `saveData` a handler
awaits, or a backend event for the request of task `task`. -/
inductive Event where
  | joinChat (socketId username apiKey : String) (roomId : Option String) (now : String)
  | switchThread (socketId threadId : String)
  | createThread (socketId threadName uuid now : String)
  | createSaved (task : Nat)
  | stopGeneration (socketId messageId : String)
  | sendMessage (socketId message : String) (threadId : Option String) (uuid now : String)
  | sendSaved (task : Nat) (uuid now : String)
  | disconnect (socketId now : String)
  | backend (task : Nat) (b : BackendEvent)
deriving DecidableEq, Repr

/-! ## Helpers -/

/-- The store before any event. -/
def init : State :=
  { activeUsers := [], chatRooms := [], userThreads := [], userSessions := [],
    activeStreams := [], heap := [], tasks := [], emitted := [] }

/-- One `emit` call. -/
def emit (s : State) (t : Target) (e : OutEvent) : State :=
  { s with emitted := s.emitted ++ [(t, e)] }

/-- Assignment to fields of the message object behind `ref`. -/
def heapUpdate (h : List Message) (ref : Nat) (f : Message → Message) : List Message :=
  match h[ref]? with
  | some m => h.set ref (f m)
  | none => h

/-- The message object behind `ref` (a reference always points at an object; the fallback is
never read in a state the handlers produce). -/
def heapGet (h : List Message) (ref : Nat) : Message :=
  h.getD ref
    { id := "", username := "", message := "", timestamp := "", type := MsgType.user,
      isStreaming := none }

/-- The message objects an array of references holds. -/
def deref (h : List Message) (refs : List Nat) : List Message :=
  refs.filterMap (fun r => h[r]?)

/-- The room literal of `join-chat` and `send-message`. -/
def newRoom (roomId : String) : Room :=
  { id := roomId, name := if roomId = "general" then "General Chat" else roomId,
    users := some [], threads := [], activeThreads := [] }

/-- Get-or-create,
`if (!chatRooms.has(roomId)) chatRooms.set(roomId, {...}); chatRooms.get(roomId)`:
the room the handler then works on. -/
def roomOf (rooms : List (String × Room)) (roomId : String) : Room :=
  (mapGet rooms roomId).getD (newRoom roomId)

/-- The property names the plain object `room.threads` inherits from `Object.prototype`. A
read `room.threads[t]` of such a name that is not a key of the object gives the inherited
value, a function or the prototype itself: truthy, and without `push` or `slice`. -/
def inheritedNames : List String :=
  ["constructor", "__defineGetter__", "__defineSetter__", "hasOwnProperty",
   "__lookupGetter__", "__lookupSetter__", "isPrototypeOf", "propertyIsEnumerable",
   "toString", "valueOf", "__proto__", "toLocaleString"]

/-- Whether the read `room.threads[t]` gives an inherited value: `t` is no key of the object
and names a property of `Object.prototype`. -/
def threadThrows (threads : List (String × List Nat)) (t : String) : Bool :=
  !mapHas threads t && inheritedNames.contains t

/-- Lazy creation of a thread: `if (!room.threads[t]) room.threads[t] = []`. The guard is a
truthiness test of the read, so nothing is created for a key of the object (an array is
truthy) nor for an inherited name. -/
def ensureThread (threads : List (String × List Nat)) (t : String) : List (String × List Nat) :=
  if mapHas threads t || inheritedNames.contains t then threads else mapSet threads t []

/-- The push `room.threads[t].push(ref)`: onto the array under the key `t`; `none` when `t`
is no key of the object, where the call throws a `TypeError` (the read gives `undefined` or
an inherited value). -/
def pushThread (threads : List (String × List Nat)) (t : String) (ref : Nat) :
    Option (List (String × List Nat)) :=
  match mapGet threads t with
  | some refs => some (mapSet threads t (refs ++ [ref]))
  | none => none

/-- The value `room.threads[t] || []` as `messages-loaded` carries it: the messages of the
array under the key `t`; for an inherited name that is no key, the inherited value. -/
def messagesLoadedOf (heap : List Message) (threads : List (String × List Nat)) (t : String) :
    OutEvent :=
  match mapGet threads t with
  | some refs => OutEvent.messagesLoaded (deref heap refs) t
  | none =>
    if inheritedNames.contains t then OutEvent.messagesLoadedInherited t
    else OutEvent.messagesLoaded [] t

/-- The references of thread `t` of room `r` (empty when either is missing). -/
def threadRefs (s : State) (r t : String) : List Nat :=
  match mapGet s.chatRooms r with
  | some room => (mapGet room.threads t).getD []
  | none => []

/-- The messages of thread `t` of room `r`. -/
def threadMessages (s : State) (r t : String) : List Message :=
  deref s.heap (threadRefs s r t)

/-- The key of `activeStreams`: the template string of socket id, dash, message id. -/
def streamKey (socketId messageId : String) : String :=
  socketId ++ "-" ++ messageId

/-- Replace task `k`. -/
def setTask (s : State) (k : Nat) (t : Task) : State :=
  { s with tasks := s.tasks.set k t }

/-- The function `getThreadContext`: the last ten messages of the thread, or `[]` when the
guard `!room || !room.threads || !room.threads[threadId]` holds. For an inherited name that
is no key of `room.threads` the guard does not hold and `slice` is called on the inherited
value, which throws a `TypeError`: `none`. -/
def getThreadContext (s : State) (threadId roomId : String) : Option (List Message) :=
  match mapGet s.chatRooms roomId with
  | none => some []
  | some room =>
    match mapGet room.threads threadId with
    | none => if inheritedNames.contains threadId then none else some []
    | some refs =>
      let threadMessages := deref s.heap refs
      some (threadMessages.drop (threadMessages.length - 10))

/-- The context string and prompt of `send-message`. -/
def buildPrompt (context : List Message) (message : String) : String :=
  let contextString :=
    if context.length > 0 then
      "\n".intercalate (context.map (fun msg => msg.username ++ ": " ++ msg.message)) ++ "\n\n"
    else ""
  contextString ++ message

/-! ## Socket handlers -/

/-- The `userMessage` literal of `send-message`. -/
def userMessage (uuid username message now : String) : Message :=
  { id := uuid, username := username, message := message, timestamp := now,
    type := MsgType.user, isStreaming := none }

/-- The `aiMessage` literal of `send-message`: the placeholder. -/
def aiMessage (uuid now : String) : Message :=
  { id := uuid, username := "Llama 3 AI", message := "", timestamp := now,
    type := MsgType.ai, isStreaming := some true }

/-- The `join-chat` handler. -/
def joinChat (s : State) (socketId username apiKey : String) (roomId? : Option String)
    (now : String) : State :=
  let roomId := roomId?.getD "general"
  let room := roomOf s.chatRooms roomId
  let users := match room.users with
    | some u => u
    | none => []
  let users := if username ∈ users then users else users ++ [username]
  let userThreads :=
    if mapHas s.userThreads username then s.userThreads else mapSet s.userThreads username []
  let userThreadList := (mapGet userThreads username).getD []
  let activeThread := match mapGet room.activeThreads username with
    | some t => if t = "" then "default" else t
    | none => "default"
  let threads := ensureThread room.threads activeThread
  { s with
    activeUsers := mapSet s.activeUsers socketId
      { username := username, apiKey := apiKey, roomId := roomId }
    userSessions := mapSet s.userSessions username
      { username := username, apiKey := apiKey, roomId := roomId, lastSeen := now,
        socketId := socketId }
    chatRooms := mapSet s.chatRooms roomId { room with users := some users, threads := threads }
    userThreads := userThreads
    emitted := s.emitted ++
      [(Target.toSocket socketId, OutEvent.threadsLoaded userThreadList),
       (Target.toSocket socketId, messagesLoadedOf s.heap threads activeThread),
       (Target.toRoom roomId socketId, OutEvent.userJoined username)] }

/-- The `switch-thread` handler. -/
def switchThread (s : State) (socketId threadId : String) : State :=
  match mapGet s.activeUsers socketId with
  | none => emit s (Target.toSocket socketId) (OutEvent.error "User not authenticated")
  | some user =>
    match mapGet s.chatRooms user.roomId with
    | none => emit s (Target.toSocket socketId) (OutEvent.error "Room not found")
    | some room =>
      let threads := ensureThread room.threads threadId
      { s with
        chatRooms := mapSet s.chatRooms user.roomId
          { room with
            activeThreads := mapSet room.activeThreads user.username threadId
            threads := threads }
        emitted := s.emitted ++
          [(Target.toSocket socketId, messagesLoadedOf s.heap threads threadId)] }

/-- The `create-thread` handler up to `await saveData()`. -/
def createThread (s : State) (socketId threadName uuid now : String) : State :=
  match mapGet s.activeUsers socketId with
  | none => emit s (Target.toSocket socketId) (OutEvent.error "User not authenticated")
  | some user =>
    let userThreadList := (mapGet s.userThreads user.username).getD []
    let newThread : ThreadInfo := { id := uuid, name := threadName, createdAt := now }
    { s with
      userThreads := mapSet s.userThreads user.username (userThreadList ++ [newThread])
      tasks := s.tasks ++ [Task.createSaving socketId user.username] }

/-- The `create-thread` handler after `await saveData()`: it emits the array it pushed to. -/
def createSaved (s : State) (k : Nat) : State :=
  match s.tasks[k]? with
  | some (Task.createSaving socketId username) =>
    let s := setTask s k Task.completed
    emit s (Target.toSocket socketId)
      (OutEvent.threadsLoaded ((mapGet s.userThreads username).getD []))
  | _ => s

/-- The `stop-generation` handler. -/
def stopGeneration (s : State) (socketId messageId : String) : State :=
  let key := streamKey socketId messageId
  match mapGet s.activeStreams key with
  | none => s
  | some ctrl =>
    let tasks := match s.tasks[ctrl]? with
      | some (Task.gen g) => s.tasks.set ctrl (Task.gen { g with aborted := true })
      | _ => s.tasks
    { s with
      tasks := tasks
      activeStreams := mapDelete s.activeStreams key
      emitted := s.emitted ++ [(Target.toSocket socketId, OutEvent.generationStopped messageId)] }

/-- The `send-message` handler up to the first `await saveData()`. When the push throws, the
handler ends there as a rejected promise that nobody handles: the room it may have created
stays, and nothing else has happened. -/
def sendMessage (s : State) (socketId message : String) (threadId? : Option String)
    (uuid now : String) : State :=
  let threadId := threadId?.getD "default"
  match mapGet s.activeUsers socketId with
  | none => emit s (Target.toSocket socketId) (OutEvent.error "User not authenticated")
  | some user =>
    let room := roomOf s.chatRooms user.roomId
    let userRef := s.heap.length
    match pushThread (ensureThread room.threads threadId) threadId userRef with
    | none =>
      { s with
        chatRooms :=
          if mapHas s.chatRooms user.roomId then s.chatRooms
          else mapSet s.chatRooms user.roomId room }
    | some threads =>
      { s with
        heap := s.heap ++ [userMessage uuid user.username message now]
        chatRooms := mapSet s.chatRooms user.roomId
          { room with
            threads := threads
            activeThreads := mapSet room.activeThreads user.username threadId }
        tasks := s.tasks ++
          [Task.sendSaving socketId user.username user.roomId threadId message userRef] }

/-- The `send-message` handler from the return of `saveData` to the `axios.post` inside
`callOllamaStreamWithAbort`. It emits the user message, reads the context and pushes the
placeholder; when `getThreadContext` or the push throws, the handler ends there, after the
two emissions. -/
def sendSaved (s : State) (k : Nat) (uuid now : String) : State :=
  match s.tasks[k]? with
  | some (Task.sendSaving socketId _username roomId threadId message userRef) =>
    let userMessage := heapGet s.heap userRef
    let aiMessage := aiMessage uuid now
    let aiRef := s.heap.length
    let room := roomOf s.chatRooms roomId
    let thrown : State :=
      { s with
        tasks := s.tasks.set k Task.completed
        emitted := s.emitted ++
          [(Target.toRoom roomId socketId, OutEvent.newMessage userMessage),
           (Target.toSocket socketId, OutEvent.messageSent userMessage)] }
    match getThreadContext s threadId roomId with
    | none => thrown
    | some context =>
      match pushThread room.threads threadId aiRef with
      | none => thrown
      | some threads =>
        let fullPrompt := buildPrompt context message
        { s with
          heap := s.heap ++ [aiMessage]
          chatRooms := mapSet s.chatRooms roomId { room with threads := threads }
          activeStreams := mapSet s.activeStreams (streamKey socketId uuid) k
          tasks := s.tasks.set k (Task.gen
            { socketId := socketId, roomId := roomId, aiRef := aiRef, aiId := uuid,
              prompt := fullPrompt, phase := Phase.posting, full := "", settled := false,
              aborted := false })
          emitted := s.emitted ++
            [(Target.toRoom roomId socketId, OutEvent.newMessage userMessage),
             (Target.toSocket socketId, OutEvent.messageSent userMessage),
             (Target.toRoom roomId socketId, OutEvent.aiMessageStart aiMessage),
             (Target.toSocket socketId, OutEvent.aiMessageStart aiMessage)] }
  | _ => s

/-- The `disconnect` handler. -/
def disconnect (s : State) (socketId now : String) : State :=
  match mapGet s.activeUsers socketId with
  | none => s
  | some user =>
    { s with
      activeUsers := mapDelete s.activeUsers socketId
      userSessions := match mapGet s.userSessions user.username with
        | some session => mapSet s.userSessions user.username { session with lastSeen := now }
        | none => s.userSessions }

/-! ## The streaming coordinator -/

/-- The cancellation notice of the `catch` block. -/
def stoppedMarker : String := "\n\n*Generation stopped by user*"

/-- The callback `send-message` hands to `callOllamaStreamWithAbort`. -/
def onChunk (s : State) (g : Gen) (chunk : Chunk) : State :=
  match chunk.type with
  | ChunkType.chunk =>
    { s with
      heap := heapUpdate s.heap g.aiRef (fun m => { m with message := m.message ++ chunk.content })
      emitted := s.emitted ++
        [(Target.toRoom g.roomId g.socketId, OutEvent.aiMessageChunk g.aiId chunk.content),
         (Target.toSocket g.socketId, OutEvent.aiMessageChunk g.aiId chunk.content)] }
  | ChunkType.done =>
    { s with
      heap := heapUpdate s.heap g.aiRef
        (fun m => { m with message := chunk.content, isStreaming := some false })
      emitted := s.emitted ++
        [(Target.toRoom g.roomId g.socketId, OutEvent.aiMessageDone g.aiId chunk.content),
         (Target.toSocket g.socketId, OutEvent.aiMessageDone g.aiId chunk.content)] }

/-- The call `resolve(full)`: the first settlement lets the handler run its clean-up,
`activeStreams.delete(streamKey)`; a later one does nothing. -/
def resolve (sg : State × Gen) : State × Gen :=
  if sg.2.settled then sg
  else
    ({ sg.1 with
        activeStreams := mapDelete sg.1.activeStreams (streamKey sg.2.socketId sg.2.aiId) },
     { sg.2 with settled := true })

/-- The `catch` block of `send-message`, run with the error the awaited call threw. -/
def handlerCatch (s : State) (g : Gen) (error : JsError) : State :=
  let content :=
    if error.name = "AbortError" then (heapGet s.heap g.aiRef).message ++ stoppedMarker
    else "Error: " ++ error.message
  { s with
    heap := heapUpdate s.heap g.aiRef
      (fun m => { m with message := content, isStreaming := some false })
    emitted := s.emitted ++
      [(Target.toRoom g.roomId g.socketId, OutEvent.aiMessageDone g.aiId content),
       (Target.toSocket g.socketId, OutEvent.aiMessageDone g.aiId content)]
    activeStreams := mapDelete s.activeStreams (streamKey g.socketId g.aiId) }

/-- The call `reject(error)`: the first settlement runs the handler's `catch`; a later one
does nothing. -/
def reject (sg : State × Gen) (error : JsError) : State × Gen :=
  if sg.2.settled then sg
  else (handlerCatch sg.1 sg.2 error, { sg.2 with settled := true })

/-- The pair `onChunk({ type: 'done', content: full }); resolve(full)`, as the `data` listener
does on
a line with `done` and the `end` listener does always. -/
def finish (sg : State × Gen) : State × Gen :=
  resolve (onChunk sg.1 sg.2 { type := ChunkType.done, content := sg.2.full }, sg.2)

/-- The statement
`if (data.response) { full += data.response; onChunk({ type: 'chunk', ... }) }`. -/
def lineResponse (sg : State × Gen) (data : StreamLine) : State × Gen :=
  if data.response = "" then sg
  else
    (onChunk sg.1 { sg.2 with full := sg.2.full ++ data.response }
        { type := ChunkType.chunk, content := data.response },
      { sg.2 with full := sg.2.full ++ data.response })

/-- The statement `if (data.done) { onChunk({ type: 'done', content: full }); resolve(full) }`. -/
def lineDone (sg : State × Gen) (data : StreamLine) : State × Gen :=
  if data.done then finish sg else sg

/-- The body of the `for` loop of the `data` listener for one line; `none` is a line on which
`JSON.parse` threw. -/
def streamLine (sg : State × Gen) (line : Option StreamLine) : State × Gen :=
  match line with
  | none => sg
  | some data => lineDone (lineResponse sg data) data

/-- The `data` listener on the non-empty lines of one chunk. -/
def dataListener (sg : State × Gen) (lines : List (Option StreamLine)) : State × Gen :=
  lines.foldl streamLine sg

/-- The `end` listener. -/
def endListener (sg : State × Gen) : State × Gen :=
  finish sg

/-- The error with which axios (a dependency, not part of the repository) rejects a request
and destroys its response stream once the `signal` of the request is aborted: an instance of
its `CanceledError`, named so, with the message `canceled`. -/
def canceledError : JsError :=
  { name := "CanceledError", message := "canceled" }

/-- The `catch` of `callOllamaStreamWithAbort`, which sees a rejection of `axios.post` only:
what it throws on. -/
def rethrown (error : JsError) : JsError :=
  if error.name = "AbortError" then error
  else { name := "Error", message := "Ollama API error: " ++ error.message }

/-- Store the closure back as task `k`. -/
def putGen (k : Nat) (sg : State × Gen) : State :=
  setTask sg.1 k (Task.gen sg.2)

/-- What a backend event runs on the closure: the continuation of `axios.post`, or a listener
of the response stream. `none` when nothing is listening (the request has not been answered
yet, or has already been answered or refused). -/
def listener (s : State) (g : Gen) : BackendEvent → Option (State × Gen)
  | BackendEvent.response =>
    if g.phase = Phase.posting ∧ g.settled = false then
      some (s, { g with phase := Phase.streaming, full := "" })
    else none
  | BackendEvent.requestFailed e =>
    if g.phase = Phase.posting ∧ g.settled = false then some (reject (s, g) (rethrown e))
    else none
  | BackendEvent.data lines =>
    if g.phase = Phase.streaming then some (dataListener (s, g) lines) else none
  | BackendEvent.streamEnd =>
    if g.phase = Phase.streaming then some (endListener (s, g)) else none
  | BackendEvent.streamError e =>
    if g.phase = Phase.streaming then some (reject (s, g) e) else none

/-- A backend event for task `k`. -/
def backend (s : State) (k : Nat) (b : BackendEvent) : State :=
  match s.tasks[k]? with
  | some (Task.gen g) =>
    match listener s g b with
    | some sg => putGen k sg
    | none => s
  | _ => s

/-- One turn of the event loop. -/
def step (s : State) : Event → State
  | Event.joinChat c u a r now => joinChat s c u a r now
  | Event.switchThread c t => switchThread s c t
  | Event.createThread c n uuid now => createThread s c n uuid now
  | Event.createSaved k => createSaved s k
  | Event.stopGeneration c m => stopGeneration s c m
  | Event.sendMessage c m t uuid now => sendMessage s c m t uuid now
  | Event.sendSaved k uuid now => sendSaved s k uuid now
  | Event.disconnect c now => disconnect s c now
  | Event.backend k b => backend s k b

/-- Running a list of events in order. -/
def run (s : State) (es : List Event) : State :=
  es.foldl step s

/-- The states the server can be in, starting from the empty store. -/
inductive Reachable : State → Prop where
  | init : Reachable init
  | step (s : State) (e : Event) : Reachable s → Reachable (step s e)

/-! ## Auxiliary definitions for the statements -/

/-- The threads after `ref` has been pushed onto thread `t`, created empty when it was
missing: what the guard and the push of `send-message` make of them when nothing throws. -/
def appendRef (threads : List (String × List Nat)) (t : String) (ref : Nat) :
    List (String × List Nat) :=
  mapSet threads t ((mapGet threads t).getD [] ++ [ref])

/-- The ids of the message objects, by reference. -/
def ids (h : List Message) : List String :=
  h.map (fun m => m.id)

/-- The part of the state the streaming callbacks never write. -/
def store (s : State) :
    List (String × User) × List (String × Room) × List (String × List ThreadInfo) ×
      List (String × Session) × List Task :=
  (s.activeUsers, s.chatRooms, s.userThreads, s.userSessions, s.tasks)

/-- The part of the closure the listeners never write. -/
def ident (g : Gen) : String × String × Nat × String × String × Phase × Bool :=
  (g.socketId, g.roomId, g.aiRef, g.aiId, g.prompt, g.phase, g.aborted)

/-- What every callback of the coordinator leaves alone: the maps other than `activeStreams`,
the suspended handlers, the ids of the message objects and the constants of the closure. -/
def Quiet (sg sg' : State × Gen) : Prop :=
  store sg'.1 = store sg.1 ∧ ids sg'.1.heap = ids sg.1.heap ∧ ident sg'.2 = ident sg.2

/-- Every reference held by a thread array points at a message object. -/
def RefsValid (s : State) : Prop :=
  ∀ r t, ∀ ref ∈ threadRefs s r t, ref < s.heap.length

/-- The ids of the messages of a thread, in list order. -/
def threadIds (s : State) (r t : String) : List String :=
  ids (threadMessages s r t)

/-- One `send-message` event together with the values its handler draws: the uuid and clock
reading of the user message, then those of the AI placeholder. -/
structure Send where
  socketId : String
  message : String
  uuid : String
  now : String
  aiUuid : String
  aiNow : String
deriving DecidableEq, Repr

/-- A `send-message` on thread `t` handled up to its backend call before any other event
runs: the handler, then its resumption after `saveData`. -/
def sendThrough (t : String) (s : State) (x : Send) : State :=
  sendSaved (sendMessage s x.socketId x.message (some t) x.uuid x.now) s.tasks.length
    x.aiUuid x.aiNow

/-- The username registered for a socket (`""` when there is none). -/
def usernameOf (s : State) (socketId : String) : String :=
  match mapGet s.activeUsers socketId with
  | some user => user.username
  | none => ""

/-- The socket is registered, in room `r`. -/
def InRoom (s : State) (socketId r : String) : Prop :=
  ∃ user, mapGet s.activeUsers socketId = some user ∧ user.roomId = r

/-- Two registered users in the room "general", before any message. -/
def twoUsers : State :=
  run init [Event.joinChat "c1" "alice" "k1" none "t0", Event.joinChat "c2" "bob" "k2" none "t0"]

/-- The contents of the chunk callbacks a list of parsed lines gives rise to: the non-empty
`response` fields, in order. -/
def responses (lines : List (Option StreamLine)) : List String :=
  lines.filterMap (fun l =>
    match l with
    | some d => if d.response = "" then none else some d.response
    | none => none)

/-- No line carries the `done` flag. -/
def NoDone (lines : List (Option StreamLine)) : Prop :=
  ∀ d, some d ∈ lines → d.done = false

/-- The `ai-message-chunk` events for a list of contents: each to the room, then to the
sender. -/
def chunkEvents (g : Gen) (ps : List String) : List (Target × OutEvent) :=
  ps.flatMap (fun p =>
    [(Target.toRoom g.roomId g.socketId, OutEvent.aiMessageChunk g.aiId p),
     (Target.toSocket g.socketId, OutEvent.aiMessageChunk g.aiId p)])

/-- The pair of `ai-message-done` events with a given content: to the room, then to the
sender. -/
def doneEvents (g : Gen) (content : String) : List (Target × OutEvent) :=
  [(Target.toRoom g.roomId g.socketId, OutEvent.aiMessageDone g.aiId content),
   (Target.toSocket g.socketId, OutEvent.aiMessageDone g.aiId content)]

/-- Appending text to the body of the message behind `ref`. -/
def appendBody (h : List Message) (ref : Nat) (text : String) : List Message :=
  heapUpdate h ref (fun m => { m with message := m.message ++ text })

/-- Setting the body of the message behind `ref` and clearing its streaming flag. -/
def finalBody (h : List Message) (ref : Nat) (text : String) : List Message :=
  heapUpdate h ref (fun m => { m with message := text, isStreaming := some false })

/-- The state with another list of suspended handlers. -/
def withTasks (s : State) (ts : List Task) : State :=
  { s with tasks := ts }

/-- A backend event applied to a closure and the state it runs in; nothing happens when no
continuation or listener is waiting for it. -/
def listen (sg : State × Gen) (b : BackendEvent) : State × Gen :=
  (listener sg.1 sg.2 b).getD sg

/-- The request of task `k` is answered and its stream delivers the chunks `cs`, each chunk
given by its parsed lines. -/
def answered (k : Nat) (cs : List (List (Option StreamLine))) : List Event :=
  (BackendEvent.response :: cs.map BackendEvent.data).map (Event.backend k)

/-- Alice has joined "general" and sent "hi"; the handler has posted its request (task 0). -/
def posted : State :=
  run init [Event.joinChat "c1" "alice" "k1" none "t0",
    Event.sendMessage "c1" "hi" none "u1" "t1", Event.sendSaved 0 "a1" "t2"]

/-- The closure of the request in `posted`. -/
def postedGen : Gen :=
  { socketId := "c1", roomId := "general", aiRef := 1, aiId := "a1",
    prompt := "alice: hi\n\nhi", phase := Phase.posting, full := "", settled := false,
    aborted := false }

/-- Whether an outbound event is `ai-message-done` for the message id. -/
def isDoneFor (messageId : String) : OutEvent → Bool
  | OutEvent.aiMessageDone i _ => i == messageId
  | _ => false

/-- How many `ai-message-done` events for the message id went to the target. -/
def doneCount (s : State) (t : Target) (messageId : String) : Nat :=
  (s.emitted.filter (fun p => p.1 == t && isDoneFor messageId p.2)).length

/-- The contents of the `ai-message-chunk` events for the message id sent to the target, in
order of emission. -/
def chunksTo (t : Target) (messageId : String) (evs : List (Target × OutEvent)) : List String :=
  evs.filterMap (fun p =>
    match p.2 with
    | OutEvent.aiMessageChunk i content => if p.1 = t ∧ i = messageId then some content else none
    | _ => none)

/-- The chunk callbacks with the given contents, run in order. -/
def chunkCallbacks (s : State) (g : Gen) (ps : List String) : State :=
  ps.foldl (fun st p => onChunk st g { type := ChunkType.chunk, content := p }) s

/-- Every entry of `activeStreams` belongs to a generation whose promise has not settled, and
is filed under that generation's key. -/
def StreamsLive (s : State) : Prop :=
  ∀ key k, mapGet s.activeStreams key = some k →
    ∃ g, s.tasks[k]? = some (Task.gen g) ∧ g.settled = false ∧
      key = streamKey g.socketId g.aiId

/-- What a listener can do to the registry: nothing, or settle the promise and have the
handler delete its own key. -/
def Settling (sg sg' : State × Gen) : Prop :=
  (sg'.1.activeStreams = sg.1.activeStreams ∧ sg'.2.settled = sg.2.settled) ∨
  (sg'.2.settled = true ∧
    sg'.1.activeStreams = mapDelete sg.1.activeStreams (streamKey sg.2.socketId sg.2.aiId))

/-- What one turn of the event loop emits. -/
def newEvents (s : State) (e : Event) : List (Target × OutEvent) :=
  (step s e).emitted.drop s.emitted.length

/-- An emission that, if it is an `ai-message-chunk`, is one for message `aiId` with a
content among `ps`. -/
def ChunkOf (aiId : String) (ps : List String) (ev : Target × OutEvent) : Prop :=
  ∀ m p, ev.2 = OutEvent.aiMessageChunk m p → m = aiId ∧ p ∈ ps

/-- The log grows from `l` to `l'` by emissions that satisfy `P`. -/
def EmitsOnly (P : Target × OutEvent → Prop) (l l' : List (Target × OutEvent)) : Prop :=
  ∃ new, l' = l ++ new ∧ ∀ ev ∈ new, P ev

/-- Alice has stopped the generation of `posted` after the request was answered. -/
def stopped : State :=
  run posted [Event.backend 0 BackendEvent.response, Event.stopGeneration "c1" "a1"]

/-- The closure without its abort flag: what the listeners read and write. -/
def core (g : Gen) : String × String × Nat × String × String × Phase × String × Bool :=
  (g.socketId, g.roomId, g.aiRef, g.aiId, g.prompt, g.phase, g.full, g.settled)

/-- Two closures with the states they run in look alike to the listeners: same closure up to
the abort flag, same message object behind `aiRef`. -/
def Sim (a b : State × Gen) : Prop :=
  a.1.heap[a.2.aiRef]? = b.1.heap[b.2.aiRef]? ∧ core a.2 = core b.2

/-- The backend events of a list of events that are addressed to task `k`, in order. -/
def backendFor (k : Nat) (es : List Event) : List BackendEvent :=
  es.filterMap (fun e =>
    match e with
    | Event.backend j b => if j = k then some b else none
    | _ => none)

/-- Every closure refers to a message object of its own. -/
def GensSeparate (s : State) : Prop :=
  (∀ (k : Nat) (g : Gen), s.tasks[k]? = some (Task.gen g) → g.aiRef < s.heap.length) ∧
  (∀ (k k' : Nat) (g g' : Gen), s.tasks[k]? = some (Task.gen g) →
    s.tasks[k']? = some (Task.gen g') → g.aiRef = g'.aiRef → k = k')

/-- Away from its own message object a listener leaves the heap alone. -/
def HeapElsewhere (a b : State × Gen) : Prop :=
  ∀ i, i ≠ a.2.aiRef → b.1.heap[i]? = a.1.heap[i]?

/-- No message object is referenced from two threads. -/
def ThreadsDisjoint (s : State) : Prop :=
  ∀ (r t r' t' : String) (ref : Nat), ref ∈ threadRefs s r t → ref ∈ threadRefs s r' t' →
    r = r' ∧ t = t'

/-- The turns of the `send-message` handler suspended as task `k`: its resumption after
`saveData` and the backend events of its request. -/
def OwnTurn (k : Nat) (e : Event) : Prop :=
  (∃ uuid now, e = Event.sendSaved k uuid now) ∨ (∃ b, e = Event.backend k b)

/-- Task `k` is a `send-message` on thread `τ` of room `ρ`: still waiting for `saveData`, or
streaming into a placeholder filed in that thread, or over (or never started) because a push
threw. -/
def Owns (s : State) (k : Nat) (ρ τ : String) : Prop :=
  (∃ c u msg uref, s.tasks[k]? = some (Task.sendSaving c u ρ τ msg uref)) ∨
  (∃ g, s.tasks[k]? = some (Task.gen g) ∧ g.aiRef ∈ threadRefs s ρ τ) ∨
  s.tasks[k]? = none ∨ s.tasks[k]? = some Task.completed

/-- Every pointer of the room's active-thread map names a key of the room's threads or a
property that the object inherits. -/
def Filed (room : Room) : Prop :=
  ∀ (u t : String), mapGet room.activeThreads u = some t →
    mapHas room.threads t = true ∨ inheritedNames.contains t = true

/-- Every room of the store is `Filed`. -/
def PointersFiled (s : State) : Prop :=
  ∀ (r : String) (room : Room), mapGet s.chatRooms r = some room → Filed room

/-- Every `send-message` handler waiting for `saveData` has its thread among the keys of its
room's threads: the push before the wait went through. -/
def SavingFiled (s : State) : Prop :=
  ∀ (k : Nat) (c u ρ τ msg : String) (uref : Nat),
    s.tasks[k]? = some (Task.sendSaving c u ρ τ msg uref) →
    mapHas (roomOf s.chatRooms ρ).threads τ = true

/-- Every registered connection has its room in the store and a session under its username. -/
def UsersPlaced (s : State) : Prop :=
  ∀ (c : String) (user : User), mapGet s.activeUsers c = some user →
    mapHas s.chatRooms user.roomId = true ∧ mapHas s.userSessions user.username = true

/-! ## Persistence of the rooms: `saveData` and `loadData` -/

/-- A JSON value: what `JSON.stringify` writes to a file and `JSON.parse` reads back from it
(`JSON.parse (JSON.stringify v)` is `v` for such a value; the text in between is the
library's business). An object is the list of its own enumerable properties. -/
inductive Json where
  | null
  | bool (b : Bool)
  | num (n : Int)
  | str (s : String)
  | arr (items : List Json)
  | obj (fields : List (String × Json))

/-- Property read `j[k]` on a parsed value: `none` is `undefined`. -/
def Json.get : Json → String → Option Json
  | Json.obj fields, k => mapGet fields k
  | _, _ => none

/-- What `JSON.stringify` makes of a message object; `isStreaming` is written when present. -/
def messageJson (m : Message) : Json :=
  Json.obj
    ([("id", Json.str m.id), ("username", Json.str m.username), ("message", Json.str m.message),
      ("timestamp", Json.str m.timestamp),
      ("type", Json.str (match m.type with
        | MsgType.user => "user"
        | MsgType.ai => "ai"))] ++
     (match m.isStreaming with
      | some b => [("isStreaming", Json.bool b)]
      | none => []))

/-- What `JSON.stringify` makes of `roomCopy`, the spread of the room with `activeThreads`
replaced by `Object.fromEntries(room.activeThreads)`. A `Set` has no enumerable properties, so
`users` is written as `{}` whatever its members are (and is `{}` again if it was read from a
file). -/
def roomJson (heap : List Message) (room : Room) : Json :=
  Json.obj
    [("id", Json.str room.id), ("name", Json.str room.name), ("users", Json.obj []),
     ("threads", Json.obj (room.threads.map
        (fun th => (th.1, Json.arr ((deref heap th.2).map messageJson))))),
     ("activeThreads", Json.obj (room.activeThreads.map (fun p => (p.1, Json.str p.2))))]

/-- The rooms part of `saveData`: the value written to `rooms.json`. The loop fills the plain
object `roomsData` by the assignment `roomsData[roomId] = roomCopy`; for the room id
`__proto__` that assignment sets the prototype of `roomsData` and adds no property, so
`JSON.stringify` does not write that room. -/
def saveRooms (s : State) : Json :=
  Json.obj ((s.chatRooms.filter (fun kr => kr.1 != "__proto__")).map
    (fun kr => (kr.1, roomJson s.heap kr.2)))

/-- Alice has joined the room `__proto__` and sent "hi"; the handler has posted its request. -/
def protoRoom : State :=
  run init [Event.joinChat "c1" "alice" "k1" (some "__proto__") "t0",
    Event.sendMessage "c1" "hi" none "u1" "t1", Event.sendSaved 0 "a1" "t2"]

/-- A string property of a parsed object. -/
def Json.getStr (j : Json) (k : String) : Option String :=
  match j.get k with
  | some (Json.str s) => some s
  | _ => none

/-- A parsed message object in the data model (`none` when it is not of that shape). -/
def messageOfJson (j : Json) : Option Message := do
  let id ← j.getStr "id"
  let username ← j.getStr "username"
  let message ← j.getStr "message"
  let timestamp ← j.getStr "timestamp"
  let type ← match j.getStr "type" with
    | some "user" => some MsgType.user
    | some "ai" => some MsgType.ai
    | _ => none
  let isStreaming ← match j.get "isStreaming" with
    | none => some none
    | some (Json.bool b) => some (some b)
    | some _ => none
  some { id := id, username := username, message := message, timestamp := timestamp,
         type := type, isStreaming := isStreaming }

/-- A parsed thread array in the data model. -/
def messagesOfJson : Json → Option (List Message)
  | Json.arr items => items.mapM messageOfJson
  | _ => none

/-- The parsed `threads` object: every array is a fresh array of fresh message objects, which
the model allocates at the end of the heap. -/
def loadThreads : List Message → List (String × Json) →
    Option (List Message × List (String × List Nat))
  | heap, [] => some (heap, [])
  | heap, (t, j) :: rest =>
    match messagesOfJson j with
    | none => none
    | some msgs =>
      match loadThreads (heap ++ msgs) rest with
      | none => none
      | some (heap', threads) => some (heap', (t, List.range' heap.length msgs.length) :: threads)

/-- The conversion of `loadData`:
`room.activeThreads = new Map(Object.entries(room.activeThreads))` when the parsed value is an
object, `new Map()` otherwise. -/
def loadActiveThreads : Option Json → Option (List (String × String))
  | some (Json.obj fields) => fields.mapM (fun p =>
      match p.2 with
      | Json.str t => some (p.1, t)
      | _ => none)
  | some (Json.arr items) => items.enum.mapM (fun p =>
      match p.2 with
      | Json.str t => some (toString p.1, t)
      | _ => none)
  | _ => some []

/-- One room of `loadData`: the parsed object with `activeThreads` converted. Its `users` is
whatever was parsed, which is never a `Set`. -/
def loadRoom (heap : List Message) (j : Json) : Option (List Message × Room) :=
  match j.getStr "id", j.getStr "name", j.get "threads", loadActiveThreads (j.get "activeThreads")
  with
  | some id, some name, some (Json.obj threads), some activeThreads =>
    match loadThreads heap threads with
    | none => none
    | some (heap', threads') =>
      some (heap', { id := id, name := name, users := none, threads := threads',
                     activeThreads := activeThreads })
  | _, _, _, _ => none

/-- The loop `Object.keys(rooms).forEach(...)` of `loadData`. -/
def loadRoomList : List Message → List (String × Json) →
    Option (List Message × List (String × Room))
  | heap, [] => some (heap, [])
  | heap, (r, j) :: rest =>
    match loadRoom heap j with
    | none => none
    | some (heap', room) =>
      match loadRoomList heap' rest with
      | none => none
      | some (heap'', rooms) => some (heap'', (r, room) :: rooms)

/-- The rooms part of `loadData`, run at start-up on the parsed content of `rooms.json`:
`chatRooms.clear()` and one `chatRooms.set` per key. `none` when the file does not hold rooms
of the data model. -/
def loadRooms (file : Json) : Option State :=
  match file with
  | Json.obj rooms =>
    match loadRoomList [] rooms with
    | none => none
    | some (heap, chatRooms) => some { init with chatRooms := chatRooms, heap := heap }
  | _ => none


/-- Room `room'` over heap `h'` is what loading gives for room `room` over heap `h0`: same id,
name and pointers, the same thread ids with the same message lists (also when the heap `h'`
grows further), and a `users` value that is not a set. -/
def RoomLoaded (h0 : List Message) (room : Room) (h' : List Message) (room' : Room) : Prop :=
  room'.id = room.id ∧ room'.name = room.name ∧ room'.users = none ∧
  room'.activeThreads = room.activeThreads ∧
  ∀ t, mapHas room'.threads t = mapHas room.threads t ∧
    ∀ ext, deref (h' ++ ext) ((mapGet room'.threads t).getD []) =
      deref h0 ((mapGet room.threads t).getD [])

/-! ## The non-streaming client and `POST /api/chat` -/

/-- An error object as far as the `catch` blocks of the backend client read it: `name`,
`message`, `code`, `response?.status`, and `response?.data?.error` when that is a string. -/
structure AxiosError where
  name : String
  message : String
  code : Option String
  status : Option Nat
  dataError : Option String
deriving DecidableEq, Repr

/-- The object `new Error(message)`: it has no `code` and no `response`. -/
def newError (message : String) : AxiosError :=
  { name := "Error", message := message, code := none, status := none, dataError := none }

/-- The object `new TypeError(message)`. -/
def newTypeError (message : String) : AxiosError :=
  { name := "TypeError", message := message, code := none, status := none, dataError := none }

/-- What the streaming path reads of an error: its name and message. -/
def AxiosError.js (e : AxiosError) : JsError :=
  { name := e.name, message := e.message }

/-- JavaScript truthiness of a parsed value. -/
def Json.truthy : Json → Bool
  | Json.null => false
  | Json.bool b => b
  | Json.num n => n != 0
  | Json.str s => s != ""
  | Json.arr _ => true
  | Json.obj _ => true

/-- The characters `String.prototype.trim` strips: WhiteSpace and LineTerminator. -/
def jsWhitespace (c : Char) : Bool :=
  c.toNat ∈ [0x09, 0x0A, 0x0B, 0x0C, 0x0D, 0x20, 0xA0, 0x1680, 0x2028, 0x2029, 0x202F, 0x205F,
    0x3000, 0xFEFF] || (0x2000 ≤ c.toNat && c.toNat ≤ 0x200A)

/-- The test `result.trim() === ''`. -/
def jsBlank (s : String) : Bool :=
  s.toList.all jsWhitespace

/-- The chain of `if`s of `callOllama` that picks the answer out of `response.data`: the first
truthy one of `response`, `completion`, `answer`, `text`, `content`, then the data itself when
it is a string, then `message.content`, and `JSON.stringify(response.data)` (given as
`stringify`) otherwise. Reading a property of `null` throws (the message is V8's). -/
def pickResult (stringify : Json → String) (data : Json) : Except AxiosError Json :=
  match data with
  | Json.null => Except.error (newTypeError "Cannot read properties of null (reading 'response')")
  | _ =>
    match (["response", "completion", "answer", "text", "content"].filterMap data.get).find?
      Json.truthy with
    | some v => Except.ok v
    | none =>
      match data with
      | Json.str s => Except.ok (Json.str s)
      | _ =>
        match data.get "message" with
        | some m =>
          if m.truthy then
            match m.get "content" with
            | some c => if c.truthy then Except.ok c else Except.ok (Json.str (stringify data))
            | none => Except.ok (Json.str (stringify data))
          else Except.ok (Json.str (stringify data))
        | none => Except.ok (Json.str (stringify data))

/-- The statements of `callOllama` between the `await` and the `catch`: extraction of the
result and the check `if (!result || result.trim() === '') throw ...`; `trim` exists on
strings only. -/
def callOllamaTry (stringify : Json → String) (data : Json) : Except AxiosError String :=
  match pickResult stringify data with
  | Except.error e => Except.error e
  | Except.ok result =>
    if !result.truthy then Except.error (newError "Empty response from Ollama")
    else
      match result with
      | Json.str s =>
        if jsBlank s then Except.error (newError "Empty response from Ollama") else Except.ok s
      | _ => Except.error (newTypeError "result.trim is not a function")

/-- The `catch` block of `callOllama`: the error it throws for the error it caught. -/
def callOllamaCatch (error : AxiosError) : AxiosError :=
  if error.status = some 404 then
    newError "Llama 3 model not found. Please run: ollama pull llama3"
  else if error.code = some "ECONNREFUSED" then
    newError "Ollama is not running. Please start Ollama with: ollama serve"
  else if error.dataError = some "model is required" then
    newError "Model is required. Please check LLAMA3_MODEL environment variable"
  else newError ("Ollama API error: " ++ error.message)

/-- The function `callOllama`, given what `axios.post` settles with: the parsed
`response.data`, or the error of the rejection. `LLAMA3_MODEL` is never empty (it defaults to
`'llama3'`). -/
def callOllama (stringify : Json → String) (outcome : Except AxiosError Json) :
    Except AxiosError String :=
  match outcome with
  | Except.error e => Except.error (callOllamaCatch e)
  | Except.ok data =>
    match callOllamaTry stringify data with
    | Except.ok result => Except.ok result
    | Except.error e => Except.error (callOllamaCatch e)

/-- The `catch` block of `callLlama3`: the answer it returns for the error it caught. -/
def callLlama3Catch (error : AxiosError) : String :=
  if error.code = some "ECONNREFUSED" then
    "Error: Ollama is not running. Please start Ollama with: ollama serve"
  else if error.status = some 404 then
    "Error: Llama 3 model not found. Please run: ollama pull llama3"
  else if error.code = some "ETIMEDOUT" then
    "Error: Request timed out. The AI model might be busy or not responding."
  else
    "Error: " ++ error.message ++
      ". Please check if Ollama is running and the llama3 model is available."

/-- The function `callLlama3`: the prompt it posts and what it settles with. -/
def callLlama3 (stringify : Json → String) (prompt : String) (context : List Message)
    (outcome : Except AxiosError Json) : String × Except AxiosError String :=
  let fullPrompt := buildPrompt context prompt
  match callOllama stringify outcome with
  | Except.ok answer => (fullPrompt, Except.ok answer)
  | Except.error e => (fullPrompt, Except.ok (callLlama3Catch e))

/-- The body of an HTTP response of the API: the JSON objects of the route handler, or the
page of express's default error handler (the server installs no error handler of its own),
which carries neither `answer` nor `error`. -/
inductive ApiBody where
  | answer (answer : String)
  | error (error : String)
  | errorPage
deriving DecidableEq, Repr

/-- An HTTP response, with the prompts posted to the backend while the request was handled. -/
structure ApiResult where
  status : Nat
  body : ApiBody
  posted : List String
deriving DecidableEq, Repr

/-- The handler of `POST /api/chat`, given `req.body.prompt` (`none` when absent) and what the
backend request, if one is made, settles with. A truthy prompt that is not a string has no
`substring`, which throws into the handler's `catch`. -/
def apiChat (stringify : Json → String) (prompt : Option Json)
    (outcome : Except AxiosError Json) : ApiResult :=
  match prompt with
  | none => { status := 400, body := ApiBody.error "Prompt is required", posted := [] }
  | some p =>
    if !p.truthy then
      { status := 400, body := ApiBody.error "Prompt is required", posted := [] }
    else
      match p with
      | Json.str text =>
        match callLlama3 stringify text [] outcome with
        | (posted, Except.ok answer) =>
          { status := 200, body := ApiBody.answer answer, posted := [posted] }
        | (posted, Except.error e) =>
          { status := 500, body := ApiBody.error e.message, posted := [posted] }
      | _ =>
        { status := 500, body := ApiBody.error "prompt.substring is not a function",
          posted := [] }

/-- The body limit of `express.json()` called without options: the default `100kb` of the
body parser, in bytes. -/
def jsonBodyLimit : Nat := 102400

/-- A `POST /api/chat` request with a JSON body as far as the server reads it: the length of
the body in bytes, and the `prompt` property of the object the body parses to (`none` when
absent). -/
structure ApiRequest where
  bodyLength : Nat
  prompt : Option Json

/-- The route `POST /api/chat` behind `app.use(express.json())`: the parser refuses a body
longer than its limit with status 413 before the handler runs, and express answers with its
error page; otherwise the handler runs on the parsed body. -/
def apiRoute (stringify : Json → String) (req : ApiRequest)
    (outcome : Except AxiosError Json) : ApiResult :=
  if req.bodyLength > jsonBodyLimit then
    { status := 413, body := ApiBody.errorPage, posted := [] }
  else apiChat stringify req.prompt outcome


/-- A refused connection, as axios reports it. -/
def refusedError : AxiosError :=
  { name := "AxiosError", message := "connect ECONNREFUSED 127.0.0.1:11434",
    code := some "ECONNREFUSED", status := none, dataError := none }

/-- An HTTP 404 answer of the backend, as axios reports it. -/
def notFoundError : AxiosError :=
  { name := "AxiosError", message := "Request failed with status code 404",
    code := some "ERR_BAD_REQUEST", status := some 404, dataError := none }

/-- A request that ran into the 60 second limit of `callOllama`, as axios reports it. -/
def timeoutError : AxiosError :=
  { name := "AxiosError", message := "timeout of 60000ms exceeded",
    code := some "ECONNABORTED", status := none, dataError := none }

/-- The body the `catch` block of `send-message` writes for an error that is not an abort. -/
def errorNotice (error : JsError) : String :=
  "Error: " ++ error.message


/-! ## The `data` listener on the text of a chunk -/

/-- The call `split('\n')` on the characters of a string. -/
def splitNewline : List Char → List (List Char)
  | [] => [[]]
  | c :: cs =>
    if c = '\n' then [] :: splitNewline cs
    else
      match splitNewline cs with
      | [] => [[c]]
      | l :: ls => (c :: l) :: ls

/-- The lines of a chunk: `chunk.toString().split('\n').filter(Boolean)`. -/
def chunkLines (chunk : String) : List String :=
  ((splitNewline chunk.toList).map String.mk).filter (fun l => l ≠ "")

/-- The `data` listener on the text of one chunk. `parse` stands for `JSON.parse` followed by
the reads of `response` and `done`; it gives `none` where that throws. -/
def dataChunk (parse : String → Option StreamLine) (sg : State × Gen) (chunk : String) :
    State × Gen :=
  dataListener sg ((chunkLines chunk).map parse)

/-- A stand-in for `JSON.parse` that agrees with it on the line
`{"response":"Hi","done":false}` and on every string that is not JSON, such as the two pieces
of that line. -/
def parseExample (line : String) : Option StreamLine :=
  if line = "\x7b\"response\":\"Hi\",\"done\":false\x7d" then
    some { response := "Hi", done := false }
  else none

/-- The store of `posted` once the backend has answered the request of task 0, with its
closure. -/
def answering : State × Gen :=
  (run posted [Event.backend 0 BackendEvent.response],
   { postedGen with phase := Phase.streaming })


/-! ## The client: `formatMessageContent` -/

/-- A regular expression, as far as `formatMessageContent` uses the syntax. -/
inductive Re where
  | eps
  | chr (p : Char → Bool)
  | seq (a b : Re)
  | star (greedy : Bool) (r : Re)
  | opt (r : Re)
  | group (n : Nat) (r : Re)
  | bol
  | eol

/-- The captures of a match: for a group that took part, where its text starts and ends. -/
abbrev Caps := Nat → Option (Nat × Nat)

/-- LineTerminator: the characters `.` does not match (without the flag `s`) and at which
`^` and `$` match under the flag `m`. -/
def lineTerminator (c : Char) : Bool :=
  c.toNat ∈ [0x0A, 0x0D, 0x2028, 0x2029]

/-- The loop of `r*` (greedy) and `r*?` (lazy) from position `i`: an iteration that consumes
nothing is not continued. `fuel` bounds the number of iterations. -/
def starLoop {α : Type} (body : Nat → Caps → (Nat → Caps → Option α) → Option α)
    (greedy : Bool) : Nat → Nat → Caps → (Nat → Caps → Option α) → Option α
  | 0, i, caps, k => k i caps
  | fuel + 1, i, caps, k =>
    if greedy then
      match body i caps (fun j caps' =>
        if j = i then none else starLoop body greedy fuel j caps' k) with
      | some x => some x
      | none => k i caps
    else
      match k i caps with
      | some x => some x
      | none => body i caps (fun j caps' =>
          if j = i then none else starLoop body greedy fuel j caps' k)

/-- The backtracking matcher: the first way, in the order of the language's priorities, in
which `re` matches `text` from position `i` on such that the continuation `k` accepts. -/
def Re.run {α : Type} (text : List Char) :
    Re → Nat → Caps → (Nat → Caps → Option α) → Option α
  | Re.eps, i, caps, k => k i caps
  | Re.chr p, i, caps, k =>
    match text[i]? with
    | some c => if p c then k (i + 1) caps else none
    | none => none
  | Re.seq a b, i, caps, k => Re.run text a i caps (fun j caps' => Re.run text b j caps' k)
  | Re.star greedy r, i, caps, k =>
    starLoop (fun j caps' k' => Re.run text r j caps' k') greedy (text.length + 1) i caps k
  | Re.opt r, i, caps, k =>
    match Re.run text r i caps (fun j caps' => if j = i then none else k j caps') with
    | some x => some x
    | none => k i caps
  | Re.group n r, i, caps, k =>
    Re.run text r i caps (fun j caps' => k j (fun m => if m = n then some (i, j) else caps' m))
  | Re.bol, i, caps, k =>
    if i = 0 then k i caps
    else
      match text[i - 1]? with
      | some c => if lineTerminator c then k i caps else none
      | none => none
  | Re.eol, i, caps, k =>
    match text[i]? with
    | some c => if lineTerminator c then k i caps else none
    | none => k i caps

/-- A match of `re` starting at position `i`: where it ends, and its captures. -/
def Re.matchAt (re : Re) (text : List Char) (i : Nat) : Option (Nat × Caps) :=
  Re.run text re i (fun _ => none) (fun j caps => some (j, caps))

/-- A piece of a replacement string: literal text, or `$n`. -/
inductive Piece where
  | lit (s : String)
  | cap (n : Nat)

/-- The replacement text for a match; a group that took no part gives the empty string. -/
def expand (tpl : List Piece) (text : List Char) (caps : Caps) : List Char :=
  (tpl.map (fun p =>
    match p with
    | Piece.lit s => s.toList
    | Piece.cap n =>
      match caps n with
      | some (a, b) => (text.drop a).take (b - a)
      | none => [])).flatten

/-- The scan of `String.prototype.replace` with a global regular expression from position `i`:
the leftmost match is replaced and the scan goes on behind it (one character further after an
empty match); text between matches is copied. -/
def replaceLoop (re : Re) (tpl : List Piece) (text : List Char) : Nat → Nat → List Char
  | 0, _ => []
  | fuel + 1, i =>
    match Re.matchAt re text i with
    | some (j, caps) =>
      expand tpl text caps ++
        (if j = i then
          match text[i]? with
          | some c => c :: replaceLoop re tpl text fuel (i + 1)
          | none => []
        else replaceLoop re tpl text fuel j)
    | none =>
      match text[i]? with
      | some c => c :: replaceLoop re tpl text fuel (i + 1)
      | none => []

/-- The call `text.replace(re, tpl)` for a regular expression with the flag `g`. -/
def replaceAll (re : Re) (tpl : List Piece) (text : List Char) : List Char :=
  replaceLoop re tpl text (text.length + 1) 0

/-- The characters of a literal, in sequence. -/
def Re.lit : List Char → Re
  | [] => Re.eps
  | c :: cs => Re.seq (Re.chr (fun x => x == c)) (Re.lit cs)

/-- The quantifier `+`: `r+` is `r` followed by `r*`. -/
def Re.plus (r : Re) : Re :=
  Re.seq r (Re.star true r)

/-- A sequence of expressions. -/
def Re.seqs : List Re → Re
  | [] => Re.eps
  | r :: rs => Re.seq r (Re.seqs rs)

/-- The class `\w`. -/
def wordChar (c : Char) : Bool :=
  c.isAlphanum || c == '_'

/-- The class `.` without the flag `s`. -/
def dotChar (c : Char) : Bool :=
  !lineTerminator c

/-- The function `formatMessageContent` of `ChatRoom.js`: the twelve replacements in order
(the backtick is character 96). A character stands for its code units; no pattern of the
function tells the two halves of a surrogate pair apart. -/
def formatMessageContent (text : String) : String :=
  if text = "" then ""
  else
    let formatted := text.toList
    let formatted := replaceAll
      (Re.seqs [Re.lit "```".toList, Re.opt (Re.group 1 (Re.plus (Re.chr wordChar))),
        Re.chr (fun c => c == '\n'), Re.group 2 (Re.star false (Re.chr (fun _ => true))),
        Re.lit "```".toList])
      [Piece.lit "<pre><code class=\"language-", Piece.cap 1, Piece.lit "\">", Piece.cap 2,
        Piece.lit "</code></pre>"] formatted
    let formatted := replaceAll
      (Re.seqs [Re.lit "`".toList, Re.group 1 (Re.plus (Re.chr (fun c => c != Char.ofNat 96))),
        Re.lit "`".toList])
      [Piece.lit "<code>", Piece.cap 1, Piece.lit "</code>"] formatted
    let formatted := replaceAll
      (Re.seqs [Re.lit "**".toList, Re.group 1 (Re.plus (Re.chr (fun c => c != '*'))),
        Re.lit "**".toList])
      [Piece.lit "<strong>", Piece.cap 1, Piece.lit "</strong>"] formatted
    let formatted := replaceAll
      (Re.seqs [Re.lit "*".toList, Re.group 1 (Re.plus (Re.chr (fun c => c != '*'))),
        Re.lit "*".toList])
      [Piece.lit "<em>", Piece.cap 1, Piece.lit "</em>"] formatted
    let formatted := replaceAll (Re.chr (fun c => c == '\n')) [Piece.lit "<br>"] formatted
    let formatted := replaceAll
      (Re.seqs [Re.bol, Re.star true (Re.chr jsWhitespace),
        Re.chr (fun c => c == '-' || c == '*' || c == '+'), Re.plus (Re.chr jsWhitespace),
        Re.group 1 (Re.plus (Re.chr dotChar)), Re.eol])
      [Piece.lit "<li>", Piece.cap 1, Piece.lit "</li>"] formatted
    let formatted := replaceAll
      (Re.seqs [Re.bol, Re.star true (Re.chr jsWhitespace), Re.plus (Re.chr Char.isDigit),
        Re.chr (fun c => c == '.'), Re.plus (Re.chr jsWhitespace),
        Re.group 1 (Re.plus (Re.chr dotChar)), Re.eol])
      [Piece.lit "<li>", Piece.cap 1, Piece.lit "</li>"] formatted
    let formatted := replaceAll
      (Re.group 1 (Re.seqs [Re.lit "<li>".toList, Re.star true (Re.chr (fun _ => true)),
        Re.lit "</li>".toList]))
      [Piece.lit "<ul>", Piece.cap 1, Piece.lit "</ul>"] formatted
    let formatted := replaceAll
      (Re.seqs [Re.bol, Re.lit "### ".toList, Re.group 1 (Re.plus (Re.chr dotChar)), Re.eol])
      [Piece.lit "<h3>", Piece.cap 1, Piece.lit "</h3>"] formatted
    let formatted := replaceAll
      (Re.seqs [Re.bol, Re.lit "## ".toList, Re.group 1 (Re.plus (Re.chr dotChar)), Re.eol])
      [Piece.lit "<h2>", Piece.cap 1, Piece.lit "</h2>"] formatted
    let formatted := replaceAll
      (Re.seqs [Re.bol, Re.lit "# ".toList, Re.group 1 (Re.plus (Re.chr dotChar)), Re.eol])
      [Piece.lit "<h1>", Piece.cap 1, Piece.lit "</h1>"] formatted
    let formatted := replaceAll
      (Re.seqs [Re.lit "[".toList, Re.group 1 (Re.plus (Re.chr (fun c => c != ']'))),
        Re.lit "](".toList, Re.group 2 (Re.plus (Re.chr (fun c => c != ')'))),
        Re.lit ")".toList])
      [Piece.lit "<a href=\"", Piece.cap 2,
        Piece.lit "\" target=\"_blank\" rel=\"noopener noreferrer\">", Piece.cap 1,
        Piece.lit "</a>"] formatted
    String.mk formatted


/-! ## The backup scripts: directory names and the choice of `restore` -/

/-- The UTF-16 code units of a string, which is what JavaScript compares. -/
def utf16 (s : String) : List Nat :=
  (s.toList.map (fun c =>
    if c.toNat < 0x10000 then [c.toNat]
    else [0xD800 + (c.toNat - 0x10000) / 0x400, 0xDC00 + (c.toNat - 0x10000) % 0x400])).flatten

/-- Lexicographic `<` on lists of numbers. -/
def unitsLt : List Nat → List Nat → Bool
  | _, [] => false
  | [], _ :: _ => true
  | a :: as, b :: bs => a < b || (a == b && unitsLt as bs)

/-- The comparison `x <= y` of two strings by code units; `sort()` without a comparator orders
strings by it. -/
def jsLe (x y : String) : Bool :=
  !unitsLt (utf16 y) (utf16 x)

/-- The call `b.startsWith(p)`. -/
def startsWith (b p : String) : Bool :=
  p.toList.isPrefixOf b.toList

/-- The choice of `restore`: `backups.filter(b => b.startsWith('backup-')).sort().reverse()`,
then `sortedBackups[0]`, or nothing (`No backups found`) when that array is empty. -/
def latestBackup (backups : List String) : Option String :=
  (((backups.filter (fun b => startsWith b "backup-")).insertionSort
    (fun x y => jsLe x y = true)).reverse).head?

/-- The UTC fields of a `Date`. -/
structure Stamp where
  year : Nat
  month : Nat
  day : Nat
  hour : Nat
  minute : Nat
  second : Nat
  ms : Nat
deriving DecidableEq, Repr

/-- The fields in order of significance; a moment is earlier than another when its fields
come first lexicographically. -/
def Stamp.fields (t : Stamp) : List Nat :=
  [t.year, t.month, t.day, t.hour, t.minute, t.second, t.ms]

/-- The ranges of the fields of a date whose year has four digits, for which `toISOString`
prints the form `YYYY-MM-DDTHH:mm:ss.sssZ`. -/
def Stamp.fits (t : Stamp) : Prop :=
  t.year ≤ 9999 ∧ 1 ≤ t.month ∧ t.month ≤ 12 ∧ 1 ≤ t.day ∧ t.day ≤ 31 ∧ t.hour ≤ 23 ∧
  t.minute ≤ 59 ∧ t.second ≤ 59 ∧ t.ms ≤ 999

/-- The decimal digits of `n`, zero-padded to width `w`. -/
def pad : Nat → Nat → List Char
  | 0, _ => []
  | w + 1, n => Char.ofNat (48 + n / 10 ^ w % 10) :: pad w (n % 10 ^ w)

/-- The text `toISOString()` gives for a date whose year has four digits. -/
def isoString (t : Stamp) : String :=
  String.mk (pad 4 t.year ++ ['-'] ++ pad 2 t.month ++ ['-'] ++ pad 2 t.day ++ ['T'] ++
    pad 2 t.hour ++ [':'] ++ pad 2 t.minute ++ [':'] ++ pad 2 t.second ++ ['.'] ++
    pad 3 t.ms ++ ['Z'])

/-- The call `.replace(/[:.]/g, '-')`. -/
def replaceColonDot (s : String) : String :=
  String.mk (s.toList.map (fun c => if c = ':' ∨ c = '.' then '-' else c))

/-- The directory name `backup.js` creates at the moment `t`. -/
def backupName (t : Stamp) : String :=
  "backup-" ++ replaceColonDot (isoString t)


/-- The code units of `pad w n`. -/
def padUnits : Nat → Nat → List Nat
  | 0, _ => []
  | w + 1, n => (48 + n / 10 ^ w % 10) :: padUnits w (n % 10 ^ w)

/-! # Theorems -/

/-! ## Facts about maps and the heap -/

theorem mapGet_mapSet {β : Type} (m : List (String × β)) (k k' : String) (v : β) :
    mapGet (mapSet m k v) k' = if k = k' then some v else mapGet m k' := by
  induction m with
  | nil => simp [mapSet, mapGet]
  | cons p rest ih =>
    obtain ⟨k0, v0⟩ := p
    by_cases h0 : k0 = k
    · subst h0
      by_cases h1 : k0 = k' <;> simp [mapSet, mapGet, h1]
    · by_cases h1 : k0 = k'
      · subst h1
        have : ¬ k = k0 := fun h => h0 h.symm
        simp [mapSet, mapGet, h0, this]
      · simp [mapSet, mapGet, h0, h1, ih]

theorem mapGet_mapDelete {β : Type} (m : List (String × β)) (k k' : String) :
    mapGet (mapDelete m k) k' = if k = k' then none else mapGet m k' := by
  induction m with
  | nil => simp [mapDelete, mapGet]
  | cons p rest ih =>
    obtain ⟨k0, v0⟩ := p
    by_cases h0 : k0 = k
    · subst h0
      by_cases h1 : k0 = k'
      · subst h1; simpa [mapDelete] using ih
      · simp [mapDelete, mapGet, h1, ih]
    · by_cases h1 : k0 = k'
      · subst h1
        have : ¬ k = k0 := fun h => h0 h.symm
        simp [mapDelete, mapGet, h0, this]
      · simp [mapDelete, mapGet, h0, h1, ih]

theorem heapUpdate_length (h : List Message) (r : Nat) (f : Message → Message) :
    (heapUpdate h r f).length = h.length := by
  unfold heapUpdate
  split <;> simp

theorem heapUpdate_getElem? (h : List Message) (r i : Nat) (f : Message → Message) :
    (heapUpdate h r f)[i]? = if r = i then (h[i]?).map f else h[i]? := by
  unfold heapUpdate
  split
  · rename_i m hm
    by_cases hri : r = i
    · subst hri
      simp [hm, List.getElem?_set]
      exact (List.getElem?_eq_some_iff.mp hm).1
    · simp [hri, List.getElem?_set]
  · rename_i hm
    by_cases hri : r = i
    · subst hri; simp [hm]
    · simp [hri]

theorem ids_heapUpdate (h : List Message) (r : Nat) (f : Message → Message)
    (hf : ∀ m, (f m).id = m.id) : ids (heapUpdate h r f) = ids h := by
  apply List.ext_getElem?
  intro i
  unfold ids
  rw [List.getElem?_map, List.getElem?_map, heapUpdate_getElem?]
  by_cases hri : r = i
  · simp only [hri, if_true]
    cases h[i]? with
    | none => rfl
    | some m => simp [hf]
  · simp [hri]

theorem quiet_refl {sg : State × Gen} : Quiet sg sg := ⟨by simp, by simp, by simp⟩

theorem quiet_trans {a b c : State × Gen} (h1 : Quiet a b) (h2 : Quiet b c) : Quiet a c :=
  ⟨h2.1.trans h1.1, h2.2.1.trans h1.2.1, h2.2.2.trans h1.2.2⟩

theorem quiet_onChunk (s : State) (g g' : Gen) (c : Chunk) (hg : ident g' = ident g) :
    Quiet (s, g) (onChunk s g' c, g') := by
  refine ⟨?_, ?_, hg⟩
  · unfold onChunk
    split <;> rfl
  · unfold onChunk
    split <;> exact ids_heapUpdate _ _ _ (fun _ => by simp)

theorem quiet_resolve (sg : State × Gen) : Quiet sg (resolve sg) := by
  unfold resolve
  split
  · exact quiet_refl
  · exact ⟨by simp [store], by simp, by simp [ident]⟩

theorem quiet_reject (sg : State × Gen) (e : JsError) : Quiet sg (reject sg e) := by
  unfold reject
  split
  · exact quiet_refl
  · exact ⟨by simp [store, handlerCatch], ids_heapUpdate _ _ _ (fun _ => by simp), by simp [ident]⟩

theorem quiet_finish (sg : State × Gen) : Quiet sg (finish sg) :=
  quiet_trans (quiet_onChunk sg.1 sg.2 sg.2 _ (by simp)) (quiet_resolve _)

theorem quiet_lineResponse (sg : State × Gen) (d : StreamLine) :
    Quiet sg (lineResponse sg d) := by
  unfold lineResponse
  split
  · exact quiet_refl
  · exact quiet_onChunk sg.1 sg.2 _ _ (by simp [ident])

theorem quiet_lineDone (sg : State × Gen) (d : StreamLine) : Quiet sg (lineDone sg d) := by
  unfold lineDone
  split
  · exact quiet_finish sg
  · exact quiet_refl

theorem quiet_streamLine (sg : State × Gen) (l : Option StreamLine) :
    Quiet sg (streamLine sg l) := by
  cases l with
  | none => exact quiet_refl
  | some d => exact quiet_trans (quiet_lineResponse sg d) (quiet_lineDone _ d)

theorem quiet_dataListener (lines : List (Option StreamLine)) (sg : State × Gen) :
    Quiet sg (dataListener sg lines) := by
  induction lines generalizing sg with
  | nil => exact quiet_refl
  | cons l rest ih => exact quiet_trans (quiet_streamLine sg l) (ih _)

/-! ## Thread arrays under the handlers -/

theorem threadRefs_eq (s : State) (r t : String) :
    threadRefs s r t = (mapGet (roomOf s.chatRooms r).threads t).getD [] := by
  unfold threadRefs roomOf
  cases mapGet s.chatRooms r <;> simp [newRoom, mapGet]

theorem roomOf_mapSet (rooms : List (String × Room)) (ρ r : String) (room : Room) :
    roomOf (mapSet rooms ρ room) r = if ρ = r then room else roomOf rooms r := by
  unfold roomOf
  rw [mapGet_mapSet]
  split <;> simp

theorem mapHas_mapSet {β : Type} (m : List (String × β)) (k k' : String) (v : β) :
    mapHas (mapSet m k v) k' = true ↔ k = k' ∨ mapHas m k' = true := by
  unfold mapHas
  rw [mapGet_mapSet]
  by_cases h : k = k' <;> simp [h]

theorem mapHas_ensureThread_of_has (th : List (String × List Nat)) (a t : String)
    (h : mapHas th t = true) : mapHas (ensureThread th a) t = true := by
  unfold ensureThread
  split
  · exact h
  · exact (mapHas_mapSet th a t []).mpr (Or.inr h)

theorem mapHas_appendRef (th : List (String × List Nat)) (a t : String) (ref : Nat) :
    mapHas (appendRef th a ref) t = true ↔ a = t ∨ mapHas th t = true :=
  mapHas_mapSet th a t _

theorem getD_ensureThread (th : List (String × List Nat)) (a t : String) :
    (mapGet (ensureThread th a) t).getD [] = (mapGet th t).getD [] := by
  unfold ensureThread
  split
  · rfl
  · rename_i h
    rw [mapGet_mapSet]
    split
    · rename_i hat
      subst hat
      simp only [Bool.or_eq_true, not_or, mapHas, Bool.not_eq_true, Option.not_isSome,
        Option.isNone_iff_eq_none] at h
      simp [h.1]
    · rfl

theorem mapSet_mapSet {β : Type} (m : List (String × β)) (k : String) (v v' : β) :
    mapSet (mapSet m k v) k v' = mapSet m k v' := by
  induction m with
  | nil => simp [mapSet]
  | cons p rest ih =>
    obtain ⟨k', w⟩ := p
    by_cases h : k' = k
    · simp [mapSet, h]
    · simp [mapSet, h, ih]

theorem pushThread_of_key (th : List (String × List Nat)) (t : String) (ref : Nat)
    (h : mapHas th t = true) : pushThread th t ref = some (appendRef th t ref) := by
  unfold mapHas at h
  obtain ⟨refs, hrefs⟩ := Option.isSome_iff_exists.mp h
  simp [pushThread, appendRef, hrefs]

theorem pushThread_of_no_key (th : List (String × List Nat)) (t : String) (ref : Nat)
    (h : mapHas th t = false) : pushThread th t ref = none := by
  unfold mapHas at h
  have : mapGet th t = none := by
    cases hm : mapGet th t with
    | none => rfl
    | some v => simp [hm] at h
  simp [pushThread, this]

/-- Guard and push of `send-message` on a thread id that is a key or no inherited name. -/
theorem pushThread_ensureThread (th : List (String × List Nat)) (t : String) (ref : Nat)
    (h : threadThrows th t = false) :
    pushThread (ensureThread th t) t ref = some (appendRef th t ref) := by
  cases hk : mapHas th t with
  | true =>
    have : ensureThread th t = th := by simp [ensureThread, hk]
    rw [this]
    exact pushThread_of_key th t ref hk
  | false =>
    have hin : inheritedNames.contains t = false := by
      simpa [threadThrows, hk] using h
    have hnone : mapGet th t = none := by
      cases hm : mapGet th t with
      | none => rfl
      | some v => simp [mapHas, hm] at hk
    have : ensureThread th t = mapSet th t [] := by
      simp only [ensureThread, hk, hin, Bool.or_false, Bool.false_eq_true, if_false]
    rw [this]
    simp [pushThread, appendRef, mapGet_mapSet, mapSet_mapSet, hnone]

/-- Guard and push of `send-message` on an inherited name that is no key: the push throws. -/
theorem pushThread_ensureThread_throws (th : List (String × List Nat)) (t : String) (ref : Nat)
    (h : threadThrows th t = true) : pushThread (ensureThread th t) t ref = none := by
  simp only [threadThrows, Bool.and_eq_true, Bool.not_eq_true'] at h
  have : ensureThread th t = th := by
    simp only [ensureThread, h.2, Bool.or_true, if_true]
  rw [this]
  exact pushThread_of_no_key th t ref h.1

theorem getD_appendRef (th : List (String × List Nat)) (a t : String) (ref : Nat) :
    (mapGet (appendRef th a ref) t).getD [] =
      if a = t then (mapGet th t).getD [] ++ [ref] else (mapGet th t).getD [] := by
  unfold appendRef
  rw [mapGet_mapSet]
  split
  · rename_i hat; subst hat; simp
  · rfl

theorem threadRefs_congr {s s' : State} (h : s'.chatRooms = s.chatRooms) (r t : String) :
    threadRefs s' r t = threadRefs s r t := by
  unfold threadRefs
  rw [h]

theorem threadRefs_joinChat (s : State) (c u a : String) (ρ : Option String) (now r t : String) :
    threadRefs (joinChat s c u a ρ now) r t = threadRefs s r t := by
  rw [threadRefs_eq, threadRefs_eq]
  simp only [joinChat, roomOf_mapSet]
  split
  · rename_i h
    subst h
    simp [getD_ensureThread]
  · rfl

theorem threadRefs_switchThread (s : State) (c τ r t : String) :
    threadRefs (switchThread s c τ) r t = threadRefs s r t := by
  unfold switchThread
  split
  · rfl
  · split
    · rfl
    · rename_i user _ room hroom
      rw [threadRefs_eq, threadRefs_eq]
      simp only [roomOf_mapSet]
      split
      · rename_i h
        subst h
        simp [getD_ensureThread, roomOf, hroom]
      · rfl

/-- The first half of `send-message` when nothing throws. -/
theorem sendMessage_ok (s : State) (c msg : String) (τ : Option String) (uuid now : String)
    (user : User) (h : mapGet s.activeUsers c = some user)
    (hok : threadThrows (roomOf s.chatRooms user.roomId).threads (τ.getD "default") = false) :
    sendMessage s c msg τ uuid now =
      { s with
        heap := s.heap ++ [userMessage uuid user.username msg now]
        chatRooms := mapSet s.chatRooms user.roomId
          { roomOf s.chatRooms user.roomId with
            threads := appendRef (roomOf s.chatRooms user.roomId).threads (τ.getD "default")
              s.heap.length
            activeThreads := mapSet (roomOf s.chatRooms user.roomId).activeThreads
              user.username (τ.getD "default") }
        tasks := s.tasks ++
          [Task.sendSaving c user.username user.roomId (τ.getD "default") msg s.heap.length] } := by
  simp only [sendMessage, h, pushThread_ensureThread _ _ _ hok]

/-- The first half of `send-message` when the push throws. -/
theorem sendMessage_throws (s : State) (c msg : String) (τ : Option String) (uuid now : String)
    (user : User) (h : mapGet s.activeUsers c = some user)
    (hth : threadThrows (roomOf s.chatRooms user.roomId).threads (τ.getD "default") = true) :
    sendMessage s c msg τ uuid now =
      { s with
        chatRooms :=
          if mapHas s.chatRooms user.roomId then s.chatRooms
          else mapSet s.chatRooms user.roomId (roomOf s.chatRooms user.roomId) } := by
  simp only [sendMessage, h, pushThread_ensureThread_throws _ _ _ hth]

theorem roomOf_store_missing (rooms : List (String × Room)) (ρ r : String) :
    roomOf (if mapHas rooms ρ then rooms else mapSet rooms ρ (roomOf rooms ρ)) r =
      roomOf rooms r := by
  split
  · rfl
  · rw [roomOf_mapSet]
    split
    · rename_i h
      subst h
      rfl
    · rfl

theorem threadRefs_sendMessage_throws (s : State) (c msg : String) (τ : Option String)
    (uuid now : String) (user : User) (h : mapGet s.activeUsers c = some user)
    (hth : threadThrows (roomOf s.chatRooms user.roomId).threads (τ.getD "default") = true)
    (r t : String) :
    threadRefs (sendMessage s c msg τ uuid now) r t = threadRefs s r t := by
  rw [threadRefs_eq, threadRefs_eq, sendMessage_throws s c msg τ uuid now user h hth]
  simp only [roomOf_store_missing]

theorem threadRefs_sendMessage (s : State) (c msg : String) (τ : Option String)
    (uuid now : String) (user : User) (h : mapGet s.activeUsers c = some user)
    (hok : threadThrows (roomOf s.chatRooms user.roomId).threads (τ.getD "default") = false)
    (r t : String) :
    threadRefs (sendMessage s c msg τ uuid now) r t =
      if user.roomId = r ∧ τ.getD "default" = t then threadRefs s r t ++ [s.heap.length]
      else threadRefs s r t := by
  rw [threadRefs_eq, threadRefs_eq, sendMessage_ok s c msg τ uuid now user h hok]
  simp only [roomOf_mapSet]
  by_cases h1 : user.roomId = r
  · subst h1
    simp only [if_true, getD_appendRef, true_and]
  · simp [h1]

/-- The resumption of `send-message` when the thread is a key of the room's threads. -/
theorem sendSaved_ok (s : State) (k : Nat) (uuid now c u ρ τ msg : String) (uref : Nat)
    (h : s.tasks[k]? = some (Task.sendSaving c u ρ τ msg uref))
    (hkey : mapHas (roomOf s.chatRooms ρ).threads τ = true) :
    sendSaved s k uuid now =
      { s with
        heap := s.heap ++ [aiMessage uuid now]
        chatRooms := mapSet s.chatRooms ρ
          { roomOf s.chatRooms ρ with
            threads := appendRef (roomOf s.chatRooms ρ).threads τ s.heap.length }
        activeStreams := mapSet s.activeStreams (streamKey c uuid) k
        tasks := s.tasks.set k (Task.gen
          { socketId := c, roomId := ρ, aiRef := s.heap.length, aiId := uuid,
            prompt := buildPrompt ((getThreadContext s τ ρ).getD []) msg,
            phase := Phase.posting, full := "", settled := false, aborted := false })
        emitted := s.emitted ++
          [(Target.toRoom ρ c, OutEvent.newMessage (heapGet s.heap uref)),
           (Target.toSocket c, OutEvent.messageSent (heapGet s.heap uref)),
           (Target.toRoom ρ c, OutEvent.aiMessageStart (aiMessage uuid now)),
           (Target.toSocket c, OutEvent.aiMessageStart (aiMessage uuid now))] } := by
  have hpush := pushThread_of_key _ _ s.heap.length hkey
  have hctx : ∃ ctx, getThreadContext s τ ρ = some ctx := by
    unfold getThreadContext
    cases hr : mapGet s.chatRooms ρ with
    | none => exact ⟨_, rfl⟩
    | some room =>
      have hro : roomOf s.chatRooms ρ = room := by simp [roomOf, hr]
      rw [hro] at hkey
      obtain ⟨refs, hrefs⟩ := Option.isSome_iff_exists.mp hkey
      simp only [hrefs]
      exact ⟨_, rfl⟩
  obtain ⟨ctx, hctx⟩ := hctx
  simp only [sendSaved, h, hctx, hpush, Option.getD_some]

/-- The resumption of `send-message` when the thread is no key of the room's threads: the
handler throws after its first two emissions. -/
theorem sendSaved_throws (s : State) (k : Nat) (uuid now c u ρ τ msg : String) (uref : Nat)
    (h : s.tasks[k]? = some (Task.sendSaving c u ρ τ msg uref))
    (hkey : mapHas (roomOf s.chatRooms ρ).threads τ = false) :
    sendSaved s k uuid now =
      { s with
        tasks := s.tasks.set k Task.completed
        emitted := s.emitted ++
          [(Target.toRoom ρ c, OutEvent.newMessage (heapGet s.heap uref)),
           (Target.toSocket c, OutEvent.messageSent (heapGet s.heap uref))] } := by
  have hpush := pushThread_of_no_key _ _ s.heap.length hkey
  simp only [sendSaved, h, hpush]
  split <;> rfl

theorem messagesLoadedOf_cases (heap : List Message) (th : List (String × List Nat))
    (t : String) :
    (∃ ms, messagesLoadedOf heap th t = OutEvent.messagesLoaded ms t) ∨
    messagesLoadedOf heap th t = OutEvent.messagesLoadedInherited t := by
  unfold messagesLoadedOf
  split
  · exact Or.inl ⟨_, rfl⟩
  · split
    · exact Or.inr rfl
    · exact Or.inl ⟨_, rfl⟩

theorem messagesLoadedOf_ne_chunk (heap : List Message) (th : List (String × List Nat))
    (t m p : String) : messagesLoadedOf heap th t ≠ OutEvent.aiMessageChunk m p := by
  rcases messagesLoadedOf_cases heap th t with ⟨ms, h⟩ | h <;> rw [h] <;> simp

theorem sendSaved_cases (s : State) (k : Nat) (uuid now : String) :
    sendSaved s k uuid now = s ∨
    ∃ c u ρ τ msg uref, s.tasks[k]? = some (Task.sendSaving c u ρ τ msg uref) := by
  unfold sendSaved
  split
  · rename_i c u ρ τ msg uref hj
    exact Or.inr ⟨c, u, ρ, τ, msg, uref, hj⟩
  · exact Or.inl rfl

theorem threadRefs_sendSaved (s : State) (k : Nat) (uuid now c u ρ τ msg : String) (uref : Nat)
    (h : s.tasks[k]? = some (Task.sendSaving c u ρ τ msg uref))
    (hkey : mapHas (roomOf s.chatRooms ρ).threads τ = true) (r t : String) :
    threadRefs (sendSaved s k uuid now) r t =
      if ρ = r ∧ τ = t then threadRefs s r t ++ [s.heap.length] else threadRefs s r t := by
  rw [threadRefs_eq, threadRefs_eq, sendSaved_ok s k uuid now c u ρ τ msg uref h hkey]
  simp only [roomOf_mapSet]
  by_cases h1 : ρ = r
  · subst h1
    simp only [if_true, getD_appendRef, true_and]
  · simp [h1]

/-! ## One turn of the event loop: heap and thread arrays -/

theorem quiet_listener (s : State) (g : Gen) (b : BackendEvent) (sg : State × Gen)
    (h : listener s g b = some sg) : store sg.1 = store s ∧ ids sg.1.heap = ids s.heap := by
  cases b <;> simp only [listener, Option.ite_none_right_eq_some, Option.some.injEq] at h <;>
    obtain ⟨_, rfl⟩ := h
  · exact ⟨rfl, rfl⟩
  · exact ⟨(quiet_reject _ _).1, (quiet_reject _ _).2.1⟩
  · exact ⟨(quiet_dataListener _ _).1, (quiet_dataListener _ _).2.1⟩
  · exact ⟨(quiet_finish _).1, (quiet_finish _).2.1⟩
  · exact ⟨(quiet_reject _ _).1, (quiet_reject _ _).2.1⟩

theorem backend_frame (s : State) (k : Nat) (b : BackendEvent) :
    (backend s k b).activeUsers = s.activeUsers ∧ (backend s k b).chatRooms = s.chatRooms ∧
      (backend s k b).userThreads = s.userThreads ∧
      (backend s k b).userSessions = s.userSessions ∧
      ids (backend s k b).heap = ids s.heap := by
  unfold backend
  split
  · rename_i g _
    split
    · rename_i sg hsg
      obtain ⟨h1, h2⟩ := quiet_listener s g b sg hsg
      simp only [store, Prod.mk.injEq] at h1
      simp [putGen, setTask, h1, h2]
    · simp
  · simp

/-- Every turn either keeps the message ids and every thread array, or allocates one message
object and pushes its reference onto one thread array. -/
theorem step_effect (s : State) (e : Event) :
    (ids (step s e).heap = ids s.heap ∧ ∀ r t, threadRefs (step s e) r t = threadRefs s r t) ∨
    (∃ m ρ τ, (step s e).heap = s.heap ++ [m] ∧ ∀ r t, threadRefs (step s e) r t =
      if ρ = r ∧ τ = t then threadRefs s r t ++ [s.heap.length] else threadRefs s r t) := by
  cases e
  case backend k b =>
    have hfr := backend_frame s k b
    exact Or.inl ⟨hfr.2.2.2.2, fun r t => threadRefs_congr hfr.2.1 r t⟩
  case joinChat c u a ρ now =>
    exact Or.inl ⟨rfl, fun r t => threadRefs_joinChat s c u a ρ now r t⟩
  case switchThread c τ =>
    refine Or.inl ⟨?_, fun r t => threadRefs_switchThread s c τ r t⟩
    simp only [step, switchThread]
    split
    · rfl
    · split <;> rfl
  case createThread c n uuid now =>
    refine Or.inl ⟨?_, fun r t => threadRefs_congr ?_ r t⟩ <;>
      (simp only [step, createThread]; split <;> rfl)
  case createSaved k =>
    refine Or.inl ⟨?_, fun r t => threadRefs_congr ?_ r t⟩ <;>
      (simp only [step, createSaved]; split <;> rfl)
  case stopGeneration c m =>
    refine Or.inl ⟨?_, fun r t => threadRefs_congr ?_ r t⟩ <;>
      (simp only [step, stopGeneration]; split <;> rfl)
  case disconnect c now =>
    refine Or.inl ⟨?_, fun r t => threadRefs_congr ?_ r t⟩ <;>
      (simp only [step, disconnect]; split <;> rfl)
  case sendMessage c msg τ uuid now =>
    cases hu : mapGet s.activeUsers c with
    | none =>
      refine Or.inl ⟨?_, fun r t => threadRefs_congr ?_ r t⟩ <;>
        simp [step, sendMessage, hu, emit]
    | some user =>
      cases hth : threadThrows (roomOf s.chatRooms user.roomId).threads (τ.getD "default") with
      | true =>
        refine Or.inl ⟨?_, fun r t => threadRefs_sendMessage_throws s c msg τ uuid now user hu
          hth r t⟩
        simp only [step]
        rw [sendMessage_throws s c msg τ uuid now user hu hth]
      | false =>
        refine Or.inr ⟨userMessage uuid user.username msg now, user.roomId, τ.getD "default",
          ?_, fun r t => threadRefs_sendMessage s c msg τ uuid now user hu hth r t⟩
        simp only [step]
        rw [sendMessage_ok s c msg τ uuid now user hu hth]
  case sendSaved k uuid now =>
    cases ht : s.tasks[k]? with
    | none =>
      refine Or.inl ⟨?_, fun r t => threadRefs_congr ?_ r t⟩ <;> simp [step, sendSaved, ht]
    | some task =>
      cases task with
      | sendSaving c u ρ τ msg uref =>
        cases hkey : mapHas (roomOf s.chatRooms ρ).threads τ with
        | true =>
          refine Or.inr ⟨aiMessage uuid now, ρ, τ, ?_,
            fun r t => threadRefs_sendSaved s k uuid now c u ρ τ msg uref ht hkey r t⟩
          simp only [step]
          rw [sendSaved_ok s k uuid now c u ρ τ msg uref ht hkey]
        | false =>
          have := sendSaved_throws s k uuid now c u ρ τ msg uref ht hkey
          refine Or.inl ⟨?_, fun r t => threadRefs_congr ?_ r t⟩ <;>
            (simp only [step]; rw [this])
      | _ =>
        refine Or.inl ⟨?_, fun r t => threadRefs_congr ?_ r t⟩ <;> simp [step, sendSaved, ht]

/-! ## Reference validity -/

theorem deref_append (h : List Message) (a b : List Nat) :
    deref h (a ++ b) = deref h a ++ deref h b := by
  simp [deref, List.filterMap_append]

theorem deref_grow (h : List Message) (m : Message) (refs : List Nat)
    (hv : ∀ ref ∈ refs, ref < h.length) : deref (h ++ [m]) refs = deref h refs := by
  unfold deref
  apply List.filterMap_congr
  intro ref href
  exact List.getElem?_append_left (hv ref href)

theorem deref_new (h : List Message) (m : Message) : deref (h ++ [m]) [h.length] = [m] := by
  simp [deref]

theorem ids_deref (h : List Message) (refs : List Nat) :
    ids (deref h refs) = refs.filterMap (fun r => (ids h)[r]?) := by
  unfold ids deref
  rw [List.map_filterMap]
  apply List.filterMap_congr
  intro ref _
  simp

theorem refsValid_init : RefsValid init := by
  intro r t ref h
  simp [threadRefs, init, mapGet] at h

theorem refsValid_step (s : State) (e : Event) (h : RefsValid s) : RefsValid (step s e) := by
  intro r t ref href
  rcases step_effect s e with ⟨hids, hrefs⟩ | ⟨m, ρ, τ, hheap, hrefs⟩
  · rw [hrefs] at href
    have hlen : (step s e).heap.length = s.heap.length := by
      have := congrArg List.length hids
      simpa [ids] using this
    rw [hlen]
    exact h r t ref href
  · rw [hrefs] at href
    rw [hheap, List.length_append]
    split at href
    · rcases List.mem_append.mp href with h1 | h1
      · have := h r t ref h1
        omega
      · simp at h1
        simp [h1]
    · have := h r t ref href
      omega

theorem refsValid_run (es : List Event) (s : State) (h : RefsValid s) : RefsValid (run s es) := by
  induction es generalizing s with
  | nil => exact h
  | cons e rest ih => exact ih _ (refsValid_step s e h)

theorem refsValid_of_reachable (s : State) (h : Reachable s) : RefsValid s := by
  induction h with
  | init => exact refsValid_init
  | step s e _ ih => exact refsValid_step s e ih

theorem threadIds_step (s : State) (e : Event) (h : RefsValid s) (r t : String) :
    threadIds s r t <+: threadIds (step s e) r t := by
  unfold threadIds threadMessages
  rcases step_effect s e with ⟨hids, hrefs⟩ | ⟨m, ρ, τ, hheap, hrefs⟩
  · rw [ids_deref, ids_deref, hids, hrefs]
  · rw [hrefs, hheap]
    split
    · rw [deref_append, deref_grow _ _ _ (h r t)]
      simp [ids]
    · rw [deref_grow _ _ _ (h r t)]

/-! ## A send-message handled without interruption -/

theorem sendMessage_fields (s : State) (c msg : String) (τ : Option String) (uuid now : String)
    (user : User) (h : mapGet s.activeUsers c = some user)
    (hok : threadThrows (roomOf s.chatRooms user.roomId).threads (τ.getD "default") = false) :
    (sendMessage s c msg τ uuid now).heap = s.heap ++ [userMessage uuid user.username msg now] ∧
    (sendMessage s c msg τ uuid now).tasks = s.tasks ++
      [Task.sendSaving c user.username user.roomId (τ.getD "default") msg s.heap.length] ∧
    (sendMessage s c msg τ uuid now).activeUsers = s.activeUsers ∧
    (sendMessage s c msg τ uuid now).emitted = s.emitted ∧
    (sendMessage s c msg τ uuid now).activeStreams = s.activeStreams := by
  rw [sendMessage_ok s c msg τ uuid now user h hok]
  exact ⟨rfl, rfl, rfl, rfl, rfl⟩

/-- After the first half of a `send-message` that did not throw, the thread is a key of the
room's threads. -/
theorem sendMessage_key (s : State) (c msg : String) (τ : Option String) (uuid now : String)
    (user : User) (h : mapGet s.activeUsers c = some user)
    (hok : threadThrows (roomOf s.chatRooms user.roomId).threads (τ.getD "default") = false) :
    mapHas (roomOf (sendMessage s c msg τ uuid now).chatRooms user.roomId).threads
      (τ.getD "default") = true := by
  rw [sendMessage_ok s c msg τ uuid now user h hok]
  simp only [roomOf_mapSet, if_true]
  exact (mapHas_appendRef _ _ _ _).mpr (Or.inl rfl)

theorem sendSaved_fields (s : State) (k : Nat) (uuid now c u ρ τ msg : String) (uref : Nat)
    (h : s.tasks[k]? = some (Task.sendSaving c u ρ τ msg uref))
    (hkey : mapHas (roomOf s.chatRooms ρ).threads τ = true) :
    (sendSaved s k uuid now).heap = s.heap ++ [aiMessage uuid now] ∧
    (sendSaved s k uuid now).activeUsers = s.activeUsers ∧
    (sendSaved s k uuid now).emitted = s.emitted ++
      [(Target.toRoom ρ c, OutEvent.newMessage (heapGet s.heap uref)),
       (Target.toSocket c, OutEvent.messageSent (heapGet s.heap uref)),
       (Target.toRoom ρ c, OutEvent.aiMessageStart (aiMessage uuid now)),
       (Target.toSocket c, OutEvent.aiMessageStart (aiMessage uuid now))] ∧
    (sendSaved s k uuid now).activeStreams = mapSet s.activeStreams (streamKey c uuid) k ∧
    (sendSaved s k uuid now).tasks = s.tasks.set k (Task.gen
      { socketId := c, roomId := ρ, aiRef := s.heap.length, aiId := uuid,
        prompt := buildPrompt ((getThreadContext s τ ρ).getD []) msg, phase := Phase.posting,
        full := "", settled := false, aborted := false }) := by
  rw [sendSaved_ok s k uuid now c u ρ τ msg uref h hkey]
  exact ⟨rfl, rfl, rfl, rfl, rfl⟩

theorem threadMessages_sendThrough (s : State) (t r : String) (x : Send) (hv : RefsValid s)
    (hx : InRoom s x.socketId r) (hok : threadThrows (roomOf s.chatRooms r).threads t = false) :
    threadMessages (sendThrough t s x) r t = threadMessages s r t ++
      [userMessage x.uuid (usernameOf s x.socketId) x.message x.now,
       aiMessage x.aiUuid x.aiNow] := by
  obtain ⟨user, hu, hr⟩ := hx
  subst hr
  have h1 := sendMessage_fields s x.socketId x.message (some t) x.uuid x.now user hu hok
  have hkey := sendMessage_key s x.socketId x.message (some t) x.uuid x.now user hu hok
  have ht : (sendMessage s x.socketId x.message (some t) x.uuid x.now).tasks[s.tasks.length]? =
      some (Task.sendSaving x.socketId user.username user.roomId t x.message s.heap.length) := by
    rw [h1.2.1]; simp
  have h2 := sendSaved_fields _ s.tasks.length x.aiUuid x.aiNow _ _ _ _ _ _ ht hkey
  unfold threadMessages sendThrough
  rw [threadRefs_sendSaved _ _ _ _ _ _ _ _ _ _ ht hkey,
    threadRefs_sendMessage s x.socketId x.message (some t) x.uuid x.now user hu hok, h2.1, h1.1]
  simp only [Option.getD_some, and_self, if_true, List.length_append, List.length_singleton]
  have e1 : deref (s.heap ++ [userMessage x.uuid user.username x.message x.now] ++
      [aiMessage x.aiUuid x.aiNow]) (threadRefs s user.roomId t) =
      deref s.heap (threadRefs s user.roomId t) := by
    rw [deref_grow, deref_grow _ _ _ (hv user.roomId t)]
    intro ref href
    have := hv user.roomId t ref href
    simp only [List.length_append, List.length_singleton]
    omega
  have e2 : deref (s.heap ++ [userMessage x.uuid user.username x.message x.now] ++
      [aiMessage x.aiUuid x.aiNow]) [s.heap.length] =
      [userMessage x.uuid user.username x.message x.now] := by
    rw [deref_grow, deref_new]
    intro ref href
    simp only [List.mem_singleton] at href
    simp [href]
  have e3 : deref (s.heap ++ [userMessage x.uuid user.username x.message x.now] ++
      [aiMessage x.aiUuid x.aiNow]) [s.heap.length + 1] = [aiMessage x.aiUuid x.aiNow] := by
    have := deref_new (s.heap ++ [userMessage x.uuid user.username x.message x.now])
      (aiMessage x.aiUuid x.aiNow)
    simpa using this
  rw [deref_append, deref_append, e1, e2, e3]
  simp [usernameOf, hu]

theorem sendThrough_eq_run (t : String) (s : State) (x : Send) :
    sendThrough t s x = run s [Event.sendMessage x.socketId x.message (some t) x.uuid x.now,
      Event.sendSaved s.tasks.length x.aiUuid x.aiNow] := rfl

/-- A send whose push throws: the handler is over with its first half, which leaves every
field but `chatRooms` as it was and stores at most the room the handler created. -/
theorem sendThrough_throws (t : String) (s : State) (x : Send) (user : User)
    (hu : mapGet s.activeUsers x.socketId = some user)
    (hth : threadThrows (roomOf s.chatRooms user.roomId).threads t = true) :
    sendThrough t s x =
      { s with
        chatRooms :=
          if mapHas s.chatRooms user.roomId then s.chatRooms
          else mapSet s.chatRooms user.roomId (roomOf s.chatRooms user.roomId) } := by
  unfold sendThrough
  rw [sendMessage_throws s x.socketId x.message (some t) x.uuid x.now user hu hth]
  have ht : s.tasks[s.tasks.length]? = none := by simp
  simp only [sendSaved, ht]

theorem activeUsers_sendThrough (t : String) (s : State) (x : Send) :
    (sendThrough t s x).activeUsers = s.activeUsers := by
  cases hu : mapGet s.activeUsers x.socketId with
  | none =>
    unfold sendThrough
    have : (sendMessage s x.socketId x.message (some t) x.uuid x.now) =
        emit s (Target.toSocket x.socketId) (OutEvent.error "User not authenticated") := by
      simp [sendMessage, hu]
    rw [this]
    have ht : (emit s (Target.toSocket x.socketId)
        (OutEvent.error "User not authenticated")).tasks[s.tasks.length]? = none := by
      simp [emit]
    simp [sendSaved, ht, emit]
  | some user =>
    cases hth : threadThrows (roomOf s.chatRooms user.roomId).threads t with
    | true => rw [sendThrough_throws t s x user hu hth]
    | false =>
      unfold sendThrough
      have h1 := sendMessage_fields s x.socketId x.message (some t) x.uuid x.now user hu hth
      have hkey := sendMessage_key s x.socketId x.message (some t) x.uuid x.now user hu hth
      have ht : (sendMessage s x.socketId x.message (some t) x.uuid
          x.now).tasks[s.tasks.length]? =
          some (Task.sendSaving x.socketId user.username user.roomId t x.message
            s.heap.length) := by
        rw [h1.2.1]; simp
      rw [(sendSaved_fields _ s.tasks.length x.aiUuid x.aiNow _ _ _ _ _ _ ht hkey).2.1,
        h1.2.2.1]

theorem refsValid_sendThrough (t : String) (s : State) (x : Send) (h : RefsValid s) :
    RefsValid (sendThrough t s x) := by
  rw [sendThrough_eq_run]
  exact refsValid_run _ s h

/-- After a send that went through, the thread is a key of the room's threads. -/
theorem threadThrows_sendThrough (t r : String) (s : State) (x : Send)
    (hx : InRoom s x.socketId r) (hok : threadThrows (roomOf s.chatRooms r).threads t = false) :
    threadThrows (roomOf (sendThrough t s x).chatRooms r).threads t = false := by
  obtain ⟨user, hu, hr⟩ := hx
  subst hr
  have h1 := sendMessage_fields s x.socketId x.message (some t) x.uuid x.now user hu hok
  have hkey := sendMessage_key s x.socketId x.message (some t) x.uuid x.now user hu hok
  have ht : (sendMessage s x.socketId x.message (some t) x.uuid x.now).tasks[s.tasks.length]? =
      some (Task.sendSaving x.socketId user.username user.roomId t x.message s.heap.length) := by
    rw [h1.2.1]; simp
  unfold sendThrough
  rw [sendSaved_ok _ s.tasks.length x.aiUuid x.aiNow _ _ _ _ _ _ ht hkey]
  simp only [roomOf_mapSet, if_true, threadThrows]
  have : mapHas (appendRef (roomOf (sendMessage s x.socketId x.message (some t) x.uuid
      x.now).chatRooms user.roomId).threads t (sendMessage s x.socketId x.message (some t)
      x.uuid x.now).heap.length) t = true := (mapHas_appendRef _ _ _ _).mpr (Or.inl rfl)
  simp [this]

/-- Sends handled one after another extend the thread by their user message and placeholder,
in call order. -/
theorem threadMessages_foldl_sendThrough (t r : String) (xs : List Send) (s : State)
    (hv : RefsValid s) (hx : ∀ x ∈ xs, InRoom s x.socketId r)
    (hok : threadThrows (roomOf s.chatRooms r).threads t = false) :
    threadMessages (xs.foldl (sendThrough t) s) r t = threadMessages s r t ++
      xs.flatMap (fun x => [userMessage x.uuid (usernameOf s x.socketId) x.message x.now,
        aiMessage x.aiUuid x.aiNow]) := by
  induction xs generalizing s with
  | nil => simp
  | cons x rest ih =>
    have hau := activeUsers_sendThrough t s x
    have hrest : ∀ y ∈ rest, InRoom (sendThrough t s x) y.socketId r := by
      intro y hy
      have := hx y (List.mem_cons_of_mem _ hy)
      simpa [InRoom, hau] using this
    rw [List.foldl_cons, ih _ (refsValid_sendThrough t s x hv) hrest
        (threadThrows_sendThrough t r s x (hx x (List.mem_cons_self _ _)) hok),
      threadMessages_sendThrough s t r x hv (hx x (List.mem_cons_self _ _)) hok]
    simp [usernameOf, hau, List.flatMap_cons]

/-- Sends on an inherited name that is no key of the room's threads all throw: the store
stays as it is but for rooms created empty. -/
theorem foldl_sendThrough_throws (t r : String) (xs : List Send) (s : State)
    (hx : ∀ x ∈ xs, InRoom s x.socketId r)
    (hth : threadThrows (roomOf s.chatRooms r).threads t = true) :
    (xs.foldl (sendThrough t) s).heap = s.heap ∧
    (xs.foldl (sendThrough t) s).tasks = s.tasks ∧
    (xs.foldl (sendThrough t) s).emitted = s.emitted ∧
    ∀ r' t', threadRefs (xs.foldl (sendThrough t) s) r' t' = threadRefs s r' t' := by
  induction xs generalizing s with
  | nil => exact ⟨rfl, rfl, rfl, fun _ _ => rfl⟩
  | cons x rest ih =>
    obtain ⟨user, hu, hr⟩ := hx x (List.mem_cons_self _ _)
    subst hr
    have hst := sendThrough_throws t s x user hu hth
    have hro : ∀ r', roomOf (sendThrough t s x).chatRooms r' = roomOf s.chatRooms r' := by
      intro r'
      rw [hst]
      exact roomOf_store_missing _ _ _
    have hau : (sendThrough t s x).activeUsers = s.activeUsers := by rw [hst]
    have hrest : ∀ y ∈ rest, InRoom (sendThrough t s x) y.socketId user.roomId := by
      intro y hy
      have := hx y (List.mem_cons_of_mem _ hy)
      simpa [InRoom, hau] using this
    have := ih (sendThrough t s x) hrest (by rw [hro]; exact hth)
    rw [List.foldl_cons]
    refine ⟨by rw [this.1, hst], by rw [this.2.1, hst], by rw [this.2.2.1, hst],
      fun r' t' => ?_⟩
    rw [this.2.2.2, threadRefs_eq, threadRefs_eq, hro]

/-! ## The wait of `send-message` for `saveData` -/

theorem threadIds_run (es : List Event) (s : State) (hv : RefsValid s) (r t : String) :
    threadIds s r t <+: threadIds (run s es) r t := by
  induction es generalizing s with
  | nil => exact List.prefix_refl _
  | cons e rest ih =>
    exact (threadIds_step s e hv r t).trans (ih _ (refsValid_step s e hv))

theorem getElem?_set_of_ne_gen (ts : List Task) (k j : Nat) (t : Task) (x : Task)
    (hk : ts[k]? = some x) (hj : ts[j]? ≠ some x) : (ts.set j t)[k]? = some x := by
  by_cases hjk : j = k
  · subst hjk; exact absurd hk hj
  · rw [List.getElem?_set_ne hjk]; exact hk

/-- A handler waiting for `saveData` stays suspended until its own resumption runs. -/
theorem sendSaving_step (s : State) (e : Event) (k : Nat) (c u ρ τ msg : String) (uref : Nat)
    (hk : s.tasks[k]? = some (Task.sendSaving c u ρ τ msg uref))
    (he : ∀ uuid now, e ≠ Event.sendSaved k uuid now) :
    (step s e).tasks[k]? = some (Task.sendSaving c u ρ τ msg uref) := by
  have happ : ∀ x : Task, (s.tasks ++ [x])[k]? = some (Task.sendSaving c u ρ τ msg uref) := by
    intro x
    rw [List.getElem?_append_left (List.getElem?_eq_some_iff.mp hk).1]
    exact hk
  cases e with
  | joinChat c' u' a r now => simpa [step, joinChat] using hk
  | switchThread c' t =>
    simp only [step, switchThread]
    split
    · exact hk
    · split <;> exact hk
  | createThread c' n uuid now =>
    simp only [step, createThread]
    split
    · exact hk
    · exact happ _
  | createSaved j =>
    simp only [step, createSaved]
    split
    · rename_i c' u' hj
      simp only [emit, setTask]
      exact getElem?_set_of_ne_gen _ _ _ _ _ hk (by rw [hj]; simp)
    · exact hk
  | stopGeneration c' m =>
    simp only [step, stopGeneration]
    split
    · exact hk
    · rename_i ctrl _
      split
      · rename_i g hj
        exact getElem?_set_of_ne_gen _ _ _ _ _ hk (by rw [hj]; simp)
      · exact hk
  | sendMessage c' m t uuid now =>
    simp only [step, sendMessage]
    split
    · exact hk
    · split
      · exact hk
      · exact happ _
  | sendSaved j uuid now =>
    have hjk : j ≠ k := fun h => he uuid now (by rw [h])
    simp only [step, sendSaved]
    repeat' split
    all_goals first | exact hk | (simp only; rw [List.getElem?_set_ne hjk]; exact hk)
  | disconnect c' now =>
    simp only [step, disconnect]
    split <;> exact hk
  | backend j b =>
    simp only [step, backend]
    split
    · rename_i g hj
      split
      · rename_i sg hsg
        have hq := (quiet_listener s g b sg hsg).1
        simp only [store, Prod.mk.injEq] at hq
        simp only [putGen, setTask]
        rw [hq.2.2.2.2]
        exact getElem?_set_of_ne_gen _ _ _ _ _ hk (by rw [hj]; simp)
      · exact hk
    · exact hk

theorem sendSaving_run (es : List Event) (s : State) (k : Nat) (c u ρ τ msg : String)
    (uref : Nat) (hk : s.tasks[k]? = some (Task.sendSaving c u ρ τ msg uref))
    (he : ∀ e ∈ es, ∀ uuid now, e ≠ Event.sendSaved k uuid now) :
    (run s es).tasks[k]? = some (Task.sendSaving c u ρ τ msg uref) := by
  induction es generalizing s with
  | nil => exact hk
  | cons e rest ih =>
    exact ih _ (sendSaving_step s e k c u ρ τ msg uref hk (he e (List.mem_cons_self _ _)))
      (fun e' he' => he e' (List.mem_cons_of_mem _ he'))

theorem threadMessages_sendMessage (s : State) (hv : RefsValid s) (c msg : String)
    (τ : Option String) (uuid now : String) (user : User)
    (hu : mapGet s.activeUsers c = some user)
    (hok : threadThrows (roomOf s.chatRooms user.roomId).threads (τ.getD "default") = false) :
    threadMessages (sendMessage s c msg τ uuid now) user.roomId (τ.getD "default") =
      threadMessages s user.roomId (τ.getD "default") ++
        [userMessage uuid user.username msg now] := by
  unfold threadMessages
  rw [threadRefs_sendMessage s c msg τ uuid now user hu hok,
    (sendMessage_fields s c msg τ uuid now user hu hok).1]
  simp only [and_self, if_true]
  rw [deref_append, deref_grow _ _ _ (hv _ _), deref_new]

theorem threadMessages_sendSaved (s : State) (hv : RefsValid s) (k : Nat)
    (uuid now c u ρ τ msg : String) (uref : Nat)
    (h : s.tasks[k]? = some (Task.sendSaving c u ρ τ msg uref))
    (hkey : mapHas (roomOf s.chatRooms ρ).threads τ = true) :
    threadMessages (sendSaved s k uuid now) ρ τ = threadMessages s ρ τ ++ [aiMessage uuid now] := by
  unfold threadMessages
  rw [threadRefs_sendSaved s k uuid now c u ρ τ msg uref h hkey,
    (sendSaved_fields s k uuid now c u ρ τ msg uref h hkey).1]
  simp only [and_self, if_true]
  rw [deref_append, deref_grow _ _ _ (hv _ _), deref_new]

/-! ## The listeners in closed form -/

theorem heapUpdate_heapUpdate (h : List Message) (r : Nat) (f f' : Message → Message) :
    heapUpdate (heapUpdate h r f) r f' = heapUpdate h r (fun m => f' (f m)) := by
  apply List.ext_getElem?
  intro i
  simp only [heapUpdate_getElem?]
  by_cases hri : r = i
  · simp only [hri, if_true]
    cases h[i]? <;> simp
  · simp [hri]

theorem heapUpdate_id (h : List Message) (r : Nat) (f : Message → Message)
    (hf : ∀ m, f m = m) : heapUpdate h r f = h := by
  apply List.ext_getElem?
  intro i
  simp only [heapUpdate_getElem?]
  by_cases hri : r = i
  · simp only [hri, if_true]
    cases h[i]? <;> simp [hf]
  · simp [hri]

theorem appendBody_empty (h : List Message) (r : Nat) : appendBody h r "" = h :=
  heapUpdate_id h r _ (fun m => by simp)

theorem appendBody_appendBody (h : List Message) (r : Nat) (a b : String) :
    appendBody (appendBody h r a) r b = appendBody h r (a ++ b) := by
  unfold appendBody
  rw [heapUpdate_heapUpdate]
  simp [String.append_assoc]

theorem finalBody_appendBody (h : List Message) (r : Nat) (a b : String) :
    finalBody (appendBody h r a) r b = finalBody h r b := by
  unfold finalBody appendBody
  rw [heapUpdate_heapUpdate]

theorem finalBody_finalBody (h : List Message) (r : Nat) (a b : String) :
    finalBody (finalBody h r a) r b = finalBody h r b := by
  unfold finalBody
  rw [heapUpdate_heapUpdate]

theorem finalBody_getElem? (h : List Message) (r : Nat) (text : String) (m : Message)
    (hm : h[r]? = some m) :
    (finalBody h r text)[r]? = some { m with message := text, isStreaming := some false } := by
  unfold finalBody
  rw [heapUpdate_getElem?]
  simp [hm]

theorem appendBody_getElem? (h : List Message) (r : Nat) (text : String) (m : Message)
    (hm : h[r]? = some m) :
    (appendBody h r text)[r]? = some { m with message := m.message ++ text } := by
  unfold appendBody
  rw [heapUpdate_getElem?]
  simp [hm]

theorem responses_append (a b : List (Option StreamLine)) :
    responses (a ++ b) = responses a ++ responses b := by
  simp [responses, List.filterMap_append]

theorem chunkEvents_append (g : Gen) (a b : List String) :
    chunkEvents g (a ++ b) = chunkEvents g a ++ chunkEvents g b := by
  simp [chunkEvents, List.flatMap_append]

theorem string_join_append (a b : List String) :
    String.join (a ++ b) = String.join a ++ String.join b := by
  apply String.ext
  simp [String.join_eq]

theorem string_join_cons (a : String) (b : List String) :
    String.join (a :: b) = a ++ String.join b := by
  apply String.ext
  simp [String.join_eq]

theorem onChunk_chunk (s : State) (g : Gen) (p : String) :
    onChunk s g { type := ChunkType.chunk, content := p } =
      { s with heap := appendBody s.heap g.aiRef p, emitted := s.emitted ++ chunkEvents g [p] } := by
  simp [onChunk, appendBody, chunkEvents]

theorem onChunk_done (s : State) (g : Gen) (text : String) :
    onChunk s g { type := ChunkType.done, content := text } =
      { s with heap := finalBody s.heap g.aiRef text,
               emitted := s.emitted ++ doneEvents g text } := by
  simp [onChunk, finalBody, doneEvents]

theorem responses_cons_noDone (l : Option StreamLine) (rest : List (Option StreamLine)) :
    responses (l :: rest) = responses [l] ++ responses rest := by
  rw [← responses_append]; rfl

/-- The `data` listener on lines without a `done` flag: one chunk callback per non-empty
response, nothing else. -/
theorem dataListener_noDone (lines : List (Option StreamLine)) (hnd : NoDone lines)
    (s : State) (g : Gen) :
    dataListener (s, g) lines =
      ({ s with heap := appendBody s.heap g.aiRef (String.join (responses lines)),
                emitted := s.emitted ++ chunkEvents g (responses lines) },
       { g with full := g.full ++ String.join (responses lines) }) := by
  induction lines generalizing s g with
  | nil => simp [dataListener, responses, chunkEvents, appendBody_empty, String.join]
  | cons l rest ih =>
    have hrest : NoDone rest := fun d hd => hnd d (List.mem_cons_of_mem _ hd)
    simp only [dataListener, List.foldl_cons] at ih ⊢
    cases l with
    | none =>
      rw [show streamLine (s, g) none = (s, g) from rfl, ih hrest]
      simp [responses]
    | some d =>
      have hd : d.done = false := hnd d (List.mem_cons_self _ _)
      by_cases hr : d.response = ""
      · have : streamLine (s, g) (some d) = (s, g) := by
          simp [streamLine, lineDone, lineResponse, hd, hr]
        rw [this, ih hrest]
        simp [responses, hr]
      · have : streamLine (s, g) (some d) =
            (onChunk s { g with full := g.full ++ d.response }
              { type := ChunkType.chunk, content := d.response },
             { g with full := g.full ++ d.response }) := by
          simp [streamLine, lineDone, lineResponse, hd, hr]
        rw [this, ih hrest, onChunk_chunk]
        have hresp : responses (some d :: rest) = d.response :: responses rest := by
          simp [responses, hr]
        rw [hresp, string_join_cons]
        simp only [appendBody_appendBody, String.append_assoc]
        have hce : chunkEvents g (d.response :: responses rest) =
            chunkEvents g [d.response] ++ chunkEvents g (responses rest) := by
          rw [← chunkEvents_append]; rfl
        rw [hce]
        simp [chunkEvents, List.append_assoc]

/-- The function `finish` in closed form. -/
theorem finish_eq (s : State) (g : Gen) :
    finish (s, g) =
      ({ s with heap := finalBody s.heap g.aiRef g.full,
                emitted := s.emitted ++ doneEvents g g.full,
                activeStreams := if g.settled then s.activeStreams
                  else mapDelete s.activeStreams (streamKey g.socketId g.aiId) },
       { g with settled := true }) := by
  unfold finish resolve
  rw [onChunk_done]
  by_cases hs : g.settled = true
  · simp [hs]
    cases g
    simp_all
  · simp [hs]

/-- The `data` listener on lines of which exactly the last carries the `done` flag. -/
theorem dataListener_done_last (init : List (Option StreamLine)) (d : StreamLine)
    (hnd : NoDone init) (hd : d.done = true) (s : State) (g : Gen) :
    dataListener (s, g) (init ++ [some d]) =
      ({ s with heap := finalBody s.heap g.aiRef
                  (g.full ++ String.join (responses (init ++ [some d]))),
                emitted := s.emitted ++ chunkEvents g (responses (init ++ [some d])) ++
                  doneEvents g (g.full ++ String.join (responses (init ++ [some d]))),
                activeStreams := if g.settled then s.activeStreams
                  else mapDelete s.activeStreams (streamKey g.socketId g.aiId) },
       { g with full := g.full ++ String.join (responses (init ++ [some d])),
                settled := true }) := by
  have hsplit : dataListener (s, g) (init ++ [some d]) =
      finish (dataListener (s, g) (init ++ [some { d with done := false }])) := by
    simp only [dataListener, List.foldl_append, List.foldl_cons, List.foldl_nil]
    simp [streamLine, lineDone, lineResponse, hd]
  have hnd' : NoDone (init ++ [some { d with done := false }]) := by
    intro x hx
    rcases List.mem_append.mp hx with h | h
    · exact hnd x h
    · simp at h
      rw [h]
  have hresp : responses (init ++ [some { d with done := false }]) =
      responses (init ++ [some d]) := by
    rw [responses_append, responses_append]
    rfl
  rw [hsplit, dataListener_noDone _ hnd', finish_eq, hresp]
  simp [finalBody_appendBody, chunkEvents, doneEvents]

/-! ## Backend events of one request, run one after another -/

theorem onChunk_withTasks (s : State) (ts : List Task) (g : Gen) (c : Chunk) :
    onChunk (withTasks s ts) g c = withTasks (onChunk s g c) ts := by
  unfold onChunk
  split <;> rfl

theorem resolve_withTasks (s : State) (ts : List Task) (g : Gen) :
    resolve (withTasks s ts, g) = (withTasks (resolve (s, g)).1 ts, (resolve (s, g)).2) := by
  unfold resolve
  split <;> rfl

theorem reject_withTasks (s : State) (ts : List Task) (g : Gen) (e : JsError) :
    reject (withTasks s ts, g) e = (withTasks (reject (s, g) e).1 ts, (reject (s, g) e).2) := by
  unfold reject
  split <;> rfl

theorem finish_withTasks (s : State) (ts : List Task) (g : Gen) :
    finish (withTasks s ts, g) = (withTasks (finish (s, g)).1 ts, (finish (s, g)).2) := by
  unfold finish
  simp only [onChunk_withTasks, resolve_withTasks]

theorem streamLine_withTasks (s : State) (ts : List Task) (g : Gen) (l : Option StreamLine) :
    streamLine (withTasks s ts, g) l =
      (withTasks (streamLine (s, g) l).1 ts, (streamLine (s, g) l).2) := by
  cases l with
  | none => rfl
  | some d =>
    simp only [streamLine, lineResponse, lineDone]
    by_cases hr : d.response = "" <;> by_cases hd : d.done = true <;>
      simp [hr, hd, onChunk_withTasks, finish_withTasks]

theorem dataListener_withTasks (lines : List (Option StreamLine)) (s : State) (ts : List Task)
    (g : Gen) :
    dataListener (withTasks s ts, g) lines =
      (withTasks (dataListener (s, g) lines).1 ts, (dataListener (s, g) lines).2) := by
  induction lines generalizing s g with
  | nil => rfl
  | cons l rest ih =>
    simp only [dataListener, List.foldl_cons] at ih ⊢
    rw [streamLine_withTasks, ih]

theorem listen_withTasks (s : State) (ts : List Task) (g : Gen) (b : BackendEvent) :
    listen (withTasks s ts, g) b = (withTasks (listen (s, g) b).1 ts, (listen (s, g) b).2) := by
  unfold listen
  cases b <;> simp only [listener]
  · split <;> rfl
  · split
    · simp [reject_withTasks]
    · rfl
  · split
    · simp [dataListener_withTasks]
    · rfl
  · split
    · simp [endListener, finish_withTasks]
    · rfl
  · split
    · simp [reject_withTasks]
    · rfl

theorem foldl_listen_withTasks (bs : List BackendEvent) (s : State) (ts : List Task) (g : Gen) :
    bs.foldl listen (withTasks s ts, g) =
      (withTasks (bs.foldl listen (s, g)).1 ts, (bs.foldl listen (s, g)).2) := by
  induction bs generalizing s g with
  | nil => rfl
  | cons b rest ih => simp only [List.foldl_cons]; rw [listen_withTasks, ih]

theorem tasks_listen (sg : State × Gen) (b : BackendEvent) :
    (listen sg b).1.tasks = sg.1.tasks := by
  unfold listen
  cases h : listener sg.1 sg.2 b with
  | none => rfl
  | some sg' =>
    have := (quiet_listener sg.1 sg.2 b sg' h).1
    simp only [store, Prod.mk.injEq] at this
    simpa using this.2.2.2.2

theorem set_of_getElem? {α : Type} (l : List α) (k : Nat) (x : α) (h : l[k]? = some x) :
    l.set k x = l := by
  apply List.ext_getElem?
  intro i
  by_cases hki : k = i
  · subst hki
    rw [List.getElem?_set_self (List.getElem?_eq_some_iff.mp h).1, h]
  · rw [List.getElem?_set_ne hki]

theorem putGen_self (s : State) (k : Nat) (g : Gen) (hk : s.tasks[k]? = some (Task.gen g)) :
    putGen k (s, g) = s := by
  simp only [putGen, setTask]
  rw [set_of_getElem? _ _ _ hk]

theorem backend_eq_listen (s : State) (k : Nat) (g : Gen) (b : BackendEvent)
    (hk : s.tasks[k]? = some (Task.gen g)) : backend s k b = putGen k (listen (s, g) b) := by
  unfold backend listen
  rw [hk]
  cases h : listener s g b with
  | none => simp only [h, Option.getD_none]; exact (putGen_self s k g hk).symm
  | some sg => simp only [h, Option.getD_some]

/-- Backend events of one request handled one after another: the listeners run on the closure
in order, and the closure is stored back. -/
theorem run_backend (k : Nat) (bs : List BackendEvent) (s : State) (g : Gen)
    (hk : s.tasks[k]? = some (Task.gen g)) :
    run s (bs.map (Event.backend k)) = putGen k (bs.foldl listen (s, g)) := by
  induction bs generalizing s g with
  | nil => simp [run, putGen_self s k g hk]
  | cons b rest ih =>
    have hlt := (List.getElem?_eq_some_iff.mp hk).1
    simp only [List.map_cons, run, List.foldl_cons, step] at ih ⊢
    rw [backend_eq_listen s k g b hk]
    have hk1 : (putGen k (listen (s, g) b)).tasks[k]? = some (Task.gen (listen (s, g) b).2) := by
      simp only [putGen, setTask]
      rw [List.getElem?_set_self]
      rw [tasks_listen]; exact hlt
    rw [ih _ _ hk1]
    have : putGen k (listen (s, g) b) =
        withTasks (listen (s, g) b).1 ((listen (s, g) b).1.tasks.set k
          (Task.gen (listen (s, g) b).2)) := rfl
    rw [this, foldl_listen_withTasks]
    simp only [putGen, setTask, withTasks]
    congr 1
    have h2 : ∀ (bs : List BackendEvent) (sg : State × Gen),
        (bs.foldl listen sg).1.tasks = sg.1.tasks := by
      intro bs
      induction bs with
      | nil => intro sg; rfl
      | cons b' r' ih' => intro sg; simp only [List.foldl_cons]; rw [ih', tasks_listen]
    rw [List.set_set, h2]

theorem phase_dataListener (lines : List (Option StreamLine)) (sg : State × Gen) :
    (dataListener sg lines).2.phase = sg.2.phase := by
  have := (quiet_dataListener lines sg).2.2
  simp only [ident, Prod.mk.injEq] at this
  exact this.2.2.2.2.2.1

theorem dataListener_append (a b : List (Option StreamLine)) (sg : State × Gen) :
    dataListener sg (a ++ b) = dataListener (dataListener sg a) b := by
  simp [dataListener, List.foldl_append]

theorem foldl_listen_data (cs : List (List (Option StreamLine))) (s : State) (g : Gen)
    (hp : g.phase = Phase.streaming) :
    (cs.map BackendEvent.data).foldl listen (s, g) = dataListener (s, g) cs.flatten := by
  induction cs generalizing s g with
  | nil => rfl
  | cons c rest ih =>
    simp only [List.map_cons, List.foldl_cons, List.flatten_cons]
    have h1 : listen (s, g) (BackendEvent.data c) = dataListener (s, g) c := by
      simp [listen, listener, hp]
    rw [h1, dataListener_append]
    have hp1 : (dataListener (s, g) c).2.phase = Phase.streaming := by
      rw [phase_dataListener]; exact hp
    have := ih (dataListener (s, g) c).1 (dataListener (s, g) c).2 hp1
    simpa using this

theorem listen_response (s : State) (g : Gen) (hp : g.phase = Phase.posting)
    (hs : g.settled = false) :
    listen (s, g) BackendEvent.response = (s, { g with phase := Phase.streaming, full := "" }) := by
  simp [listen, listener, hp, hs]

/-- The request is answered and the stream delivers its chunks: the listeners' view. -/
theorem foldl_listen_stream (cs : List (List (Option StreamLine))) (s : State) (g : Gen)
    (hp : g.phase = Phase.posting) (hs : g.settled = false) :
    (BackendEvent.response :: cs.map BackendEvent.data).foldl listen (s, g) =
      dataListener (s, { g with phase := Phase.streaming, full := "" }) cs.flatten := by
  rw [List.foldl_cons, listen_response s g hp hs, foldl_listen_data cs s _ rfl]

theorem heap_putGen (k : Nat) (sg : State × Gen) : (putGen k sg).heap = sg.1.heap := rfl

theorem emitted_putGen (k : Nat) (sg : State × Gen) : (putGen k sg).emitted = sg.1.emitted := rfl

theorem activeStreams_putGen (k : Nat) (sg : State × Gen) :
    (putGen k sg).activeStreams = sg.1.activeStreams := rfl

theorem tasks_putGen (k : Nat) (sg : State × Gen) (hk : k < sg.1.tasks.length) :
    (putGen k sg).tasks[k]? = some (Task.gen sg.2) := by
  simp only [putGen, setTask]
  rw [List.getElem?_set_self hk]

theorem run_append (s : State) (a b : List Event) : run s (a ++ b) = run (run s a) b := by
  simp [run, List.foldl_append]

theorem run_answered (k : Nat) (cs : List (List (Option StreamLine))) (s : State) (g : Gen)
    (hk : s.tasks[k]? = some (Task.gen g)) (hp : g.phase = Phase.posting)
    (hs : g.settled = false) :
    run s (answered k cs) =
      putGen k (dataListener (s, { g with phase := Phase.streaming, full := "" }) cs.flatten) := by
  unfold answered
  rw [run_backend k _ s g hk, foldl_listen_stream cs s g hp hs]

theorem tasks_dataListener (lines : List (Option StreamLine)) (sg : State × Gen) :
    (dataListener sg lines).1.tasks = sg.1.tasks := by
  have := (quiet_dataListener lines sg).1
  simp only [store, Prod.mk.injEq] at this
  exact this.2.2.2.2

theorem run_answered_then (k : Nat) (cs : List (List (Option StreamLine))) (s : State) (g : Gen)
    (hk : s.tasks[k]? = some (Task.gen g)) (hp : g.phase = Phase.posting)
    (hs : g.settled = false) (b : BackendEvent) :
    run s (answered k cs ++ [Event.backend k b]) =
      putGen k (listen
        (dataListener (s, { g with phase := Phase.streaming, full := "" }) cs.flatten) b) := by
  have : answered k cs ++ [Event.backend k b] =
      ((BackendEvent.response :: cs.map BackendEvent.data) ++ [b]).map (Event.backend k) := by
    simp [answered]
  rw [this, run_backend k _ s g hk, List.foldl_append, foldl_listen_stream cs s g hp hs]
  rfl

theorem heapGet_of_getElem? (h : List Message) (r : Nat) (m : Message) (hm : h[r]? = some m) :
    heapGet h r = m := by
  simp [heapGet, List.getD_eq_getElem?_getD, hm]

/-- The `catch` block in closed form. -/
theorem handlerCatch_eq (s : State) (g : Gen) (e : JsError) (m : Message)
    (hm : s.heap[g.aiRef]? = some m) :
    handlerCatch s g e =
      { s with
        heap := finalBody s.heap g.aiRef
          (if e.name = "AbortError" then m.message ++ stoppedMarker else "Error: " ++ e.message)
        emitted := s.emitted ++ doneEvents g
          (if e.name = "AbortError" then m.message ++ stoppedMarker else "Error: " ++ e.message)
        activeStreams := mapDelete s.activeStreams (streamKey g.socketId g.aiId) } := by
  simp [handlerCatch, finalBody, doneEvents, heapGet_of_getElem? _ _ _ hm]

theorem listen_requestFailed (s : State) (g : Gen) (e : JsError) (hp : g.phase = Phase.posting)
    (hs : g.settled = false) :
    listen (s, g) (BackendEvent.requestFailed e) =
      (handlerCatch s g (rethrown e), { g with settled := true }) := by
  simp [listen, listener, reject, hp, hs]

theorem listen_streamError (s : State) (g : Gen) (e : JsError) (hp : g.phase = Phase.streaming)
    (hs : g.settled = false) :
    listen (s, g) (BackendEvent.streamError e) =
      (handlerCatch s g e, { g with settled := true }) := by
  simp [listen, listener, reject, hp, hs]

theorem step_backend_eq (s : State) (k : Nat) (g : Gen) (b : BackendEvent)
    (hk : s.tasks[k]? = some (Task.gen g)) :
    step s (Event.backend k b) = putGen k (listen (s, g) b) :=
  backend_eq_listen s k g b hk

theorem chunkCallbacks_eq (ps : List String) (s : State) (g : Gen) :
    chunkCallbacks s g ps =
      { s with heap := appendBody s.heap g.aiRef (String.join ps),
               emitted := s.emitted ++ chunkEvents g ps } := by
  induction ps generalizing s with
  | nil => simp [chunkCallbacks, chunkEvents, appendBody_empty, String.join]
  | cons p rest ih =>
    simp only [chunkCallbacks, List.foldl_cons] at ih ⊢
    rw [ih, onChunk_chunk, string_join_cons]
    simp [appendBody_appendBody, chunkEvents, List.append_assoc]

theorem chunksTo_socket (g : Gen) (ps : List String) :
    chunksTo (Target.toSocket g.socketId) g.aiId (chunkEvents g ps) = ps := by
  induction ps with
  | nil => rfl
  | cons p rest ih =>
    simp only [chunkEvents, List.flatMap_cons] at ih ⊢
    simp only [chunksTo, List.cons_append, List.nil_append] at ih ⊢
    simp [List.filterMap_cons, ih]

theorem chunksTo_room (g : Gen) (ps : List String) :
    chunksTo (Target.toRoom g.roomId g.socketId) g.aiId (chunkEvents g ps) = ps := by
  induction ps with
  | nil => rfl
  | cons p rest ih =>
    simp only [chunkEvents, List.flatMap_cons] at ih ⊢
    simp only [chunksTo, List.cons_append, List.nil_append] at ih ⊢
    simp [List.filterMap_cons, ih]

theorem run_data (k : Nat) (cs : List (List (Option StreamLine))) (s : State) (g : Gen)
    (hk : s.tasks[k]? = some (Task.gen g)) (hp : g.phase = Phase.streaming) :
    run s (cs.map (fun c => Event.backend k (BackendEvent.data c))) =
      putGen k (dataListener (s, g) cs.flatten) := by
  have : cs.map (fun c => Event.backend k (BackendEvent.data c)) =
      (cs.map BackendEvent.data).map (Event.backend k) := by simp
  rw [this, run_backend k _ s g hk, foldl_listen_data cs s g hp]

/-! ## The registry of active streams -/

theorem mapDelete_mapDelete {β : Type} (m : List (String × β)) (k : String) :
    mapDelete (mapDelete m k) k = mapDelete m k := by
  induction m with
  | nil => rfl
  | cons p rest ih =>
    obtain ⟨k0, v0⟩ := p
    by_cases h0 : k0 = k
    · simp [mapDelete, h0, ih]
    · simp [mapDelete, h0, ih]

theorem eq_nil_of_mapGet_none {β : Type} (m : List (String × β))
    (h : ∀ k, mapGet m k = none) : m = [] := by
  cases m with
  | nil => rfl
  | cons p rest =>
    obtain ⟨k0, v0⟩ := p
    have := h k0
    simp [mapGet] at this

theorem ident_socket_aiId {g g' : Gen} (h : ident g' = ident g) :
    g'.socketId = g.socketId ∧ g'.aiId = g.aiId := by
  simp only [ident, Prod.mk.injEq] at h
  exact ⟨h.1, h.2.2.2.1⟩

theorem settling_refl {sg : State × Gen} : Settling sg sg := Or.inl ⟨by simp, by simp⟩

theorem settling_trans {a b c : State × Gen} (hq : Quiet a b) (h1 : Settling a b)
    (h2 : Settling b c) : Settling a c := by
  obtain ⟨hs, hi⟩ := ident_socket_aiId hq.2.2
  rcases h1 with ⟨r1, s1⟩ | ⟨s1, r1⟩ <;> rcases h2 with ⟨r2, s2⟩ | ⟨s2, r2⟩
  · exact Or.inl ⟨r2.trans r1, s2.trans s1⟩
  · exact Or.inr ⟨s2, by rw [r2, r1, hs, hi]⟩
  · exact Or.inr ⟨s2.trans s1, r2.trans r1⟩
  · exact Or.inr ⟨s2, by rw [r2, r1, hs, hi, mapDelete_mapDelete]⟩

theorem settling_onChunk (s : State) (g g' : Gen) (c : Chunk) (hs : g'.settled = g.settled) :
    Settling (s, g) (onChunk s g' c, g') := by
  refine Or.inl ⟨?_, hs⟩
  unfold onChunk
  split <;> rfl

theorem settling_resolve (sg : State × Gen) : Settling sg (resolve sg) := by
  unfold resolve
  split
  · exact settling_refl
  · exact Or.inr ⟨rfl, rfl⟩

theorem settling_reject (sg : State × Gen) (e : JsError) : Settling sg (reject sg e) := by
  unfold reject
  split
  · exact settling_refl
  · exact Or.inr ⟨rfl, rfl⟩

theorem settling_finish (sg : State × Gen) : Settling sg (finish sg) :=
  settling_trans (quiet_onChunk sg.1 sg.2 sg.2 _ (by simp))
    (settling_onChunk sg.1 sg.2 sg.2 _ (by simp)) (settling_resolve _)

theorem settling_lineResponse (sg : State × Gen) (d : StreamLine) :
    Settling sg (lineResponse sg d) := by
  unfold lineResponse
  split
  · exact settling_refl
  · exact settling_onChunk sg.1 sg.2 _ _ (by simp)

theorem settling_lineDone (sg : State × Gen) (d : StreamLine) :
    Settling sg (lineDone sg d) := by
  unfold lineDone
  split
  · exact settling_finish sg
  · exact settling_refl

theorem settling_streamLine (sg : State × Gen) (l : Option StreamLine) :
    Settling sg (streamLine sg l) := by
  cases l with
  | none => exact settling_refl
  | some d =>
    exact settling_trans (quiet_lineResponse sg d) (settling_lineResponse sg d)
      (settling_lineDone _ d)

theorem settling_dataListener (lines : List (Option StreamLine)) (sg : State × Gen) :
    Settling sg (dataListener sg lines) := by
  induction lines generalizing sg with
  | nil => exact settling_refl
  | cons l rest ih =>
    exact settling_trans (quiet_streamLine sg l) (settling_streamLine sg l) (ih _)

theorem quiet_listen (sg : State × Gen) (b : BackendEvent) :
    store (listen sg b).1 = store sg.1 ∧ (listen sg b).2.socketId = sg.2.socketId ∧
      (listen sg b).2.aiId = sg.2.aiId := by
  unfold listen
  cases b <;> simp only [listener]
  · split
    · exact ⟨rfl, rfl, rfl⟩
    · exact ⟨rfl, rfl, rfl⟩
  · split
    · have h := quiet_reject sg (rethrown ‹JsError›)
      exact ⟨h.1, (ident_socket_aiId h.2.2).1, (ident_socket_aiId h.2.2).2⟩
    · exact ⟨rfl, rfl, rfl⟩
  · split
    · have h := quiet_dataListener ‹List (Option StreamLine)› sg
      exact ⟨h.1, (ident_socket_aiId h.2.2).1, (ident_socket_aiId h.2.2).2⟩
    · exact ⟨rfl, rfl, rfl⟩
  · split
    · have h := quiet_finish sg
      exact ⟨h.1, (ident_socket_aiId h.2.2).1, (ident_socket_aiId h.2.2).2⟩
    · exact ⟨rfl, rfl, rfl⟩
  · split
    · have h := quiet_reject sg ‹JsError›
      exact ⟨h.1, (ident_socket_aiId h.2.2).1, (ident_socket_aiId h.2.2).2⟩
    · exact ⟨rfl, rfl, rfl⟩

theorem settling_listen (sg : State × Gen) (b : BackendEvent) : Settling sg (listen sg b) := by
  unfold listen
  cases b <;> simp only [listener]
  · split
    · exact Or.inl ⟨rfl, rfl⟩
    · exact settling_refl
  · split
    · exact settling_reject sg _
    · exact settling_refl
  · split
    · exact settling_dataListener _ sg
    · exact settling_refl
  · split
    · exact settling_finish sg
    · exact settling_refl
  · split
    · exact settling_reject sg _
    · exact settling_refl

theorem getElem?_append_of_some {α : Type} (l l' : List α) (k : Nat) (x : α)
    (h : l[k]? = some x) : (l ++ l')[k]? = some x := by
  rw [List.getElem?_append_left (List.getElem?_eq_some_iff.mp h).1]
  exact h

theorem streamsLive_init : StreamsLive init := by
  intro key k h
  simp [init, mapGet] at h

theorem streamsLive_of_eq {s s' : State} (h : StreamsLive s)
    (hr : s'.activeStreams = s.activeStreams) (ht : s'.tasks = s.tasks) : StreamsLive s' := by
  intro key k hk
  rw [hr] at hk
  rw [ht]
  exact h key k hk

theorem streamsLive_append {s s' : State} (h : StreamsLive s) (x : Task)
    (hr : s'.activeStreams = s.activeStreams) (ht : s'.tasks = s.tasks ++ [x]) :
    StreamsLive s' := by
  intro key k hk
  rw [hr] at hk
  obtain ⟨g, hg, hs, hkey⟩ := h key k hk
  exact ⟨g, by rw [ht]; exact getElem?_append_of_some _ _ _ _ hg, hs, hkey⟩

theorem streamsLive_backend (s : State) (k : Nat) (b : BackendEvent) (h : StreamsLive s) :
    StreamsLive (backend s k b) := by
  cases hk : s.tasks[k]? with
  | none => simpa [backend, hk] using h
  | some t =>
    cases t with
    | gen g =>
      rw [backend_eq_listen s k g b hk]
      have hq := quiet_listen (s, g) b
      have hst := settling_listen (s, g) b
      have htasks : (listen (s, g) b).1.tasks = s.tasks := tasks_listen (s, g) b
      intro key k' hkey
      simp only [activeStreams_putGen] at hkey
      simp only [putGen, setTask]
      rcases hst with ⟨hr, hs⟩ | ⟨hs, hr⟩
      · rw [hr] at hkey
        obtain ⟨g0, hg0, hs0, hkey0⟩ := h key k' hkey
        by_cases hkk : k = k'
        · subst hkk
          rw [hk] at hg0
          cases hg0
          refine ⟨(listen (s, g) b).2, ?_, ?_, ?_⟩
          · rw [htasks, List.getElem?_set_self (List.getElem?_eq_some_iff.mp hk).1]
          · rw [hs]; exact hs0
          · rw [hq.2.1, hq.2.2]; exact hkey0
        · exact ⟨g0, by rw [htasks, List.getElem?_set_ne hkk]; exact hg0, hs0, hkey0⟩
      · rw [hr, mapGet_mapDelete] at hkey
        split at hkey
        · cases hkey
        · rename_i hne
          obtain ⟨g0, hg0, hs0, hkey0⟩ := h key k' hkey
          by_cases hkk : k = k'
          · subst hkk
            rw [hk] at hg0
            cases hg0
            exact absurd hkey0.symm hne
          · exact ⟨g0, by rw [htasks, List.getElem?_set_ne hkk]; exact hg0, hs0, hkey0⟩
    | sendSaving c u ρ τ msg uref => simpa [backend, hk] using h
    | createSaving c u => simpa [backend, hk] using h
    | completed => simpa [backend, hk] using h

theorem streamsLive_step (s : State) (e : Event) (h : StreamsLive s) :
    StreamsLive (step s e) := by
  cases e with
  | joinChat c u a r now => exact streamsLive_of_eq h rfl rfl
  | switchThread c t =>
    simp only [step, switchThread]
    split
    · exact streamsLive_of_eq h rfl rfl
    · split <;> exact streamsLive_of_eq h rfl rfl
  | createThread c n uuid now =>
    simp only [step, createThread]
    split
    · exact streamsLive_of_eq h rfl rfl
    · exact streamsLive_append h _ rfl rfl
  | createSaved j =>
    simp only [step, createSaved]
    split
    · rename_i c u hj
      intro key k hk
      obtain ⟨g, hg, hs, hkey⟩ := h key k hk
      refine ⟨g, ?_, hs, hkey⟩
      simp only [emit, setTask]
      exact getElem?_set_of_ne_gen _ _ _ _ _ hg (by rw [hj]; simp)
    · exact h
  | stopGeneration c m =>
    simp only [step, stopGeneration]
    split
    · exact h
    · rename_i ctrl hctrl
      intro key k hk
      simp only [mapGet_mapDelete] at hk
      split at hk
      · cases hk
      · obtain ⟨g, hg, hs, hkey⟩ := h key k hk
        simp only
        split
        · rename_i g0 hg0
          by_cases hck : ctrl = k
          · subst hck
            rw [hg0] at hg
            cases hg
            exact ⟨{ g with aborted := true },
              by rw [List.getElem?_set_self (List.getElem?_eq_some_iff.mp hg0).1], hs, hkey⟩
          · exact ⟨g, by rw [List.getElem?_set_ne hck]; exact hg, hs, hkey⟩
        · exact ⟨g, hg, hs, hkey⟩
  | sendMessage c m t uuid now =>
    simp only [step, sendMessage]
    split
    · exact streamsLive_of_eq h rfl rfl
    · split
      · exact streamsLive_of_eq h rfl rfl
      · exact streamsLive_append h _ rfl rfl
  | sendSaved j uuid now =>
    show StreamsLive (sendSaved s j uuid now)
    rcases sendSaved_cases s j uuid now with h0 | ⟨c, u, ρ, τ, msg, uref, hj⟩
    · rw [h0]; exact h
    · have hlt := (List.getElem?_eq_some_iff.mp hj).1
      cases hkey : mapHas (roomOf s.chatRooms ρ).threads τ with
      | false =>
        rw [sendSaved_throws s j uuid now c u ρ τ msg uref hj hkey]
        intro key k hk
        obtain ⟨g, hg, hs, hkey⟩ := h key k hk
        refine ⟨g, ?_, hs, hkey⟩
        simp only
        exact getElem?_set_of_ne_gen _ _ _ _ _ hg (by rw [hj]; simp)
      | true =>
        rw [sendSaved_ok s j uuid now c u ρ τ msg uref hj hkey]
        intro key k hk
        simp only [mapGet_mapSet] at hk
        split at hk
        · rename_i hkey
          cases hk
          exact ⟨_, by simp only; rw [List.getElem?_set_self hlt], rfl, hkey.symm⟩
        · obtain ⟨g, hg, hs, hkey⟩ := h key k hk
          refine ⟨g, ?_, hs, hkey⟩
          simp only
          exact getElem?_set_of_ne_gen _ _ _ _ _ hg (by rw [hj]; simp)
  | disconnect c now =>
    simp only [step, disconnect]
    split <;> exact streamsLive_of_eq h rfl rfl
  | backend k b => exact streamsLive_backend s k b h

theorem streamsLive_of_reachable (s : State) (h : Reachable s) : StreamsLive s := by
  induction h with
  | init => exact streamsLive_init
  | step s e _ ih => exact streamsLive_step s e ih

theorem reachable_run (es : List Event) (s : State) (h : Reachable s) :
    Reachable (run s es) := by
  induction es generalizing s with
  | nil => exact h
  | cons e rest ih => exact ih _ (Reachable.step s e h)

/-! ## What a turn emits -/

theorem emitsOnly_refl {P : Target × OutEvent → Prop} {l : List (Target × OutEvent)} :
    EmitsOnly P l l := ⟨[], by simp, by simp⟩

theorem emitsOnly_trans {P : Target × OutEvent → Prop} {a b c : List (Target × OutEvent)}
    (h1 : EmitsOnly P a b) (h2 : EmitsOnly P b c) : EmitsOnly P a c := by
  obtain ⟨n1, e1, p1⟩ := h1
  obtain ⟨n2, e2, p2⟩ := h2
  refine ⟨n1 ++ n2, by rw [e2, e1, List.append_assoc], ?_⟩
  intro ev hev
  rcases List.mem_append.mp hev with h | h
  · exact p1 ev h
  · exact p2 ev h

theorem emitsOnly_mono {P Q : Target × OutEvent → Prop} {a b : List (Target × OutEvent)}
    (h : EmitsOnly P a b) (hpq : ∀ ev, P ev → Q ev) : EmitsOnly Q a b := by
  obtain ⟨n, e, p⟩ := h
  exact ⟨n, e, fun ev hev => hpq ev (p ev hev)⟩

theorem chunkOf_mono {aiId : String} {ps qs : List String} (h : ∀ p ∈ ps, p ∈ qs)
    (ev : Target × OutEvent) (hev : ChunkOf aiId ps ev) : ChunkOf aiId qs ev :=
  fun m p hmp => ⟨(hev m p hmp).1, h p (hev m p hmp).2⟩

theorem chunkOf_done (aiId : String) (ps : List String) (g : Gen) (content : String) :
    ∀ ev ∈ doneEvents g content, ChunkOf aiId ps ev := by
  intro ev hev m p hmp
  simp only [doneEvents, List.mem_cons, List.mem_singleton, List.not_mem_nil, or_false] at hev
  rcases hev with h | h <;> rw [h] at hmp <;> cases hmp

theorem emits_finish (sg : State × Gen) (ps : List String) :
    EmitsOnly (ChunkOf sg.2.aiId ps) sg.1.emitted (finish sg).1.emitted := by
  rw [show sg = (sg.1, sg.2) from rfl, finish_eq]
  exact ⟨_, rfl, chunkOf_done _ _ _ _⟩

theorem emits_reject (sg : State × Gen) (e : JsError) (ps : List String) :
    EmitsOnly (ChunkOf sg.2.aiId ps) sg.1.emitted (reject sg e).1.emitted := by
  unfold reject
  split
  · exact emitsOnly_refl
  · exact ⟨_, rfl, chunkOf_done _ _ sg.2 _⟩

theorem emits_lineResponse (sg : State × Gen) (d : StreamLine) :
    EmitsOnly (ChunkOf sg.2.aiId (responses [some d])) sg.1.emitted
      (lineResponse sg d).1.emitted := by
  unfold lineResponse
  split
  · exact emitsOnly_refl
  · rename_i hr
    rw [onChunk_chunk]
    refine ⟨_, rfl, ?_⟩
    intro ev hev m p hmp
    simp only [chunkEvents, List.flatMap_cons, List.flatMap_nil, List.append_nil, List.mem_cons,
      List.mem_singleton, List.not_mem_nil, or_false] at hev
    have hresp : responses [some d] = [d.response] := by simp [responses, hr]
    rw [hresp]
    rcases hev with h | h <;> rw [h] at hmp <;> simp only [OutEvent.aiMessageChunk.injEq] at hmp <;>
      exact ⟨hmp.1.symm, by simp [hmp.2]⟩

theorem emits_streamLine (sg : State × Gen) (l : Option StreamLine) :
    EmitsOnly (ChunkOf sg.2.aiId (responses [l])) sg.1.emitted (streamLine sg l).1.emitted := by
  cases l with
  | none => exact emitsOnly_refl
  | some d =>
    have h1 := emits_lineResponse sg d
    have hid := (ident_socket_aiId (quiet_lineResponse sg d).2.2).2
    have h2 : EmitsOnly (ChunkOf sg.2.aiId (responses [some d])) (lineResponse sg d).1.emitted
        (lineDone (lineResponse sg d) d).1.emitted := by
      unfold lineDone
      split
      · rw [← hid]; exact emits_finish _ _
      · exact emitsOnly_refl
    exact emitsOnly_trans h1 h2

theorem emits_dataListener (lines : List (Option StreamLine)) (sg : State × Gen) :
    EmitsOnly (ChunkOf sg.2.aiId (responses lines)) sg.1.emitted
      (dataListener sg lines).1.emitted := by
  induction lines generalizing sg with
  | nil => exact emitsOnly_refl
  | cons l rest ih =>
    have h1 := emits_streamLine sg l
    have h2 := ih (streamLine sg l)
    rw [(ident_socket_aiId (quiet_streamLine sg l).2.2).2] at h2
    have hsplit : responses (l :: rest) = responses [l] ++ responses rest :=
      responses_cons_noDone l rest
    refine emitsOnly_trans (emitsOnly_mono h1 (chunkOf_mono ?_)) (emitsOnly_mono h2 (chunkOf_mono ?_))
    · intro p hp; rw [hsplit]; exact List.mem_append_left _ hp
    · intro p hp; rw [hsplit]; exact List.mem_append_right _ hp

/-- A turn that is not a `data` event of a response stream emits no `ai-message-chunk`. -/
theorem emits_step_noData (s : State) (e : Event)
    (he : ∀ k lines, e ≠ Event.backend k (BackendEvent.data lines)) :
    EmitsOnly (ChunkOf "" []) s.emitted (step s e).emitted := by
  have hno : ∀ (l : List (Target × OutEvent)),
      (∀ ev ∈ l, ∀ m p, ev.2 ≠ OutEvent.aiMessageChunk m p) →
      EmitsOnly (ChunkOf "" []) s.emitted (s.emitted ++ l) :=
    fun l hl => ⟨l, rfl, fun ev hev m p hmp => absurd hmp (hl ev hev m p)⟩
  cases e with
  | joinChat c u a r now =>
    exact hno _ (by
      intro ev hev m p; simp at hev
      rcases hev with h | h | h <;> rw [h] <;> simp [messagesLoadedOf_ne_chunk])
  | switchThread c t =>
    simp only [step, switchThread]
    split
    · exact hno _ (by intro ev hev m p; simp at hev; rw [hev]; simp)
    · split
      · exact hno _ (by intro ev hev m p; simp at hev; rw [hev]; simp)
      · exact hno _ (by
          intro ev hev m p; simp at hev; rw [hev]; simp [messagesLoadedOf_ne_chunk])
  | createThread c n uuid now =>
    simp only [step, createThread]
    split
    · exact hno _ (by intro ev hev m p; simp at hev; rw [hev]; simp)
    · exact emitsOnly_refl
  | createSaved j =>
    simp only [step, createSaved]
    split
    · exact hno _ (by intro ev hev m p; simp at hev; rw [hev]; simp)
    · exact emitsOnly_refl
  | stopGeneration c m =>
    simp only [step, stopGeneration]
    split
    · exact emitsOnly_refl
    · exact hno _ (by intro ev hev m p; simp at hev; rw [hev]; simp)
  | sendMessage c m t uuid now =>
    simp only [step, sendMessage]
    split
    · exact hno _ (by intro ev hev m p; simp at hev; rw [hev]; simp)
    · split <;> exact emitsOnly_refl
  | sendSaved j uuid now =>
    show EmitsOnly (ChunkOf "" []) s.emitted (sendSaved s j uuid now).emitted
    rcases sendSaved_cases s j uuid now with h0 | ⟨c, u, ρ, τ, msg, uref, hj⟩
    · rw [h0]; exact emitsOnly_refl
    · cases hkey : mapHas (roomOf s.chatRooms ρ).threads τ with
      | false =>
        rw [sendSaved_throws s j uuid now c u ρ τ msg uref hj hkey]
        exact hno _ (by
          intro ev hev m p; simp at hev; rcases hev with h | h <;> rw [h] <;> simp)
      | true =>
        rw [sendSaved_ok s j uuid now c u ρ τ msg uref hj hkey]
        exact hno _ (by
          intro ev hev m p; simp at hev; rcases hev with h | h | h | h <;> rw [h] <;> simp)
  | disconnect c now =>
    simp only [step, disconnect]
    split <;> exact emitsOnly_refl
  | backend k b =>
    cases hk : s.tasks[k]? with
    | none => simp only [step, backend, hk]; exact emitsOnly_refl
    | some t =>
      cases t with
      | gen g =>
        rw [step_backend_eq s k g b hk, emitted_putGen]
        have hmono : ∀ ev, ChunkOf g.aiId [] ev → ChunkOf "" [] ev :=
          fun ev h m p hmp => absurd (h m p hmp).2 (List.not_mem_nil _)
        cases b with
        | response => simp only [listen, listener]; split <;> exact emitsOnly_refl
        | requestFailed e =>
          simp only [listen, listener]
          split
          · exact emitsOnly_mono (emits_reject (s, g) _ []) hmono
          · exact emitsOnly_refl
        | data lines => exact absurd rfl (he k lines)
        | streamEnd =>
          simp only [listen, listener]
          split
          · exact emitsOnly_mono (emits_finish (s, g) []) hmono
          · exact emitsOnly_refl
        | streamError e =>
          simp only [listen, listener]
          split
          · exact emitsOnly_mono (emits_reject (s, g) _ []) hmono
          · exact emitsOnly_refl
      | sendSaving c u ρ τ msg uref => simp only [step, backend, hk]; exact emitsOnly_refl
      | createSaving c u => simp only [step, backend, hk]; exact emitsOnly_refl
      | completed => simp only [step, backend, hk]; exact emitsOnly_refl

theorem newEvents_of_emitsOnly (P : Target × OutEvent → Prop) (s : State) (e : Event)
    (h : EmitsOnly P s.emitted (step s e).emitted) : ∀ ev ∈ newEvents s e, P ev := by
  obtain ⟨new, hnew, hp⟩ := h
  unfold newEvents
  rw [hnew, List.drop_left]
  exact hp

/-! ## Listeners act on their own message object only -/

theorem core_aiRef {g g' : Gen} (h : core g = core g') : g.aiRef = g'.aiRef := by
  simp only [core, Prod.mk.injEq] at h
  exact h.2.2.1

theorem sim_refl (a : State × Gen) : Sim a a := ⟨rfl, rfl⟩

theorem sim_symm {a b : State × Gen} (h : Sim a b) : Sim b a := ⟨h.1.symm, h.2.symm⟩

theorem sim_trans {a b c : State × Gen} (h1 : Sim a b) (h2 : Sim b c) : Sim a c :=
  ⟨h1.1.trans h2.1, h1.2.trans h2.2⟩

theorem sim_onChunk (s1 s2 : State) (g1 g2 : Gen) (c : Chunk) (h : Sim (s1, g1) (s2, g2)) :
    Sim (onChunk s1 g1 c, g1) (onChunk s2 g2 c, g2) := by
  obtain ⟨hh, hc⟩ := h
  have hr := core_aiRef hc
  simp only at hh hr
  refine ⟨?_, hc⟩
  unfold onChunk
  split <;> simp only [heapUpdate_getElem?, if_true, hh]

theorem sim_resolve (a b : State × Gen) (h : Sim a b) : Sim (resolve a) (resolve b) := by
  obtain ⟨hh, hc⟩ := h
  have hs : a.2.settled = b.2.settled := by
    simp only [core, Prod.mk.injEq] at hc
    exact hc.2.2.2.2.2.2.2
  unfold resolve
  rw [hs]
  split
  · exact ⟨hh, hc⟩
  · refine ⟨hh, ?_⟩
    simp only [core, Prod.mk.injEq] at hc ⊢
    simp [hc]

theorem heapGet_eq_of_getElem? (h1 h2 : List Message) (r1 r2 : Nat)
    (h : h1[r1]? = h2[r2]?) : heapGet h1 r1 = heapGet h2 r2 := by
  simp [heapGet, List.getD_eq_getElem?_getD, h]

theorem sim_reject (a b : State × Gen) (e : JsError) (h : Sim a b) :
    Sim (reject a e) (reject b e) := by
  obtain ⟨hh, hc⟩ := h
  have hs : a.2.settled = b.2.settled := by
    simp only [core, Prod.mk.injEq] at hc
    exact hc.2.2.2.2.2.2.2
  unfold reject
  rw [hs]
  split
  · exact ⟨hh, hc⟩
  · constructor
    · simp only [handlerCatch, heapUpdate_getElem?, if_true, hh,
        heapGet_eq_of_getElem? _ _ _ _ hh]
    · simp only [core, Prod.mk.injEq] at hc ⊢
      simp [hc]

theorem core_full {g g' : Gen} (h : core g = core g') : g.full = g'.full := by
  simp only [core, Prod.mk.injEq] at h
  exact h.2.2.2.2.2.2.1

theorem sim_finish (a b : State × Gen) (h : Sim a b) : Sim (finish a) (finish b) := by
  unfold finish
  apply sim_resolve
  rw [core_full h.2]
  exact sim_onChunk a.1 b.1 a.2 b.2 _ h

theorem sim_lineResponse (a b : State × Gen) (d : StreamLine) (h : Sim a b) :
    Sim (lineResponse a d) (lineResponse b d) := by
  unfold lineResponse
  split
  · exact h
  · apply sim_onChunk
    obtain ⟨hh, hc⟩ := h
    refine ⟨hh, ?_⟩
    simp only [core, Prod.mk.injEq] at hc ⊢
    simp [hc]

theorem sim_lineDone (a b : State × Gen) (d : StreamLine) (h : Sim a b) :
    Sim (lineDone a d) (lineDone b d) := by
  unfold lineDone
  split
  · exact sim_finish a b h
  · exact h

theorem sim_streamLine (a b : State × Gen) (l : Option StreamLine) (h : Sim a b) :
    Sim (streamLine a l) (streamLine b l) := by
  cases l with
  | none => exact h
  | some d => exact sim_lineDone _ _ d (sim_lineResponse a b d h)

theorem sim_dataListener (lines : List (Option StreamLine)) (a b : State × Gen) (h : Sim a b) :
    Sim (dataListener a lines) (dataListener b lines) := by
  induction lines generalizing a b with
  | nil => exact h
  | cons l rest ih => exact ih _ _ (sim_streamLine a b l h)

theorem sim_listen (a b : State × Gen) (ev : BackendEvent) (h : Sim a b) :
    Sim (listen a ev) (listen b ev) := by
  have hp : a.2.phase = b.2.phase := by
    have := h.2
    simp only [core, Prod.mk.injEq] at this
    exact this.2.2.2.2.2.1
  have hs : a.2.settled = b.2.settled := by
    have := h.2
    simp only [core, Prod.mk.injEq] at this
    exact this.2.2.2.2.2.2.2
  unfold listen
  cases ev <;> simp only [listener, hp, hs]
  · split
    · obtain ⟨hh, hc⟩ := h
      refine ⟨hh, ?_⟩
      simp only [core, Prod.mk.injEq] at hc ⊢
      simp [hc]
    · exact h
  · split
    · exact sim_reject a b _ h
    · exact h
  · split
    · exact sim_dataListener _ a b h
    · exact h
  · split
    · exact sim_finish a b h
    · exact h
  · split
    · exact sim_reject a b _ h
    · exact h

theorem sim_foldl_listen (bs : List BackendEvent) (a b : State × Gen) (h : Sim a b) :
    Sim (bs.foldl listen a) (bs.foldl listen b) := by
  induction bs generalizing a b with
  | nil => exact h
  | cons ev rest ih => exact ih _ _ (sim_listen a b ev h)

theorem ident_aiRef {g g' : Gen} (h : ident g' = ident g) : g'.aiRef = g.aiRef := by
  simp only [ident, Prod.mk.injEq] at h
  exact h.2.2.1

theorem heapElsewhere_refl (a : State × Gen) : HeapElsewhere a a := fun _ _ => rfl

theorem heapElsewhere_trans {a b c : State × Gen} (hq : Quiet a b) (h1 : HeapElsewhere a b)
    (h2 : HeapElsewhere b c) : HeapElsewhere a c := by
  intro i hi
  rw [h2 i (by rw [ident_aiRef hq.2.2]; exact hi), h1 i hi]

theorem heapElsewhere_onChunk (s : State) (g g' : Gen) (c : Chunk) (hr : g'.aiRef = g.aiRef) :
    HeapElsewhere (s, g) (onChunk s g' c, g') := by
  intro i hi
  simp only at hi
  unfold onChunk
  split <;> simp only [heapUpdate_getElem?, hr, if_neg (Ne.symm hi)]

theorem heapElsewhere_resolve (a : State × Gen) : HeapElsewhere a (resolve a) := by
  unfold resolve
  split
  · exact heapElsewhere_refl a
  · exact fun _ _ => rfl

theorem heapElsewhere_reject (a : State × Gen) (e : JsError) :
    HeapElsewhere a (reject a e) := by
  unfold reject
  split
  · exact heapElsewhere_refl a
  · intro i hi
    simp only [handlerCatch, heapUpdate_getElem?, if_neg (Ne.symm hi)]

theorem heapElsewhere_finish (a : State × Gen) : HeapElsewhere a (finish a) :=
  heapElsewhere_trans (quiet_onChunk a.1 a.2 a.2 _ (by simp))
    (heapElsewhere_onChunk a.1 a.2 a.2 _ rfl) (heapElsewhere_resolve _)

theorem heapElsewhere_lineResponse (a : State × Gen) (d : StreamLine) :
    HeapElsewhere a (lineResponse a d) := by
  unfold lineResponse
  split
  · exact heapElsewhere_refl a
  · exact heapElsewhere_onChunk a.1 a.2 _ _ rfl

theorem heapElsewhere_lineDone (a : State × Gen) (d : StreamLine) :
    HeapElsewhere a (lineDone a d) := by
  unfold lineDone
  split
  · exact heapElsewhere_finish a
  · exact heapElsewhere_refl a

theorem heapElsewhere_streamLine (a : State × Gen) (l : Option StreamLine) :
    HeapElsewhere a (streamLine a l) := by
  cases l with
  | none => exact heapElsewhere_refl a
  | some d =>
    exact heapElsewhere_trans (quiet_lineResponse a d) (heapElsewhere_lineResponse a d)
      (heapElsewhere_lineDone _ d)

theorem heapElsewhere_dataListener (lines : List (Option StreamLine)) (a : State × Gen) :
    HeapElsewhere a (dataListener a lines) := by
  induction lines generalizing a with
  | nil => exact heapElsewhere_refl a
  | cons l rest ih =>
    exact heapElsewhere_trans (quiet_streamLine a l) (heapElsewhere_streamLine a l) (ih _)

theorem heapElsewhere_listen (a : State × Gen) (b : BackendEvent) :
    HeapElsewhere a (listen a b) := by
  unfold listen
  cases b <;> simp only [listener]
  · split
    · exact fun _ _ => rfl
    · exact heapElsewhere_refl a
  · split
    · exact heapElsewhere_reject a _
    · exact heapElsewhere_refl a
  · split
    · exact heapElsewhere_dataListener _ a
    · exact heapElsewhere_refl a
  · split
    · exact heapElsewhere_finish a
    · exact heapElsewhere_refl a
  · split
    · exact heapElsewhere_reject a _
    · exact heapElsewhere_refl a

theorem aiRef_listen (a : State × Gen) (b : BackendEvent) :
    (listen a b).2.aiRef = a.2.aiRef := by
  unfold listen
  cases b <;> simp only [listener]
  · split <;> rfl
  · split
    · exact ident_aiRef (quiet_reject a _).2.2
    · rfl
  · split
    · exact ident_aiRef (quiet_dataListener _ a).2.2
    · rfl
  · split
    · exact ident_aiRef (quiet_finish a).2.2
    · rfl
  · split
    · exact ident_aiRef (quiet_reject a _).2.2
    · rfl

theorem heap_length_listen (a : State × Gen) (b : BackendEvent) :
    (listen a b).1.heap.length = a.1.heap.length := by
  have h : ids (listen a b).1.heap = ids a.1.heap := by
    unfold listen
    cases hl : listener a.1 a.2 b with
    | none => rfl
    | some sg => exact (quiet_listener a.1 a.2 b sg hl).2
  have := congrArg List.length h
  simpa [ids] using this

/-! ## Closures across the turns of other handlers -/

theorem getElem?_append_gen (ts : List Task) (x : Task) (j : Nat) (g : Gen)
    (hx : ∀ g0, x ≠ Task.gen g0) (h : (ts ++ [x])[j]? = some (Task.gen g)) :
    ts[j]? = some (Task.gen g) := by
  by_cases hj : j < ts.length
  · rwa [List.getElem?_append_left hj] at h
  · exfalso
    rw [List.getElem?_append_right (Nat.le_of_not_lt hj)] at h
    by_cases h0 : j - ts.length = 0
    · rw [h0] at h
      simp only [List.getElem?_cons_zero, Option.some.injEq] at h
      exact hx g h
    · have : (j - ts.length) = (j - ts.length - 1) + 1 := by omega
      rw [this] at h
      simp at h

theorem getElem?_set_gen (ts : List Task) (i j : Nat) (x : Task) (g : Gen)
    (hx : ∀ g0, x ≠ Task.gen g0) (h : (ts.set i x)[j]? = some (Task.gen g)) :
    ts[j]? = some (Task.gen g) := by
  by_cases hij : i = j
  · subst hij
    exfalso
    by_cases hlt : i < ts.length
    · rw [List.getElem?_set_self hlt] at h
      simp only [Option.some.injEq] at h
      exact hx g h
    · rw [List.getElem?_eq_none (by simpa using hlt)] at h
      cases h
  · rwa [List.getElem?_set_ne hij] at h

/-- Where the closure found as task `j` after a turn comes from: it was task `j` before, with
the same message object, or the turn resumed `send-message` as task `j` and allocated its
placeholder. -/
theorem gen_origin (s : State) (e : Event) (j : Nat) (g' : Gen)
    (h : (step s e).tasks[j]? = some (Task.gen g')) :
    (∃ g, s.tasks[j]? = some (Task.gen g) ∧ g'.aiRef = g.aiRef) ∨
    ((∃ uuid now, e = Event.sendSaved j uuid now) ∧ g'.aiRef = s.heap.length ∧
      (step s e).heap.length = s.heap.length + 1) := by
  cases e with
  | joinChat c u a r now => exact Or.inl ⟨g', h, rfl⟩
  | switchThread c t =>
    simp only [step, switchThread] at h
    split at h
    · exact Or.inl ⟨g', h, rfl⟩
    · split at h <;> exact Or.inl ⟨g', h, rfl⟩
  | createThread c n uuid now =>
    simp only [step, createThread] at h
    split at h
    · exact Or.inl ⟨g', h, rfl⟩
    · exact Or.inl ⟨g', getElem?_append_gen _ _ _ _ (by intro g0 hg; cases hg) h, rfl⟩
  | createSaved i =>
    simp only [step, createSaved] at h
    split at h
    · simp only [emit, setTask] at h
      exact Or.inl ⟨g', getElem?_set_gen _ _ _ _ _ (by intro g0 hg; cases hg) h, rfl⟩
    · exact Or.inl ⟨g', h, rfl⟩
  | stopGeneration c m =>
    simp only [step, stopGeneration] at h
    split at h
    · exact Or.inl ⟨g', h, rfl⟩
    · rename_i ctrl _
      simp only at h
      split at h
      · rename_i g0 hg0
        by_cases hcj : ctrl = j
        · subst hcj
          rw [List.getElem?_set_self (List.getElem?_eq_some_iff.mp hg0).1] at h
          simp only [Option.some.injEq, Task.gen.injEq] at h
          exact Or.inl ⟨g0, hg0, by rw [← h]⟩
        · rw [List.getElem?_set_ne hcj] at h
          exact Or.inl ⟨g', h, rfl⟩
      · exact Or.inl ⟨g', h, rfl⟩
  | sendMessage c m t uuid now =>
    simp only [step, sendMessage] at h
    split at h
    · exact Or.inl ⟨g', h, rfl⟩
    · split at h
      · exact Or.inl ⟨g', h, rfl⟩
      · exact Or.inl ⟨g', getElem?_append_gen _ _ _ _ (by intro g0 hg; cases hg) h, rfl⟩
  | sendSaved i uuid now =>
    cases hi : s.tasks[i]? with
    | none =>
      simp only [step, sendSaved, hi] at h
      exact Or.inl ⟨g', h, rfl⟩
    | some task =>
      cases task with
      | sendSaving c u ρ τ msg uref =>
        simp only [step] at h ⊢
        cases hkey : mapHas (roomOf s.chatRooms ρ).threads τ with
        | false =>
          rw [sendSaved_throws s i uuid now c u ρ τ msg uref hi hkey] at h
          simp only at h
          exact Or.inl ⟨g', getElem?_set_gen _ _ _ _ _ (by intro g0 hg; cases hg) h, rfl⟩
        | true =>
          have hf := sendSaved_fields s i uuid now c u ρ τ msg uref hi hkey
          rw [hf.2.2.2.2] at h
          by_cases hij : i = j
          · subst hij
            rw [List.getElem?_set_self (List.getElem?_eq_some_iff.mp hi).1] at h
            simp only [Option.some.injEq, Task.gen.injEq] at h
            refine Or.inr ⟨⟨uuid, now, rfl⟩, by rw [← h], ?_⟩
            rw [hf.1]; simp
          · rw [List.getElem?_set_ne hij] at h
            exact Or.inl ⟨g', h, rfl⟩
      | createSaving c u =>
        simp only [step, sendSaved, hi] at h
        exact Or.inl ⟨g', h, rfl⟩
      | gen g0 =>
        simp only [step, sendSaved, hi] at h
        exact Or.inl ⟨g', h, rfl⟩
      | completed =>
        simp only [step, sendSaved, hi] at h
        exact Or.inl ⟨g', h, rfl⟩
  | disconnect c now =>
    simp only [step, disconnect] at h
    split at h <;> exact Or.inl ⟨g', h, rfl⟩
  | backend i b =>
    cases hi : s.tasks[i]? with
    | none =>
      simp only [step, backend, hi] at h
      exact Or.inl ⟨g', h, rfl⟩
    | some task =>
      cases task with
      | gen g0 =>
        rw [step_backend_eq s i g0 b hi] at h
        simp only [putGen, setTask, tasks_listen] at h
        by_cases hij : i = j
        · subst hij
          rw [List.getElem?_set_self (List.getElem?_eq_some_iff.mp hi).1] at h
          simp only [Option.some.injEq, Task.gen.injEq] at h
          exact Or.inl ⟨g0, hi, by rw [← h]; exact aiRef_listen (s, g0) b⟩
        · rw [List.getElem?_set_ne hij] at h
          exact Or.inl ⟨g', h, rfl⟩
      | sendSaving c u ρ τ msg uref =>
        simp only [step, backend, hi] at h
        exact Or.inl ⟨g', h, rfl⟩
      | createSaving c u =>
        simp only [step, backend, hi] at h
        exact Or.inl ⟨g', h, rfl⟩
      | completed =>
        simp only [step, backend, hi] at h
        exact Or.inl ⟨g', h, rfl⟩

theorem heap_length_step (s : State) (e : Event) : s.heap.length ≤ (step s e).heap.length := by
  rcases step_effect s e with ⟨hids, _⟩ | ⟨m, ρ, τ, hheap, _⟩
  · have := congrArg List.length hids
    simp only [ids, List.length_map] at this
    omega
  · rw [hheap]; simp

theorem gensSeparate_init : GensSeparate init := by
  constructor
  · intro k g h; simp [init] at h
  · intro k k' g g' h; simp [init] at h

theorem gensSeparate_step (s : State) (e : Event) (h : GensSeparate s) :
    GensSeparate (step s e) := by
  obtain ⟨ha, hb⟩ := h
  have hlen := heap_length_step s e
  constructor
  · intro k g hk
    rcases gen_origin s e k g hk with ⟨g0, hg0, hr⟩ | ⟨_, hr, hl⟩
    · have := ha k g0 hg0
      omega
    · omega
  · intro k k' g g' hk hk' hrr
    rcases gen_origin s e k g hk with ⟨g0, hg0, hr⟩ | ⟨⟨u, n, he⟩, hr, hl⟩ <;>
      rcases gen_origin s e k' g' hk' with ⟨g1, hg1, hr'⟩ | ⟨⟨u', n', he'⟩, hr', hl'⟩
    · exact hb k k' g0 g1 hg0 hg1 (by omega)
    · have := ha k g0 hg0
      omega
    · have := ha k' g1 hg1
      omega
    · rw [he] at he'
      simp only [Event.sendSaved.injEq] at he'
      exact he'.1

theorem gensSeparate_run (es : List Event) (s : State) (h : GensSeparate s) :
    GensSeparate (run s es) := by
  induction es generalizing s with
  | nil => exact h
  | cons e rest ih => exact ih _ (gensSeparate_step s e h)

theorem gensSeparate_of_reachable (s : State) (h : Reachable s) : GensSeparate s := by
  induction h with
  | init => exact gensSeparate_init
  | step s e _ ih => exact gensSeparate_step s e ih

/-- A turn that is not a backend event of task `k` leaves the closure of task `k` as it is up
to the abort flag, and its message object untouched. -/
theorem frame_other (s : State) (e : Event) (k : Nat) (g : Gen) (hsep : GensSeparate s)
    (hk : s.tasks[k]? = some (Task.gen g)) (he : ∀ b, e ≠ Event.backend k b) :
    ∃ g', (step s e).tasks[k]? = some (Task.gen g') ∧ core g' = core g ∧
      (step s e).heap[g.aiRef]? = s.heap[g.aiRef]? := by
  have hlt := hsep.1 k g hk
  have hgrow : ∀ m : Message, (s.heap ++ [m])[g.aiRef]? = s.heap[g.aiRef]? :=
    fun m => List.getElem?_append_left hlt
  cases e with
  | joinChat c u a r now => exact ⟨g, hk, rfl, rfl⟩
  | switchThread c t =>
    simp only [step, switchThread]
    split
    · exact ⟨g, hk, rfl, rfl⟩
    · split <;> exact ⟨g, hk, rfl, rfl⟩
  | createThread c n uuid now =>
    simp only [step, createThread]
    split
    · exact ⟨g, hk, rfl, rfl⟩
    · exact ⟨g, getElem?_append_of_some _ _ _ _ hk, rfl, rfl⟩
  | createSaved i =>
    simp only [step, createSaved]
    split
    · rename_i c u hi
      exact ⟨g, getElem?_set_of_ne_gen _ _ _ _ _ hk (by rw [hi]; simp), rfl, rfl⟩
    · exact ⟨g, hk, rfl, rfl⟩
  | stopGeneration c m =>
    simp only [step, stopGeneration]
    split
    · exact ⟨g, hk, rfl, rfl⟩
    · rename_i ctrl _
      simp only
      split
      · rename_i g0 hg0
        by_cases hck : ctrl = k
        · subst hck
          rw [hk] at hg0
          simp only [Option.some.injEq, Task.gen.injEq] at hg0
          subst hg0
          exact ⟨{ g with aborted := true },
            List.getElem?_set_self (List.getElem?_eq_some_iff.mp hk).1, rfl, trivial⟩
        · exact ⟨g, by rw [List.getElem?_set_ne hck]; exact hk, rfl, trivial⟩
      · exact ⟨g, hk, rfl, trivial⟩
  | sendMessage c m t uuid now =>
    simp only [step, sendMessage]
    split
    · exact ⟨g, hk, rfl, rfl⟩
    · split
      · exact ⟨g, hk, rfl, rfl⟩
      · exact ⟨g, getElem?_append_of_some _ _ _ _ hk, rfl, hgrow _⟩
  | sendSaved i uuid now =>
    show ∃ g', (sendSaved s i uuid now).tasks[k]? = some (Task.gen g') ∧ core g' = core g ∧
      (sendSaved s i uuid now).heap[g.aiRef]? = s.heap[g.aiRef]?
    rcases sendSaved_cases s i uuid now with h0 | ⟨c, u, ρ, τ, msg, uref, hi⟩
    · rw [h0]; exact ⟨g, hk, rfl, rfl⟩
    · cases hkey : mapHas (roomOf s.chatRooms ρ).threads τ with
      | false =>
        rw [sendSaved_throws s i uuid now c u ρ τ msg uref hi hkey]
        exact ⟨g, getElem?_set_of_ne_gen _ _ _ _ _ hk (by rw [hi]; simp), rfl, rfl⟩
      | true =>
        rw [sendSaved_ok s i uuid now c u ρ τ msg uref hi hkey]
        exact ⟨g, getElem?_set_of_ne_gen _ _ _ _ _ hk (by rw [hi]; simp), rfl, hgrow _⟩
  | disconnect c now =>
    simp only [step, disconnect]
    split <;> exact ⟨g, hk, rfl, rfl⟩
  | backend i b =>
    have hik : i ≠ k := fun h => he b (by rw [h])
    cases hi : s.tasks[i]? with
    | none => simp only [step, backend, hi]; exact ⟨g, hk, rfl, trivial⟩
    | some task =>
      cases task with
      | gen gi =>
        rw [step_backend_eq s i gi b hi]
        refine ⟨g, ?_, rfl, ?_⟩
        · simp only [putGen, setTask, tasks_listen]
          rw [List.getElem?_set_ne hik]
          exact hk
        · rw [heap_putGen]
          apply heapElsewhere_listen (s, gi) b
          intro hrr
          exact hik (hsep.2 i k gi g hi hk hrr.symm)
      | sendSaving c u ρ τ msg uref => simp only [step, backend, hi]; exact ⟨g, hk, rfl, trivial⟩
      | createSaving c u => simp only [step, backend, hi]; exact ⟨g, hk, rfl, trivial⟩
      | completed => simp only [step, backend, hi]; exact ⟨g, hk, rfl, trivial⟩

theorem backendFor_cons_self (k : Nat) (b : BackendEvent) (rest : List Event) :
    backendFor k (Event.backend k b :: rest) = b :: backendFor k rest := by
  simp [backendFor]

theorem backendFor_cons_other (k : Nat) (e : Event) (rest : List Event)
    (he : ∀ b, e ≠ Event.backend k b) : backendFor k (e :: rest) = backendFor k rest := by
  cases e with
  | backend j b =>
    have : j ≠ k := fun h => he b (by rw [h])
    simp [backendFor, this]
  | _ => simp [backendFor]

/-- Whatever else the event loop runs in between, a generation's closure and message object
end up as if its backend events had been handled one after another. -/
theorem interleaved_generation (es : List Event) (s : State) (k : Nat) (g : Gen)
    (hsep : GensSeparate s) (hk : s.tasks[k]? = some (Task.gen g)) :
    ∃ g', (run s es).tasks[k]? = some (Task.gen g') ∧
      Sim (run s es, g') ((backendFor k es).foldl listen (s, g)) := by
  induction es generalizing s g with
  | nil => exact ⟨g, hk, sim_refl _⟩
  | cons e rest ih =>
    have hsep' := gensSeparate_step s e hsep
    by_cases he : ∃ b, e = Event.backend k b
    · obtain ⟨b, rfl⟩ := he
      have hlt := (List.getElem?_eq_some_iff.mp hk).1
      have hk1 : (step s (Event.backend k b)).tasks[k]? = some (Task.gen (listen (s, g) b).2) := by
        rw [step_backend_eq s k g b hk]
        exact tasks_putGen k _ (by rw [tasks_listen]; exact hlt)
      obtain ⟨g', hg', hsim⟩ := ih (step s (Event.backend k b)) (listen (s, g) b).2 hsep' hk1
      refine ⟨g', hg', ?_⟩
      rw [backendFor_cons_self, List.foldl_cons]
      refine sim_trans hsim (sim_foldl_listen _ _ _ ?_)
      rw [step_backend_eq s k g b hk]
      exact ⟨rfl, rfl⟩
    · have he' : ∀ b, e ≠ Event.backend k b := fun b h => he ⟨b, h⟩
      obtain ⟨g1, hk1, hc1, hh1⟩ := frame_other s e k g hsep hk he'
      obtain ⟨g', hg', hsim⟩ := ih (step s e) g1 hsep' hk1
      refine ⟨g', hg', ?_⟩
      rw [backendFor_cons_other k e rest he']
      refine sim_trans hsim (sim_foldl_listen _ _ _ ?_)
      refine ⟨?_, hc1⟩
      simp only
      rw [core_aiRef hc1]
      exact hh1

/-! ## Generations under arbitrary interleaving -/

theorem backendFor_map (k : Nat) (bs : List BackendEvent) :
    backendFor k (bs.map (Event.backend k)) = bs := by
  induction bs with
  | nil => rfl
  | cons b rest ih => rw [List.map_cons, backendFor_cons_self, ih]

theorem backendFor_answered (k : Nat) (cs : List (List (Option StreamLine))) :
    backendFor k (answered k cs) = BackendEvent.response :: cs.map BackendEvent.data :=
  backendFor_map k _

/-- The message object and closure of a generation after any run of the event loop, given the
backend events the run addressed to it. -/
theorem interleaved_message (es : List Event) (s : State) (k : Nat) (g : Gen)
    (hsep : GensSeparate s) (hk : s.tasks[k]? = some (Task.gen g)) (bs : List BackendEvent)
    (hbs : backendFor k es = bs) :
    (run s es).heap[g.aiRef]? = (bs.foldl listen (s, g)).1.heap[g.aiRef]? ∧
    ∃ g', (run s es).tasks[k]? = some (Task.gen g') ∧ core g' = core (bs.foldl listen (s, g)).2 := by
  obtain ⟨g', hg', hsim⟩ := interleaved_generation es s k g hsep hk
  rw [hbs] at hsim
  have href : ∀ (bs : List BackendEvent) (sg : State × Gen),
      (bs.foldl listen sg).2.aiRef = sg.2.aiRef := by
    intro bs
    induction bs with
    | nil => intro sg; rfl
    | cons b rest ih => intro sg; rw [List.foldl_cons, ih, aiRef_listen]
  have h1 := hsim.1
  simp only at h1
  rw [core_aiRef hsim.2, href] at h1
  exact ⟨h1, g', hg', hsim.2⟩

theorem core_settled {g g' : Gen} (h : core g = core g') : g.settled = g'.settled := by
  simp only [core, Prod.mk.injEq] at h
  exact h.2.2.2.2.2.2.2

/-! ## The context window -/

theorem threadRefs_step (s : State) (e : Event) (r t : String) :
    threadRefs s r t <+: threadRefs (step s e) r t := by
  rcases step_effect s e with ⟨_, hrefs⟩ | ⟨m, ρ, τ, _, hrefs⟩
  · rw [hrefs]
  · rw [hrefs]
    split
    · exact List.prefix_append _ _
    · exact List.prefix_refl _

theorem threadRefs_run (es : List Event) (s : State) (r t : String) :
    threadRefs s r t <+: threadRefs (run s es) r t := by
  induction es generalizing s with
  | nil => exact List.prefix_refl _
  | cons e rest ih => exact (threadRefs_step s e r t).trans (ih _)

theorem heap_length_run (es : List Event) (s : State) :
    s.heap.length ≤ (run s es).heap.length := by
  induction es generalizing s with
  | nil => exact Nat.le_refl _
  | cons e rest ih => exact Nat.le_trans (heap_length_step s e) (ih _)

/-- A key of a room's threads stays one: no handler removes a thread. -/
theorem hasKey_step (s : State) (e : Event) (ρ τ : String)
    (h : mapHas (roomOf s.chatRooms ρ).threads τ = true) :
    mapHas (roomOf (step s e).chatRooms ρ).threads τ = true := by
  have hset : ∀ (ρ' : String) (room' : Room),
      (ρ' = ρ → mapHas room'.threads τ = true) →
      mapHas (roomOf (mapSet s.chatRooms ρ' room') ρ).threads τ = true := by
    intro ρ' room' h'
    rw [roomOf_mapSet]
    split
    · rename_i he
      exact h' he
    · exact h
  cases e with
  | joinChat c u a r now =>
    simp only [step, joinChat]
    apply hset
    intro he
    rw [he]
    exact mapHas_ensureThread_of_has _ _ _ h
  | switchThread c t =>
    simp only [step, switchThread]
    split
    · exact h
    · split
      · exact h
      · rename_i user _ _ room hroom
        apply hset
        intro he
        have hro : roomOf s.chatRooms ρ = room := by simp [roomOf, ← he, hroom]
        rw [hro] at h
        exact mapHas_ensureThread_of_has _ _ _ h
  | createThread c n uuid now =>
    simp only [step, createThread]
    split <;> exact h
  | createSaved j =>
    simp only [step, createSaved]
    split <;> exact h
  | stopGeneration c m =>
    simp only [step, stopGeneration]
    split <;> exact h
  | sendMessage c m t uuid now =>
    show mapHas (roomOf (sendMessage s c m t uuid now).chatRooms ρ).threads τ = true
    cases hu : mapGet s.activeUsers c with
    | none => simpa [sendMessage, hu, emit] using h
    | some user =>
      cases hth : threadThrows (roomOf s.chatRooms user.roomId).threads (t.getD "default") with
      | true =>
        rw [sendMessage_throws s c m t uuid now user hu hth]
        simp only
        rw [roomOf_store_missing]
        exact h
      | false =>
        rw [sendMessage_ok s c m t uuid now user hu hth]
        apply hset
        intro he
        rw [he]
        exact (mapHas_appendRef _ _ _ _).mpr (Or.inr h)
  | sendSaved j uuid now =>
    show mapHas (roomOf (sendSaved s j uuid now).chatRooms ρ).threads τ = true
    rcases sendSaved_cases s j uuid now with h0 | ⟨c, u, ρ', τ', msg, uref, hj⟩
    · rw [h0]; exact h
    · cases hkey : mapHas (roomOf s.chatRooms ρ').threads τ' with
      | false =>
        rw [sendSaved_throws s j uuid now c u ρ' τ' msg uref hj hkey]
        exact h
      | true =>
        rw [sendSaved_ok s j uuid now c u ρ' τ' msg uref hj hkey]
        apply hset
        intro he
        rw [he]
        exact (mapHas_appendRef _ _ _ _).mpr (Or.inr h)
  | disconnect c now =>
    simp only [step, disconnect]
    split <;> exact h
  | backend k b =>
    show mapHas (roomOf (backend s k b).chatRooms ρ).threads τ = true
    rw [(backend_frame s k b).2.1]
    exact h

theorem hasKey_run (es : List Event) (s : State) (ρ τ : String)
    (h : mapHas (roomOf s.chatRooms ρ).threads τ = true) :
    mapHas (roomOf (run s es).chatRooms ρ).threads τ = true := by
  induction es generalizing s with
  | nil => exact h
  | cons e rest ih => exact ih _ (hasKey_step s e ρ τ h)

/-! ## Suspended sends have their thread -/

theorem getElem?_set_other (ts : List Task) (j k : Nat) (x y : Task)
    (h : (ts.set j x)[k]? = some y) (hxy : x ≠ y) : ts[k]? = some y := by
  by_cases hjk : j = k
  · subst hjk
    by_cases hlt : j < ts.length
    · rw [List.getElem?_set_self hlt] at h
      simp only [Option.some.injEq] at h
      exact absurd h hxy
    · rw [List.getElem?_eq_none (by simpa using hlt)] at h
      cases h
  · rw [List.getElem?_set_ne hjk] at h
    exact h

theorem getElem?_append_one (ts : List Task) (k : Nat) (x y : Task)
    (h : (ts ++ [x])[k]? = some y) : ts[k]? = some y ∨ (k = ts.length ∧ x = y) := by
  by_cases hlt : k < ts.length
  · rw [List.getElem?_append_left hlt] at h
    exact Or.inl h
  · have hge : ts.length ≤ k := Nat.le_of_not_lt hlt
    rw [List.getElem?_append_right hge] at h
    by_cases hk : k - ts.length = 0
    · rw [hk] at h
      simp only [List.getElem?_cons_zero, Option.some.injEq] at h
      exact Or.inr ⟨by omega, h⟩
    · obtain ⟨n, hn⟩ := Nat.exists_eq_succ_of_ne_zero hk
      rw [hn] at h
      simp at h

theorem savingFiled_init : SavingFiled init := by
  intro k c u ρ τ msg uref h
  simp [init] at h

theorem savingFiled_step (s : State) (e : Event) (h : SavingFiled s) :
    SavingFiled (step s e) := by
  intro k c u ρ τ msg uref hk
  have hold : s.tasks[k]? = some (Task.sendSaving c u ρ τ msg uref) →
      mapHas (roomOf (step s e).chatRooms ρ).threads τ = true :=
    fun h0 => hasKey_step s e ρ τ (h k c u ρ τ msg uref h0)
  cases e with
  | joinChat c' u' a r now => exact hold hk
  | switchThread c' t =>
    apply hold
    simp only [step, switchThread] at hk
    split at hk
    · exact hk
    · split at hk <;> exact hk
  | createThread c' n uuid now =>
    apply hold
    simp only [step, createThread] at hk
    split at hk
    · exact hk
    · rcases getElem?_append_one _ _ _ _ hk with h0 | ⟨_, h0⟩
      · exact h0
      · cases h0
  | createSaved j =>
    apply hold
    simp only [step, createSaved] at hk
    split at hk
    · simp only [emit, setTask] at hk
      exact getElem?_set_other _ _ _ _ _ hk (by simp)
    · exact hk
  | stopGeneration c' m =>
    apply hold
    simp only [step, stopGeneration] at hk
    split at hk
    · exact hk
    · simp only at hk
      split at hk
      · exact getElem?_set_other _ _ _ _ _ hk (by simp)
      · exact hk
  | sendMessage c' m t uuid now =>
    cases hu : mapGet s.activeUsers c' with
    | none =>
      apply hold
      simpa [step, sendMessage, hu, emit] using hk
    | some user =>
      cases hth : threadThrows (roomOf s.chatRooms user.roomId).threads (t.getD "default") with
      | true =>
        apply hold
        simp only [step] at hk
        rw [sendMessage_throws s c' m t uuid now user hu hth] at hk
        exact hk
      | false =>
        have hkey := sendMessage_key s c' m t uuid now user hu hth
        simp only [step] at hk
        rw [(sendMessage_fields s c' m t uuid now user hu hth).2.1] at hk
        rcases getElem?_append_one _ _ _ _ hk with h0 | ⟨_, h0⟩
        · exact hold h0
        · simp only [Task.sendSaving.injEq] at h0
          obtain ⟨-, -, hρ, hτ, -, -⟩ := h0
          rw [← hρ, ← hτ]
          exact hkey
  | sendSaved j uuid now =>
    apply hold
    simp only [step] at hk
    rcases sendSaved_cases s j uuid now with h0 | ⟨c', u', ρ', τ', msg', uref', hj⟩
    · rw [h0] at hk; exact hk
    · cases hkey : mapHas (roomOf s.chatRooms ρ').threads τ' with
      | false =>
        rw [sendSaved_throws s j uuid now c' u' ρ' τ' msg' uref' hj hkey] at hk
        exact getElem?_set_other _ _ _ _ _ hk (by simp)
      | true =>
        rw [sendSaved_ok s j uuid now c' u' ρ' τ' msg' uref' hj hkey] at hk
        exact getElem?_set_other _ _ _ _ _ hk (by simp)
  | disconnect c' now =>
    apply hold
    simp only [step, disconnect] at hk
    split at hk <;> exact hk
  | backend j b =>
    apply hold
    cases hj : s.tasks[j]? with
    | none => simpa [step, backend, hj] using hk
    | some task =>
      cases task with
      | gen g =>
        rw [step_backend_eq s j g b hj] at hk
        simp only [putGen, setTask, tasks_listen] at hk
        exact getElem?_set_other _ _ _ _ _ hk (by simp)
      | sendSaving c1 u1 ρ1 τ1 msg1 uref1 => simpa [step, backend, hj] using hk
      | createSaving c1 u1 => simpa [step, backend, hj] using hk
      | completed => simpa [step, backend, hj] using hk

theorem savingFiled_of_reachable (s : State) (h : Reachable s) : SavingFiled s := by
  induction h with
  | init => exact savingFiled_init
  | step s e _ ih => exact savingFiled_step s e ih

theorem savingFiled_run (es : List Event) (s : State) (h : SavingFiled s) :
    SavingFiled (run s es) := by
  induction es generalizing s with
  | nil => exact h
  | cons e rest ih => exact ih _ (savingFiled_step s e h)

/-! ## The context window, continued -/

/-- Where the read of the thread does not give an inherited value, `getThreadContext` returns
the last ten messages of the thread. -/
theorem getThreadContext_eq (s : State) (t r : String)
    (h : mapHas (roomOf s.chatRooms r).threads t = true ∨ inheritedNames.contains t = false) :
    getThreadContext s t r =
      some ((threadMessages s r t).drop ((threadMessages s r t).length - 10)) := by
  unfold getThreadContext threadMessages threadRefs
  cases hr : mapGet s.chatRooms r with
  | none => simp [deref]
  | some room =>
    have hro : roomOf s.chatRooms r = room := by simp [roomOf, hr]
    rw [hro] at h
    cases hth : mapGet room.threads t with
    | none =>
      have hno : mapHas room.threads t = false := by simp [mapHas, hth]
      rw [hno] at h
      have hin : inheritedNames.contains t = false := by
        rcases h with h | h
        · cases h
        · exact h
      simp only [hth, hin, Bool.false_eq_true, if_false, Option.getD_none]
      simp [deref]
    | some refs => simp [hth]

/-- In a room of the store, `getThreadContext` of an inherited name that is no key of the
room's threads throws. -/
theorem getThreadContext_throws (s : State) (t r : String) (room : Room)
    (hr : mapGet s.chatRooms r = some room) (hth : threadThrows room.threads t = true) :
    getThreadContext s t r = none := by
  unfold threadThrows mapHas at hth
  unfold getThreadContext
  rw [hr]
  cases hg : mapGet room.threads t with
  | none =>
    rw [hg] at hth
    simp only [Option.isSome_none, Bool.not_false, Bool.true_and] at hth
    simp only [hg, hth, if_true]
  | some refs =>
    rw [hg] at hth
    simp at hth

theorem deref_ne_nil (h : List Message) (refs : List Nat) (ref : Nat) (hmem : ref ∈ refs)
    (hlt : ref < h.length) : deref h refs ≠ [] := by
  intro hnil
  have : h[ref] ∈ deref h refs := by
    unfold deref
    rw [List.mem_filterMap]
    exact ⟨ref, hmem, by simp [hlt]⟩
  rw [hnil] at this
  exact List.not_mem_nil _ this

theorem buildPrompt_of_ne_nil (context : List Message) (message : String)
    (h : context ≠ []) :
    buildPrompt context message =
      "\n".intercalate (context.map (fun x => x.username ++ ": " ++ x.message)) ++ "\n\n" ++
        message := by
  unfold buildPrompt
  have : context.length > 0 := List.length_pos.mpr h
  simp [this]

/-! ## One thread per message object -/

theorem threadsDisjoint_init : ThreadsDisjoint init := by
  intro r t r' t' ref h
  simp [threadRefs, init, mapGet] at h

theorem threadsDisjoint_step (s : State) (e : Event) (hv : RefsValid s)
    (hd : ThreadsDisjoint s) : ThreadsDisjoint (step s e) := by
  intro r t r' t' ref h1 h2
  rcases step_effect s e with ⟨_, hrefs⟩ | ⟨m, ρ, τ, _, hrefs⟩
  · rw [hrefs] at h1 h2
    exact hd r t r' t' ref h1 h2
  · rw [hrefs] at h1 h2
    by_cases hnew : ref = s.heap.length
    · have hold : ∀ a b, ref ∉ threadRefs s a b := by
        intro a b hab
        have := hv a b ref hab
        omega
      split at h1
      · rename_i hrt
        split at h2
        · rename_i hrt'
          exact ⟨hrt.1.symm.trans hrt'.1, hrt.2.symm.trans hrt'.2⟩
        · exact absurd h2 (hold _ _)
      · exact absurd h1 (hold _ _)
    · have hstrip : ∀ a b, ref ∈ (if ρ = a ∧ τ = b then threadRefs s a b ++ [s.heap.length]
          else threadRefs s a b) → ref ∈ threadRefs s a b := by
        intro a b hab
        split at hab
        · rcases List.mem_append.mp hab with h | h
          · exact h
          · simp only [List.mem_singleton] at h
            exact absurd h hnew
        · exact hab
      exact hd r t r' t' ref (hstrip _ _ h1) (hstrip _ _ h2)

theorem threadsDisjoint_run (es : List Event) (s : State) (hv : RefsValid s)
    (hd : ThreadsDisjoint s) : ThreadsDisjoint (run s es) := by
  induction es generalizing s with
  | nil => exact hd
  | cons e rest ih => exact ih _ (refsValid_step s e hv) (threadsDisjoint_step s e hv hd)

theorem threadsDisjoint_of_reachable (s : State) (h : Reachable s) : ThreadsDisjoint s := by
  induction h with
  | init => exact threadsDisjoint_init
  | step s e hr ih => exact threadsDisjoint_step s e (refsValid_of_reachable s hr) ih

theorem deref_congr (h h' : List Message) (refs : List Nat)
    (hh : ∀ ref ∈ refs, h'[ref]? = h[ref]?) : deref h' refs = deref h refs := by
  unfold deref
  exact List.filterMap_congr hh

/-- A turn of the handler suspended as task `k` keeps the task on its thread and leaves the
message lists of all other threads as they are. -/
theorem own_turn_frame (s : State) (e : Event) (k : Nat) (ρ τ : String) (hv : RefsValid s)
    (hd : ThreadsDisjoint s) (ho : Owns s k ρ τ) (he : OwnTurn k e) :
    Owns (step s e) k ρ τ ∧
    ∀ r' t', ¬ (r' = ρ ∧ t' = τ) → threadMessages (step s e) r' t' = threadMessages s r' t' := by
  have hidle : s.tasks[k]? = none ∨ s.tasks[k]? = some Task.completed → step s e = s := by
    intro hk
    rcases he with ⟨uuid, now, rfl⟩ | ⟨b, rfl⟩
    · rcases hk with hk | hk <;> simp only [step, sendSaved, hk]
    · rcases hk with hk | hk <;> simp only [step, backend, hk]
  rcases ho with ⟨c, u, msg, uref, hk⟩ | ⟨g, hk, hg⟩ | hk
  · rcases he with ⟨uuid, now, rfl⟩ | ⟨b, rfl⟩
    · have hlt := (List.getElem?_eq_some_iff.mp hk).1
      cases hkey : mapHas (roomOf s.chatRooms ρ).threads τ with
      | false =>
        have hst := sendSaved_throws s k uuid now c u ρ τ msg uref hk hkey
        constructor
        · refine Or.inr (Or.inr (Or.inr ?_))
          simp only [step]
          rw [hst]
          exact List.getElem?_set_self hlt
        · intro r' t' _
          simp only [step]
          rw [hst]
          rfl
      | true =>
        have hf := sendSaved_fields s k uuid now c u ρ τ msg uref hk hkey
        have hrefs := threadRefs_sendSaved s k uuid now c u ρ τ msg uref hk hkey
        constructor
        · refine Or.inr (Or.inl
            ⟨_, by simp only [step]; rw [hf.2.2.2.2, List.getElem?_set_self hlt], ?_⟩)
          simp only [step]
          rw [hrefs]
          simp
        · intro r' t' hne
          simp only [step, threadMessages]
          rw [hrefs, hf.1]
          have : ¬ (ρ = r' ∧ τ = t') := fun h => hne ⟨h.1.symm, h.2.symm⟩
          simp only [this, if_false]
          exact deref_grow _ _ _ (hv r' t')
    · have hsame : step s (Event.backend k b) = s := by
        simp only [step, backend, hk]
      rw [hsame]
      exact ⟨Or.inl ⟨c, u, msg, uref, hk⟩, fun _ _ _ => rfl⟩
  · rcases he with ⟨uuid, now, rfl⟩ | ⟨b, rfl⟩
    · have hsame : step s (Event.sendSaved k uuid now) = s := by
        simp only [step, sendSaved, hk]
      rw [hsame]
      exact ⟨Or.inr (Or.inl ⟨g, hk, hg⟩), fun _ _ _ => rfl⟩
    · have hfr := backend_frame s k b
      have hlt := (List.getElem?_eq_some_iff.mp hk).1
      have hrefs : ∀ r t, threadRefs (step s (Event.backend k b)) r t = threadRefs s r t :=
        fun r t => threadRefs_congr hfr.2.1 r t
      constructor
      · refine Or.inr (Or.inl ⟨(listen (s, g) b).2, ?_, ?_⟩)
        · rw [step_backend_eq s k g b hk]
          exact tasks_putGen k _ (by rw [tasks_listen]; exact hlt)
        · rw [hrefs, aiRef_listen]
          exact hg
      · intro r' t' hne
        unfold threadMessages
        rw [hrefs]
        apply deref_congr
        intro ref href
        rw [step_backend_eq s k g b hk, heap_putGen]
        apply heapElsewhere_listen (s, g) b
        intro hrr
        simp only at hrr
        rw [hrr] at href
        have := hd r' t' ρ τ g.aiRef href hg
        exact hne this
  · rw [hidle hk]
    exact ⟨Or.inr (Or.inr hk), fun _ _ _ => rfl⟩

theorem own_run_frame (es : List Event) (s : State) (k : Nat) (ρ τ : String)
    (hv : RefsValid s) (hd : ThreadsDisjoint s) (ho : Owns s k ρ τ)
    (hes : ∀ e ∈ es, OwnTurn k e) (r' t' : String) (hne : ¬ (r' = ρ ∧ t' = τ)) :
    threadMessages (run s es) r' t' = threadMessages s r' t' := by
  induction es generalizing s with
  | nil => rfl
  | cons e rest ih =>
    have h1 := own_turn_frame s e k ρ τ hv hd ho (hes e (List.mem_cons_self _ _))
    have := ih (step s e) (refsValid_step s e hv) (threadsDisjoint_step s e hv hd) h1.1
      (fun e' he' => hes e' (List.mem_cons_of_mem _ he'))
    simp only [run, List.foldl_cons] at this ⊢
    rw [this, h1.2 r' t' hne]

/-! ## Active-thread pointers -/

theorem mapHas_ensureThread (th : List (String × List Nat)) (a t : String) :
    mapHas (ensureThread th a) t = true ↔
      (a = t ∧ inheritedNames.contains a = false) ∨ mapHas th t = true := by
  unfold ensureThread
  by_cases h : mapHas th a = true
  · simp only [h, Bool.true_or, if_true]
    constructor
    · exact Or.inr
    · rintro (⟨rfl, _⟩ | h')
      · exact h
      · exact h'
  · have h' : mapHas th a = false := by simpa using h
    cases hin : inheritedNames.contains a with
    | true =>
      simp only [h', Bool.false_or, if_true]
      constructor
      · exact Or.inr
      · rintro (⟨_, hc⟩ | h'')
        · cases hc
        · exact h''
    | false =>
      simp only [h', Bool.or_false, Bool.false_eq_true, if_false]
      rw [mapHas_mapSet]
      simp

theorem filed_newRoom (ρ : String) : Filed (newRoom ρ) := by
  intro u t h
  simp [newRoom, mapGet] at h

theorem filed_roomOf (s : State) (h : PointersFiled s) (ρ : String) :
    Filed (roomOf s.chatRooms ρ) := by
  unfold roomOf
  cases hr : mapGet s.chatRooms ρ with
  | none => exact filed_newRoom ρ
  | some room => exact h ρ room hr

theorem filed_mapSet (rooms : List (String × Room)) (ρ : String) (room' : Room)
    (h : ∀ (r : String) (room : Room), mapGet rooms r = some room → Filed room)
    (h' : Filed room') :
    ∀ (r : String) (room : Room), mapGet (mapSet rooms ρ room') r = some room → Filed room := by
  intro r room hr
  rw [mapGet_mapSet] at hr
  split at hr
  · cases hr
    exact h'
  · exact h r room hr

theorem pointersFiled_init : PointersFiled init := by
  intro r room h
  simp [init, mapGet] at h

theorem pointersFiled_congr {s s' : State} (hc : s'.chatRooms = s.chatRooms)
    (h : PointersFiled s) : PointersFiled s' := by
  intro r room hr
  rw [hc] at hr
  exact h r room hr

theorem pointersFiled_step (s : State) (e : Event) (h : PointersFiled s) :
    PointersFiled (step s e) := by
  cases e with
  | joinChat c u a ρ now =>
    simp only [step, joinChat]
    apply filed_mapSet _ _ _ h
    intro u' t hp
    rcases filed_roomOf s h _ u' t hp with hk | hi
    · exact Or.inl (mapHas_ensureThread_of_has _ _ _ hk)
    · exact Or.inr hi
  | switchThread c τ =>
    cases hu : mapGet s.activeUsers c with
    | none =>
      simp only [step, switchThread, hu]
      exact pointersFiled_congr rfl h
    | some user =>
      cases hr : mapGet s.chatRooms user.roomId with
      | none =>
        simp only [step, switchThread, hu, hr]
        exact pointersFiled_congr rfl h
      | some room =>
        simp only [step, switchThread, hu, hr]
        apply filed_mapSet _ _ _ h
        intro u' t hp
        simp only [mapGet_mapSet] at hp
        split at hp
        · cases hp
          cases hin : inheritedNames.contains τ with
          | true => exact Or.inr rfl
          | false => exact Or.inl ((mapHas_ensureThread _ _ _).mpr (Or.inl ⟨rfl, hin⟩))
        · rcases h _ room hr u' t hp with hk | hi
          · exact Or.inl (mapHas_ensureThread_of_has _ _ _ hk)
          · exact Or.inr hi
  | createThread c n uuid now =>
    cases hu : mapGet s.activeUsers c with
    | none =>
      simp only [step, createThread, hu]
      exact pointersFiled_congr rfl h
    | some user =>
      simp only [step, createThread, hu]
      exact pointersFiled_congr rfl h
  | createSaved k =>
    simp only [step, createSaved]
    split
    · exact pointersFiled_congr rfl h
    · exact h
  | stopGeneration c m =>
    simp only [step, stopGeneration]
    split
    · exact h
    · exact pointersFiled_congr rfl h
  | sendMessage c msg τ uuid now =>
    cases hu : mapGet s.activeUsers c with
    | none =>
      simp only [step, sendMessage, hu]
      exact pointersFiled_congr rfl h
    | some user =>
      show PointersFiled (sendMessage s c msg τ uuid now)
      cases hth : threadThrows (roomOf s.chatRooms user.roomId).threads (τ.getD "default") with
      | true =>
        rw [sendMessage_throws s c msg τ uuid now user hu hth]
        intro r room hr
        simp only at hr
        split at hr
        · exact h r room hr
        · exact filed_mapSet _ _ _ h (filed_roomOf s h _) r room hr
      | false =>
        rw [sendMessage_ok s c msg τ uuid now user hu hth]
        apply filed_mapSet _ _ _ h
        intro u' t hp
        simp only [mapGet_mapSet] at hp
        split at hp
        · cases hp
          exact Or.inl ((mapHas_appendRef _ _ _ _).mpr (Or.inl rfl))
        · rcases filed_roomOf s h _ u' t hp with hk | hi
          · exact Or.inl ((mapHas_appendRef _ _ _ _).mpr (Or.inr hk))
          · exact Or.inr hi
  | sendSaved k uuid now =>
    show PointersFiled (sendSaved s k uuid now)
    rcases sendSaved_cases s k uuid now with h0 | ⟨c, u, ρ, τ, msg, uref, hj⟩
    · rw [h0]; exact h
    · cases hkey : mapHas (roomOf s.chatRooms ρ).threads τ with
      | false =>
        rw [sendSaved_throws s k uuid now c u ρ τ msg uref hj hkey]
        exact pointersFiled_congr rfl h
      | true =>
        rw [sendSaved_ok s k uuid now c u ρ τ msg uref hj hkey]
        apply filed_mapSet _ _ _ h
        intro u' t hp
        rcases filed_roomOf s h _ u' t hp with hk | hi
        · exact Or.inl ((mapHas_appendRef _ _ _ _).mpr (Or.inr hk))
        · exact Or.inr hi
  | disconnect c now =>
    simp only [step, disconnect]
    split
    · exact h
    · exact pointersFiled_congr rfl h
  | backend k b =>
    exact pointersFiled_congr (backend_frame s k b).2.1 h

theorem pointersFiled_of_reachable (s : State) (h : Reachable s) : PointersFiled s := by
  induction h with
  | init => exact pointersFiled_init
  | step s e _ ih => exact pointersFiled_step s e ih

/-! ## What `join-chat` sends -/

/-- The catalog `join-chat` reads after creating a missing entry is the stored one, or `[]`. -/
theorem catalog_after_ensure (m : List (String × List ThreadInfo)) (u : String) :
    (mapGet (if mapHas m u then m else mapSet m u []) u).getD [] = (mapGet m u).getD [] := by
  by_cases h : mapHas m u = true
  · simp [h]
  · simp only [h, Bool.false_eq_true, if_false, mapGet_mapSet, if_true, Option.getD_some]
    unfold mapHas at h
    cases hm : mapGet m u with
    | none => rfl
    | some v => simp [hm] at h

/-- What `messages-loaded` carries after the guard that creates a missing thread: the
messages of the thread, or for an inherited name that is no key the inherited value. -/
theorem messagesLoadedOf_ensureThread (heap : List Message) (th : List (String × List Nat))
    (t : String) :
    messagesLoadedOf heap (ensureThread th t) t =
      if threadThrows th t then OutEvent.messagesLoadedInherited t
      else OutEvent.messagesLoaded (deref heap ((mapGet th t).getD [])) t := by
  unfold messagesLoadedOf ensureThread threadThrows mapHas
  cases hg : mapGet th t with
  | some refs => simp [hg]
  | none =>
    cases hin : inheritedNames.contains t with
    | true => simp [hg, hin]
    | false => simp [hg, hin, mapGet_mapSet, deref]

theorem newEvents_joinChat (s : State) (c u a : String) (ρ : Option String) (now : String) :
    newEvents s (Event.joinChat c u a ρ now) =
      [(Target.toSocket c, OutEvent.threadsLoaded ((mapGet s.userThreads u).getD [])),
       (Target.toSocket c,
          if threadThrows (roomOf s.chatRooms (ρ.getD "general")).threads
            (match mapGet (roomOf s.chatRooms (ρ.getD "general")).activeThreads u with
              | some t => if t = "" then "default" else t
              | none => "default")
          then OutEvent.messagesLoadedInherited
            (match mapGet (roomOf s.chatRooms (ρ.getD "general")).activeThreads u with
              | some t => if t = "" then "default" else t
              | none => "default")
          else OutEvent.messagesLoaded
            (threadMessages s (ρ.getD "general")
              (match mapGet (roomOf s.chatRooms (ρ.getD "general")).activeThreads u with
                | some t => if t = "" then "default" else t
                | none => "default"))
            (match mapGet (roomOf s.chatRooms (ρ.getD "general")).activeThreads u with
              | some t => if t = "" then "default" else t
              | none => "default")),
       (Target.toRoom (ρ.getD "general") c, OutEvent.userJoined u)] := by
  simp only [newEvents, step, joinChat, List.drop_left, catalog_after_ensure,
    messagesLoadedOf_ensureThread, threadMessages, threadRefs_eq]

/-! ## Registered connections have a room and a session -/

theorem usersPlaced_init : UsersPlaced init := by
  intro c user h
  simp [init, mapGet] at h

theorem usersPlaced_mono (s s' : State) (ha : s'.activeUsers = s.activeUsers)
    (hc : ∀ r, mapHas s.chatRooms r = true → mapHas s'.chatRooms r = true)
    (hs : ∀ u, mapHas s.userSessions u = true → mapHas s'.userSessions u = true)
    (h : UsersPlaced s) : UsersPlaced s' := by
  intro c user hu
  rw [ha] at hu
  exact ⟨hc _ (h c user hu).1, hs _ (h c user hu).2⟩

theorem usersPlaced_step (s : State) (e : Event) (h : UsersPlaced s) :
    UsersPlaced (step s e) := by
  cases e with
  | joinChat c u a ρ now =>
    intro c' user hu
    simp only [step, joinChat, mapGet_mapSet] at hu
    simp only [step, joinChat]
    split at hu
    · cases hu
      exact ⟨(mapHas_mapSet _ _ _ _).mpr (Or.inl rfl), (mapHas_mapSet _ _ _ _).mpr (Or.inl rfl)⟩
    · exact ⟨(mapHas_mapSet _ _ _ _).mpr (Or.inr (h c' user hu).1),
        (mapHas_mapSet _ _ _ _).mpr (Or.inr (h c' user hu).2)⟩
  | switchThread c τ =>
    cases hu : mapGet s.activeUsers c with
    | none =>
      simp only [step, switchThread, hu]
      exact usersPlaced_mono s _ rfl (fun _ x => x) (fun _ x => x) h
    | some user =>
      cases hr : mapGet s.chatRooms user.roomId with
      | none =>
        simp only [step, switchThread, hu, hr]
        exact usersPlaced_mono s _ rfl (fun _ x => x) (fun _ x => x) h
      | some room =>
        simp only [step, switchThread, hu, hr]
        exact usersPlaced_mono s _ rfl (fun _ x => (mapHas_mapSet _ _ _ _).mpr (Or.inr x))
          (fun _ x => x) h
  | createThread c n uuid now =>
    cases hu : mapGet s.activeUsers c with
    | none =>
      simp only [step, createThread, hu]
      exact usersPlaced_mono s _ rfl (fun _ x => x) (fun _ x => x) h
    | some user =>
      simp only [step, createThread, hu]
      exact usersPlaced_mono s _ rfl (fun _ x => x) (fun _ x => x) h
  | createSaved k =>
    simp only [step, createSaved]
    split
    · exact usersPlaced_mono s _ rfl (fun _ x => x) (fun _ x => x) h
    · exact h
  | stopGeneration c m =>
    simp only [step, stopGeneration]
    split
    · exact h
    · exact usersPlaced_mono s _ rfl (fun _ x => x) (fun _ x => x) h
  | sendMessage c msg τ uuid now =>
    cases hu : mapGet s.activeUsers c with
    | none =>
      simp only [step, sendMessage, hu]
      exact usersPlaced_mono s _ rfl (fun _ x => x) (fun _ x => x) h
    | some user =>
      simp only [step, sendMessage, hu]
      split
      · refine usersPlaced_mono s _ rfl (fun r x => ?_) (fun _ x => x) h
        simp only
        split
        · exact x
        · exact (mapHas_mapSet _ _ _ _).mpr (Or.inr x)
      · exact usersPlaced_mono s _ rfl (fun _ x => (mapHas_mapSet _ _ _ _).mpr (Or.inr x))
          (fun _ x => x) h
  | sendSaved k uuid now =>
    simp only [step, sendSaved]
    split
    · split
      · exact usersPlaced_mono s _ rfl (fun _ x => x) (fun _ x => x) h
      · split
        · exact usersPlaced_mono s _ rfl (fun _ x => x) (fun _ x => x) h
        · exact usersPlaced_mono s _ rfl (fun _ x => (mapHas_mapSet _ _ _ _).mpr (Or.inr x))
            (fun _ x => x) h
    · exact h
  | disconnect c now =>
    cases hu : mapGet s.activeUsers c with
    | none =>
      simp only [step, disconnect, hu]
      exact h
    | some user =>
      simp only [step, disconnect, hu]
      intro c' user' hu'
      simp only [mapGet_mapDelete] at hu'
      split at hu'
      · cases hu'
      · refine ⟨(h c' user' hu').1, ?_⟩
        split
        · exact (mapHas_mapSet _ _ _ _).mpr (Or.inr (h c' user' hu').2)
        · exact (h c' user' hu').2
  | backend k b =>
    have hf := backend_frame s k b
    exact usersPlaced_mono s (backend s k b) hf.1 (fun _ x => by rw [hf.2.1]; exact x)
      (fun _ x => by rw [hf.2.2.2.1]; exact x) h

theorem usersPlaced_of_reachable (s : State) (h : Reachable s) : UsersPlaced s := by
  induction h with
  | init => exact usersPlaced_init
  | step s e _ ih => exact usersPlaced_step s e ih

theorem room_of_registered (s : State) (h : Reachable s) (c : String) (user : User)
    (hu : mapGet s.activeUsers c = some user) :
    ∃ room, mapGet s.chatRooms user.roomId = some room := by
  have := (usersPlaced_of_reachable s h c user hu).1
  unfold mapHas at this
  exact Option.isSome_iff_exists.mp this

theorem session_of_registered (s : State) (h : Reachable s) (c : String) (user : User)
    (hu : mapGet s.activeUsers c = some user) :
    ∃ session, mapGet s.userSessions user.username = some session := by
  have := (usersPlaced_of_reachable s h c user hu).2
  unfold mapHas at this
  exact Option.isSome_iff_exists.mp this

/-! ## Thread catalogs -/

/-- A `create-thread` handler waiting for `saveData` stays suspended until its own resumption
runs. -/
theorem createSaving_step (s : State) (e : Event) (k : Nat) (c u : String)
    (hk : s.tasks[k]? = some (Task.createSaving c u)) (he : e ≠ Event.createSaved k) :
    (step s e).tasks[k]? = some (Task.createSaving c u) := by
  have happ : ∀ x : Task, (s.tasks ++ [x])[k]? = some (Task.createSaving c u) := by
    intro x
    rw [List.getElem?_append_left (List.getElem?_eq_some_iff.mp hk).1]
    exact hk
  cases e with
  | joinChat c' u' a r now => simpa [step, joinChat] using hk
  | switchThread c' t =>
    simp only [step, switchThread]
    split
    · exact hk
    · split <;> exact hk
  | createThread c' n uuid now =>
    simp only [step, createThread]
    split
    · exact hk
    · exact happ _
  | createSaved j =>
    have hjk : j ≠ k := fun h => he (by rw [h])
    simp only [step, createSaved]
    split
    · simp only [emit, setTask]
      rw [List.getElem?_set_ne hjk]
      exact hk
    · exact hk
  | stopGeneration c' m =>
    simp only [step, stopGeneration]
    split
    · exact hk
    · rename_i ctrl _
      split
      · rename_i g hj
        exact getElem?_set_of_ne_gen _ _ _ _ _ hk (by rw [hj]; simp)
      · exact hk
  | sendMessage c' m t uuid now =>
    simp only [step, sendMessage]
    split
    · exact hk
    · split
      · exact hk
      · exact happ _
  | sendSaved j uuid now =>
    simp only [step, sendSaved]
    split
    · rename_i hj
      have hset : ∀ x : Task, (s.tasks.set j x)[k]? = some (Task.createSaving c u) :=
        fun x => getElem?_set_of_ne_gen _ _ _ _ _ hk (by rw [hj]; simp)
      repeat' split
      all_goals exact hset _
    · exact hk
  | disconnect c' now =>
    simp only [step, disconnect]
    split <;> exact hk
  | backend j b =>
    simp only [step, backend]
    split
    · rename_i g hj
      split
      · rename_i sg hsg
        have hq := (quiet_listener s g b sg hsg).1
        simp only [store, Prod.mk.injEq] at hq
        simp only [putGen, setTask]
        rw [hq.2.2.2.2]
        exact getElem?_set_of_ne_gen _ _ _ _ _ hk (by rw [hj]; simp)
      · exact hk
    · exact hk

theorem createSaving_run (es : List Event) (s : State) (k : Nat) (c u : String)
    (hk : s.tasks[k]? = some (Task.createSaving c u))
    (he : ∀ e ∈ es, e ≠ Event.createSaved k) :
    (run s es).tasks[k]? = some (Task.createSaving c u) := by
  induction es generalizing s with
  | nil => exact hk
  | cons e rest ih =>
    exact ih _ (createSaving_step s e k c u hk (he e (List.mem_cons_self _ _)))
      (fun e' he' => he e' (List.mem_cons_of_mem _ he'))

/-- A catalog only grows at its end. -/
theorem catalog_step (s : State) (e : Event) (u : String) :
    ∃ rest, (mapGet (step s e).userThreads u).getD [] =
      (mapGet s.userThreads u).getD [] ++ rest := by
  have hsame : ∀ s' : State, s'.userThreads = s.userThreads →
      ∃ rest, (mapGet s'.userThreads u).getD [] = (mapGet s.userThreads u).getD [] ++ rest :=
    fun s' h => ⟨[], by rw [h, List.append_nil]⟩
  cases e with
  | joinChat c' u' a r now =>
    refine ⟨[], ?_⟩
    simp only [step, joinChat, List.append_nil]
    by_cases huu : u' = u
    · subst huu
      exact catalog_after_ensure _ _
    · split
      · rfl
      · rw [mapGet_mapSet, if_neg huu]
  | switchThread c' t =>
    apply hsame
    simp only [step, switchThread]
    split
    · rfl
    · split <;> rfl
  | createThread c' n uuid now =>
    simp only [step, createThread]
    split
    · exact hsame _ rfl
    · rename_i user _
      simp only [mapGet_mapSet]
      split
      · rename_i huu
        subst huu
        exact ⟨_, rfl⟩
      · exact ⟨[], by rw [List.append_nil]⟩
  | createSaved j =>
    apply hsame
    simp only [step, createSaved]
    split <;> rfl
  | stopGeneration c' m =>
    apply hsame
    simp only [step, stopGeneration]
    split <;> rfl
  | sendMessage c' m t uuid now =>
    apply hsame
    simp only [step, sendMessage]
    repeat' split
    all_goals rfl
  | sendSaved j uuid now =>
    apply hsame
    simp only [step, sendSaved]
    repeat' split
    all_goals rfl
  | disconnect c' now =>
    apply hsame
    simp only [step, disconnect]
    split <;> rfl
  | backend j b => exact hsame _ (backend_frame s j b).2.2.1

theorem catalog_run (es : List Event) (s : State) (u : String) :
    ∃ rest, (mapGet (run s es).userThreads u).getD [] =
      (mapGet s.userThreads u).getD [] ++ rest := by
  induction es generalizing s with
  | nil => exact ⟨[], by simp [run]⟩
  | cons e tl ih =>
    obtain ⟨r1, h1⟩ := catalog_step s e u
    obtain ⟨r2, h2⟩ := ih (step s e)
    refine ⟨r1 ++ r2, ?_⟩
    simp only [run, List.foldl_cons] at h2 ⊢
    rw [h2, h1, List.append_assoc]

/-! ## Saving and loading the rooms -/

theorem messageOfJson_messageJson (m : Message) : messageOfJson (messageJson m) = some m := by
  obtain ⟨id, username, message, timestamp, type, isStreaming⟩ := m
  cases type <;> cases isStreaming <;>
    simp [messageOfJson, messageJson, Json.getStr, Json.get, mapGet]

theorem messagesOfJson_map (ms : List Message) :
    messagesOfJson (Json.arr (ms.map messageJson)) = some ms := by
  simp only [messagesOfJson]
  induction ms with
  | nil => rfl
  | cons m rest ih =>
    rw [List.map_cons, List.mapM_cons, messageOfJson_messageJson, ih]
    rfl

theorem deref_range (h msgs ext : List Message) :
    deref (h ++ msgs ++ ext) (List.range' h.length msgs.length) = msgs := by
  induction msgs generalizing h with
  | nil => simp [deref]
  | cons m rest ih =>
    have := ih (h ++ [m])
    simp only [List.length_append, List.length_singleton, List.append_assoc,
      List.singleton_append] at this
    simp only [List.length_cons, List.range'_succ, deref, List.filterMap_cons,
      List.append_assoc, List.cons_append]
    rw [List.getElem?_append_right (Nat.le_refl _)]
    simp only [Nat.sub_self, List.getElem?_cons_zero]
    unfold deref at this
    exact congrArg (List.cons m) this


theorem loadThreads_map (h0 : List Message) (ths : List (String × List Nat))
    (h : List Message) :
    ∃ h' ths', loadThreads h
        (ths.map (fun th => (th.1, Json.arr ((deref h0 th.2).map messageJson)))) =
          some (h', ths') ∧
      (∃ add, h' = h ++ add) ∧
      ∀ t, mapHas ths' t = mapHas ths t ∧
        ∀ ext, deref (h' ++ ext) ((mapGet ths' t).getD []) =
          deref h0 ((mapGet ths t).getD []) := by
  induction ths generalizing h with
  | nil =>
    refine ⟨h, [], rfl, ⟨[], by simp⟩, fun t => ⟨rfl, fun ext => ?_⟩⟩
    simp [mapGet, deref]
  | cons th rest ih =>
    obtain ⟨t0, refs⟩ := th
    obtain ⟨h', ths', hload, ⟨add, hadd⟩, hprop⟩ := ih (h ++ deref h0 refs)
    refine ⟨h', (t0, List.range' h.length (deref h0 refs).length) :: ths', ?_,
      ⟨deref h0 refs ++ add, by rw [hadd, List.append_assoc]⟩, fun t => ?_⟩
    · simp only [List.map_cons, loadThreads, messagesOfJson_map, hload]
    · by_cases ht : t0 = t
      · subst ht
        refine ⟨by simp [mapHas, mapGet], fun ext => ?_⟩
        simp only [mapGet, if_true, Option.getD_some]
        rw [hadd, List.append_assoc]
        exact deref_range h (deref h0 refs) (add ++ ext)
      · refine ⟨?_, fun ext => ?_⟩
        · simp only [mapHas, mapGet, ht, if_false]
          exact (hprop t).1
        · simp only [mapGet, ht, if_false]
          exact (hprop t).2 ext

theorem loadActiveThreads_map (ps : List (String × String)) :
    loadActiveThreads (some (Json.obj (ps.map (fun p => (p.1, Json.str p.2))))) = some ps := by
  simp only [loadActiveThreads]
  induction ps with
  | nil => rfl
  | cons p rest ih =>
    rw [List.map_cons, List.mapM_cons, ih]
    rfl

theorem loadRoom_roomJson (h0 : List Message) (room : Room) (h : List Message) :
    ∃ h' room', loadRoom h (roomJson h0 room) = some (h', room') ∧
      (∃ add, h' = h ++ add) ∧ RoomLoaded h0 room h' room' := by
  obtain ⟨h', ths', hload, hadd, hprop⟩ := loadThreads_map h0 room.threads h
  refine ⟨h', ⟨room.id, room.name, none, ths', room.activeThreads⟩, ?_, hadd, rfl, rfl, rfl,
    rfl, hprop⟩
  have h1 : (roomJson h0 room).getStr "id" = some room.id := by
    simp [roomJson, Json.getStr, Json.get, mapGet]
  have h2 : (roomJson h0 room).getStr "name" = some room.name := by
    simp [roomJson, Json.getStr, Json.get, mapGet]
  have h3 : (roomJson h0 room).get "threads" = some (Json.obj (room.threads.map
      (fun th => (th.1, Json.arr ((deref h0 th.2).map messageJson))))) := by
    simp [roomJson, Json.get, mapGet]
  have h4 : (roomJson h0 room).get "activeThreads" =
      some (Json.obj (room.activeThreads.map (fun p => (p.1, Json.str p.2)))) := by
    simp [roomJson, Json.get, mapGet]
  simp only [loadRoom, h1, h2, h3, h4, loadActiveThreads_map, hload]

theorem roomLoaded_grow (h0 : List Message) (room : Room) (h' add : List Message)
    (room' : Room) (hl : RoomLoaded h0 room h' room') : RoomLoaded h0 room (h' ++ add) room' := by
  obtain ⟨a, b, c, d, e⟩ := hl
  refine ⟨a, b, c, d, fun t => ⟨(e t).1, fun ext => ?_⟩⟩
  rw [List.append_assoc]
  exact (e t).2 (add ++ ext)

theorem mapGet_filter_ne {β : Type} (m : List (String × β)) (p r : String) :
    mapGet (m.filter (fun kr => kr.1 != p)) r = if r = p then none else mapGet m r := by
  induction m with
  | nil => simp [mapGet]
  | cons kv rest ih =>
    by_cases hk : kv.1 = p
    · have hf : (kv.1 != p) = false := by simp [hk]
      rw [List.filter_cons_of_neg (by simp [hf]), ih]
      by_cases hr : r = p
      · simp [hr]
      · have : ¬ kv.1 = r := fun h => hr (h.symm.trans hk)
        simp [hr, mapGet, List.find?, this]
    · have hf : (kv.1 != p) = true := by simp [hk]
      rw [List.filter_cons_of_pos (by simp [hf])]
      by_cases hr : r = p
      · have : ¬ kv.1 = r := fun h => hk (h.trans hr)
        simp only [hr, if_true] at ih ⊢
        rw [← ih]
        simp [mapGet, List.find?, hr, hk]
      · by_cases hkr : kv.1 = r
        · simp [mapGet, List.find?, hkr, hr]
        · simp only [hr, if_false] at ih ⊢
          simp only [mapGet, List.find?, hkr, beq_iff_eq, Bool.false_eq_true] at ih ⊢
          simpa [hkr] using ih

theorem loadRoomList_map (h0 : List Message) (rooms : List (String × Room))
    (h : List Message) :
    ∃ h' rooms', loadRoomList h (rooms.map (fun kr => (kr.1, roomJson h0 kr.2))) =
        some (h', rooms') ∧
      (∃ add, h' = h ++ add) ∧
      ∀ r, (mapGet rooms r = none → mapGet rooms' r = none) ∧
        ∀ room, mapGet rooms r = some room →
          ∃ room', mapGet rooms' r = some room' ∧ RoomLoaded h0 room h' room' := by
  induction rooms generalizing h with
  | nil =>
    exact ⟨h, [], rfl, ⟨[], by simp⟩, fun r => ⟨fun _ => rfl, fun room hr => by
      simp [mapGet] at hr⟩⟩
  | cons kr rest ih =>
    obtain ⟨r0, room0⟩ := kr
    obtain ⟨h1, room1, hload1, ⟨add1, hadd1⟩, hl1⟩ := loadRoom_roomJson h0 room0 h
    obtain ⟨h2, rooms2, hload2, ⟨add2, hadd2⟩, hprop⟩ := ih h1
    refine ⟨h2, (r0, room1) :: rooms2, ?_, ⟨add1 ++ add2, by
      rw [hadd2, hadd1, List.append_assoc]⟩, fun r => ?_⟩
    · simp only [List.map_cons, loadRoomList, hload1, hload2]
    · by_cases hr : r0 = r
      · subst hr
        refine ⟨fun hnone => by simp [mapGet] at hnone, fun room hroom => ?_⟩
        simp only [mapGet, if_true, Option.some.injEq] at hroom
        subst hroom
        refine ⟨room1, by simp [mapGet], ?_⟩
        rw [hadd2]
        exact roomLoaded_grow h0 room0 h1 add2 room1 hl1
      · simp only [mapGet, hr, if_false]
        exact hprop r

/-! ## Lines of a chunk -/

theorem splitNewline_of_not_mem (l : List Char) (h : '\n' ∉ l) : splitNewline l = [l] := by
  induction l with
  | nil => rfl
  | cons c cs ih =>
    have hc : c ≠ '\n' := fun hc => h (by rw [hc]; exact List.mem_cons_self _ _)
    have hcs : '\n' ∉ cs := fun hcs => h (List.mem_cons_of_mem _ hcs)
    simp only [splitNewline, hc, if_false, ih hcs]

theorem splitNewline_append_newline (l : List Char) (h : '\n' ∉ l) :
    splitNewline (l ++ ['\n']) = [l, []] := by
  induction l with
  | nil => rfl
  | cons c cs ih =>
    have hc : c ≠ '\n' := fun hc => h (by rw [hc]; exact List.mem_cons_self _ _)
    have hcs : '\n' ∉ cs := fun hcs => h (List.mem_cons_of_mem _ hcs)
    have hih := ih hcs
    rw [List.cons_append]
    unfold splitNewline
    rw [if_neg hc, hih]

theorem string_mk_ne_empty (l : List Char) (h : l ≠ []) : String.mk l ≠ "" := by
  intro hl
  apply h
  have := congrArg String.data hl
  simpa using this

theorem chunkLines_of_line (a : String) (h : '\n' ∉ a.toList) (ha : a ≠ "") :
    chunkLines a = [a] := by
  have hne : a.toList ≠ [] := fun hl => ha (String.ext hl)
  unfold chunkLines
  rw [splitNewline_of_not_mem _ h]
  simp [ha]

theorem chunkLines_of_line_newline (a : String) (h : '\n' ∉ a.toList) (ha : a ≠ "") :
    chunkLines (a ++ "\n") = [a] := by
  unfold chunkLines
  have : (a ++ "\n").toList = a.toList ++ ['\n'] := by simp
  rw [this, splitNewline_append_newline _ h]
  simp [ha]


/-! ## Order of backup names -/

theorem unitsLt_irrefl (a : List Nat) : unitsLt a a = false := by
  induction a with
  | nil => rfl
  | cons x xs ih => simp [unitsLt, ih]

theorem unitsLt_asymm (a b : List Nat) (h : unitsLt a b = true) : unitsLt b a = false := by
  induction a generalizing b with
  | nil => cases b <;> simp [unitsLt] at h ⊢
  | cons x xs ih =>
    cases b with
    | nil => simp [unitsLt] at h
    | cons y ys =>
      simp only [unitsLt, Bool.or_eq_true, decide_eq_true_eq, Bool.and_eq_true, beq_iff_eq] at h
      simp only [unitsLt, Bool.or_eq_false_iff, decide_eq_false_iff_not, Bool.and_eq_false_imp,
        beq_iff_eq]
      rcases h with h | ⟨h, h'⟩
      · exact ⟨by omega, fun hyx => by omega⟩
      · exact ⟨by omega, fun _ => ih ys h'⟩

theorem unitsLt_trichotomy (a b : List Nat) (h1 : unitsLt a b = false)
    (h2 : unitsLt b a = false) : a = b := by
  induction a generalizing b with
  | nil => cases b <;> simp [unitsLt] at h1 ⊢
  | cons x xs ih =>
    cases b with
    | nil => simp [unitsLt] at h2
    | cons y ys =>
      simp only [unitsLt, Bool.or_eq_false_iff, decide_eq_false_iff_not, Bool.and_eq_false_imp,
        beq_iff_eq] at h1 h2
      have hxy : x = y := by omega
      subst hxy
      rw [ih ys (h1.2 rfl) (h2.2 rfl)]

theorem unitsLt_trans (a b c : List Nat) (h1 : unitsLt a b = true) (h2 : unitsLt b c = true) :
    unitsLt a c = true := by
  induction a generalizing b c with
  | nil =>
    cases c with
    | nil => cases b <;> simp [unitsLt] at h2
    | cons z zs => rfl
  | cons x xs ih =>
    cases b with
    | nil => simp [unitsLt] at h1
    | cons y ys =>
      cases c with
      | nil => simp [unitsLt] at h2
      | cons z zs =>
        simp only [unitsLt, Bool.or_eq_true, decide_eq_true_eq, Bool.and_eq_true,
          beq_iff_eq] at h1 h2 ⊢
        rcases h1 with h1 | ⟨h1, h1'⟩
        · rcases h2 with h2 | ⟨h2, _⟩
          · exact Or.inl (by omega)
          · exact Or.inl (by omega)
        · rcases h2 with h2 | ⟨h2, h2'⟩
          · exact Or.inl (by omega)
          · exact Or.inr ⟨by omega, ih ys zs h1' h2'⟩

/-- Not below: transitive, because the order is total. -/
theorem unitsLt_not_trans (a b c : List Nat) (h1 : unitsLt b a = false)
    (h2 : unitsLt c b = false) : unitsLt c a = false := by
  cases hca : unitsLt c a with
  | false => rfl
  | true =>
    cases hab : unitsLt a b with
    | true =>
      have := unitsLt_trans c a b hca hab
      rw [h2] at this
      cases this
    | false =>
      have := unitsLt_trichotomy a b hab h1
      subst this
      rw [h2] at hca
      cases hca

theorem unitsLt_append_left (p x y : List Nat) : unitsLt (p ++ x) (p ++ y) = unitsLt x y := by
  induction p with
  | nil => rfl
  | cons a as ih => simp [unitsLt, ih]

theorem unitsLt_append_block (X Y x y : List Nat) (hlen : X.length = Y.length) :
    unitsLt (X ++ x) (Y ++ y) = (unitsLt X Y || (X == Y && unitsLt x y)) := by
  induction X generalizing Y with
  | nil =>
    cases Y with
    | nil => simp [unitsLt]
    | cons b bs => simp at hlen
  | cons a as ih =>
    cases Y with
    | nil => simp at hlen
    | cons b bs =>
      simp only [List.length_cons, Nat.add_right_cancel_iff] at hlen
      simp only [List.cons_append, unitsLt, ih bs hlen, List.cons_beq_cons]
      by_cases hab : a = b
      · subst hab
        simpa using ih bs hlen
      · have : (a == b) = false := by simpa using hab
        simp [this]

theorem jsLe_total (x y : String) : jsLe x y = true ∨ jsLe y x = true := by
  simp only [jsLe, Bool.not_eq_true_eq_eq_false]
  cases h : unitsLt (utf16 y) (utf16 x) with
  | false => exact Or.inl rfl
  | true => exact Or.inr (unitsLt_asymm _ _ h)

theorem jsLe_trans (x y z : String) (hxy : jsLe x y = true) (hyz : jsLe y z = true) :
    jsLe x z = true := by
  simp only [jsLe, Bool.not_eq_true_eq_eq_false] at hxy hyz ⊢
  exact unitsLt_not_trans _ _ _ hxy hyz

/-- The first entry of the sorted and reversed array is an entry of the array that no entry
exceeds. -/
theorem head_reverse_sort (l : List String) (x : String)
    (h : ((l.insertionSort (fun x y => jsLe x y = true)).reverse).head? = some x) :
    x ∈ l ∧ ∀ y ∈ l, jsLe y x = true := by
  have hsorted := @List.sorted_insertionSort String (fun x y => jsLe x y = true) _
    ⟨jsLe_total⟩ ⟨jsLe_trans⟩ l
  have hperm := List.perm_insertionSort (fun x y => jsLe x y = true) l
  have hrev : (l.insertionSort (fun x y => jsLe x y = true)).reverse.Pairwise
      (fun a b => jsLe b a = true) := List.pairwise_reverse.mpr hsorted
  cases hr : (l.insertionSort (fun x y => jsLe x y = true)).reverse with
  | nil => simp [hr] at h
  | cons a rest =>
    rw [hr] at h hrev
    simp only [List.head?_cons, Option.some.injEq] at h
    subst h
    have hmem : ∀ y, y ∈ l ↔ y ∈ a :: rest := by
      intro y
      rw [← hr, List.mem_reverse]
      exact (hperm.mem_iff).symm
    refine ⟨(hmem a).mpr (List.mem_cons_self _ _), fun y hy => ?_⟩
    rcases List.mem_cons.mp ((hmem y).mp hy) with rfl | hy'
    · simp [jsLe, unitsLt_irrefl]
    · exact (List.pairwise_cons.mp hrev).1 y hy'

theorem head_reverse_sort_none (l : List String)
    (h : ((l.insertionSort (fun x y => jsLe x y = true)).reverse).head? = none) : l = [] := by
  have hperm := List.perm_insertionSort (fun x y => jsLe x y = true) l
  have : (l.insertionSort (fun x y => jsLe x y = true)).reverse = [] := by
    cases hr : (l.insertionSort (fun x y => jsLe x y = true)).reverse with
    | nil => rfl
    | cons a rest => simp [hr] at h
  have h2 : l.insertionSort (fun x y => jsLe x y = true) = [] := by simpa using this
  rw [h2] at hperm
  exact List.Perm.eq_nil hperm.symm


theorem digit_char (d : Nat) (h : d < 10) :
    (Char.ofNat (48 + d)).toNat = 48 + d ∧ Char.ofNat (48 + d) ≠ ':' ∧
      Char.ofNat (48 + d) ≠ '.' := by
  interval_cases d <;> decide

theorem pad_replace (w n : Nat) :
    (pad w n).map (fun c => if c = ':' ∨ c = '.' then '-' else c) = pad w n := by
  induction w generalizing n with
  | zero => rfl
  | succ w ih =>
    have hd := digit_char (n / 10 ^ w % 10) (Nat.mod_lt _ (by decide))
    simp only [pad, List.map_cons, ih, hd.2.1, hd.2.2, or_self, if_false]

theorem pad_units (w n : Nat) :
    ((pad w n).map (fun c =>
      if c.toNat < 0x10000 then [c.toNat]
      else [0xD800 + (c.toNat - 0x10000) / 0x400,
        0xDC00 + (c.toNat - 0x10000) % 0x400])).flatten = padUnits w n := by
  induction w generalizing n with
  | zero => rfl
  | succ w ih =>
    have hd := digit_char (n / 10 ^ w % 10) (Nat.mod_lt _ (by decide))
    have hlt : (Char.ofNat (48 + n / 10 ^ w % 10)).toNat < 0x10000 := by
      rw [hd.1]
      have := Nat.mod_lt (n / 10 ^ w) (show 10 > 0 by decide)
      omega
    rw [hd.1] at hlt
    simp only [pad, padUnits, List.map_cons, List.flatten_cons, ih, hd.1, hlt, if_true,
      List.singleton_append]

theorem utf16_backupName (t : Stamp) :
    utf16 (backupName t) =
      [98, 97, 99, 107, 117, 112, 45] ++ (padUnits 4 t.year ++ ([45] ++ (padUnits 2 t.month ++
        ([45] ++ (padUnits 2 t.day ++ ([84] ++ (padUnits 2 t.hour ++ ([45] ++
        (padUnits 2 t.minute ++ ([45] ++ (padUnits 2 t.second ++ ([45] ++
        (padUnits 3 t.ms ++ [90]))))))))))))) := by
  simp only [utf16, backupName, replaceColonDot, isoString, String.toList, String.data_append,
    List.map_append, List.flatten_append, pad_replace, pad_units, List.append_assoc]
  rfl


theorem padUnits_length (w n : Nat) : (padUnits w n).length = w := by
  induction w generalizing n with
  | zero => rfl
  | succ w ih => simp [padUnits, ih]

theorem lt_iff_div_mod (P n m : Nat) :
    n < m ↔ n / P < m / P ∨ (n / P = m / P ∧ n % P < m % P) := by
  have hn := Nat.div_add_mod n P
  have hm := Nat.div_add_mod m P
  constructor
  · intro h
    rcases Nat.lt_trichotomy (n / P) (m / P) with hq | hq | hq
    · exact Or.inl hq
    · refine Or.inr ⟨hq, ?_⟩
      rw [hq] at hn
      omega
    · have := Nat.lt_of_div_lt_div hq
      omega
  · rintro (hq | ⟨hq, hr⟩)
    · exact Nat.lt_of_div_lt_div hq
    · rw [hq] at hn
      omega

theorem padUnits_block (w n m : Nat) (hn : n < 10 ^ w) (hm : m < 10 ^ w) (x y : List Nat) :
    unitsLt (padUnits w n ++ x) (padUnits w m ++ y) =
      (decide (n < m) || (n == m && unitsLt x y)) := by
  induction w generalizing n m with
  | zero =>
    simp only [Nat.pow_zero, Nat.lt_one_iff] at hn hm
    subst hn hm
    simp [padUnits]
  | succ w ih =>
    have hP : 0 < 10 ^ w := by positivity
    have hqn : n / 10 ^ w < 10 := by
      rw [Nat.div_lt_iff_lt_mul hP]
      rw [Nat.pow_succ] at hn
      omega
    have hqm : m / 10 ^ w < 10 := by
      rw [Nat.div_lt_iff_lt_mul hP]
      rw [Nat.pow_succ] at hm
      omega
    have hrn : n % 10 ^ w < 10 ^ w := Nat.mod_lt _ hP
    have hrm : m % 10 ^ w < 10 ^ w := Nat.mod_lt _ hP
    have hih := ih (n % 10 ^ w) (m % 10 ^ w) hrn hrm
    simp only [padUnits, List.cons_append, unitsLt, Nat.mod_eq_of_lt hqn, Nat.mod_eq_of_lt hqm,
      List.append_eq]
    rw [hih]
    have hlt := lt_iff_div_mod (10 ^ w) n m
    have heq : n = m ↔ n / 10 ^ w = m / 10 ^ w ∧ n % 10 ^ w = m % 10 ^ w := by
      constructor
      · intro h
        subst h
        exact ⟨rfl, rfl⟩
      · rintro ⟨h1, h2⟩
        have hn' := Nat.div_add_mod n (10 ^ w)
        have hm' := Nat.div_add_mod m (10 ^ w)
        rw [h1, h2] at hn'
        omega
    by_cases h1 : n / 10 ^ w < m / 10 ^ w
    · have hnm : n < m := hlt.mpr (Or.inl h1)
      simp [h1, hnm]
    · by_cases h2 : n / 10 ^ w = m / 10 ^ w
      · by_cases h3 : n % 10 ^ w < m % 10 ^ w
        · have hnm : n < m := hlt.mpr (Or.inr ⟨h2, h3⟩)
          simp [h2, h3, hnm]
        · have hnm : ¬ n < m := fun h => by
            rcases hlt.mp h with h' | h'
            · exact h1 h'
            · exact h3 h'.2
          by_cases h4 : n % 10 ^ w = m % 10 ^ w
          · have : n = m := heq.mpr ⟨h2, h4⟩
            subst this
            simp
          · have hne : ¬ n = m := fun h => h4 (heq.mp h).2
            have e1 : (n == m) = false := by simpa using hne
            have e2 : (n % 10 ^ w == m % 10 ^ w) = false := by simpa using h4
            simp [h2, h3, hnm, e1, e2]
      · have hnm : ¬ n < m := fun h => by
          rcases hlt.mp h with h' | h'
          · exact h1 h'
          · exact h2 h'.1
        have hne : ¬ n = m := fun h => h2 (heq.mp h).1
        have hne' : ¬ (48 + n / 10 ^ w = 48 + m / 10 ^ w) := by omega
        have hlt' : ¬ (48 + n / 10 ^ w < 48 + m / 10 ^ w) := by omega
        have e1 : (n == m) = false := by simpa using hne
        have e2 : (48 + n / 10 ^ w == 48 + m / 10 ^ w) = false := by simpa using hne'
        simp [hnm, hlt', e1, e2]

/-- Backup names of moments with four-digit years are ordered like the moments. -/
theorem backupName_lt (a b : Stamp) (ha : a.fits) (hb : b.fits) :
    unitsLt (utf16 (backupName a)) (utf16 (backupName b)) = unitsLt a.fields b.fields := by
  obtain ⟨a1, a2, a3, a4, a5, a6, a7, a8, a9⟩ := ha
  obtain ⟨b1, b2, b3, b4, b5, b6, b7, b8, b9⟩ := hb
  rw [utf16_backupName, utf16_backupName, unitsLt_append_left,
    padUnits_block 4 _ _ (by norm_num; omega) (by norm_num; omega),
    unitsLt_append_left,
    padUnits_block 2 _ _ (by norm_num; omega) (by norm_num; omega),
    unitsLt_append_left,
    padUnits_block 2 _ _ (by norm_num; omega) (by norm_num; omega),
    unitsLt_append_left,
    padUnits_block 2 _ _ (by norm_num; omega) (by norm_num; omega),
    unitsLt_append_left,
    padUnits_block 2 _ _ (by norm_num; omega) (by norm_num; omega),
    unitsLt_append_left,
    padUnits_block 2 _ _ (by norm_num; omega) (by norm_num; omega),
    unitsLt_append_left,
    padUnits_block 3 _ _ (by norm_num; omega) (by norm_num; omega)]
  simp [Stamp.fields, unitsLt]

theorem backupName_startsWith (t : Stamp) : startsWith (backupName t) "backup-" = true := by
  simp [startsWith, backupName, String.toList, String.data_append]


theorem stamp_eq_of_fields (a b : Stamp) (h : a.fields = b.fields) : a = b := by
  obtain ⟨y, mo, d, hh, mi, s, ms⟩ := a
  obtain ⟨y', mo', d', hh', mi', s', ms'⟩ := b
  simp only [Stamp.fields, List.cons.injEq, and_true] at h
  obtain ⟨h1, h2, h3, h4, h5, h6, h7⟩ := h
  subst h1 h2 h3 h4 h5 h6 h7
  rfl

theorem backupName_inj (a b : Stamp) (ha : a.fits) (hb : b.fits)
    (h : backupName a = backupName b) : a = b := by
  apply stamp_eq_of_fields
  apply unitsLt_trichotomy
  · rw [← backupName_lt a b ha hb, h, unitsLt_irrefl]
  · rw [← backupName_lt b a hb ha, h, unitsLt_irrefl]

/-! ## Texts of the notices -/

theorem string_append_left_cancel (a x y : String) : a ++ x = a ++ y ↔ x = y := by
  constructor
  · intro h
    have := congrArg String.data h
    simp only [String.data_append] at this
    exact String.ext (List.append_cancel_left this)
  · intro h; rw [h]

theorem string_append_right_cancel (a x y : String) : x ++ a = y ++ a ↔ x = y := by
  constructor
  · intro h
    have := congrArg String.data h
    simp only [String.data_append] at this
    exact String.ext (List.append_cancel_right this)
  · intro h; rw [h]

/-- A message that starts with `Ollama API error: ` is none of the texts that differ from it
within the first eight characters. -/
theorem api_error_ne (m lit : String) (h : lit.data.take 8 ≠ "Ollama A".data) :
    "Ollama API error: " ++ m ≠ lit := by
  intro heq
  apply h
  rw [← heq]
  simp only [String.data_append]
  rfl

/-! ## Fixtures -/

/-- The two connections of `twoUsers` are registered in the general room. -/
theorem inRoom_twoUsers (c : String) (h : c = "c1" ∨ c = "c2") :
    InRoom twoUsers c "general" := by
  rcases h with h | h
  · rw [h]
    exact ⟨{ username := "alice", apiKey := "k1", roomId := "general" }, by decide, rfl⟩
  · rw [h]
    exact ⟨{ username := "bob", apiKey := "k2", roomId := "general" }, by decide, rfl⟩

/-! ## The claims -/

/-- C1: thread message lists are append-only. For every turn of the event loop (every socket
handler, every resumption after `saveData`, every backend callback), every room and every
thread id, the ids of the thread's messages before the turn are an initial segment of the ids
after it, in the same order. Hence `send-message` events handled one after another on one
thread leave their user messages in the list in call order; on a thread id that is an
inherited property name and no key of the room's threads every push throws, and the list
stays as it is. -/
theorem thread_lists_append_only (s : State) (hv : RefsValid s) :
    (∀ (e : Event) (r t : String), threadIds s r t <+: threadIds (step s e) r t) ∧
    (∀ (r t : String) (xs : List Send), (∀ x ∈ xs, InRoom s x.socketId r) →
      ((threadMessages (xs.foldl (sendThrough t) s) r t).drop
          (threadMessages s r t).length).filter (fun m => decide (m.type = MsgType.user)) =
        if threadThrows (roomOf s.chatRooms r).threads t then []
        else xs.map (fun x => userMessage x.uuid (usernameOf s x.socketId) x.message x.now)) := by
  refine ⟨fun e r t => threadIds_step s e hv r t, fun r t xs hx => ?_⟩
  cases hth : threadThrows (roomOf s.chatRooms r).threads t with
  | true =>
    obtain ⟨hheap, -, -, hrefs⟩ := foldl_sendThrough_throws t r xs s hx hth
    simp only [threadMessages, hheap, hrefs, List.drop_length, List.filter_nil, if_true]
  | false =>
    rw [threadMessages_foldl_sendThrough t r xs s hv hx hth, List.drop_left]
    simp only [Bool.false_eq_true, if_false]
    clear hx
    induction xs with
    | nil => rfl
    | cons x rest ih =>
      rw [List.flatMap_cons, List.filter_append, ih]
      simp [userMessage, aiMessage]

/-- Witness for C1 at the store with two registered users: alice, then bob, then alice again
send on the default thread. -/
theorem thread_lists_append_only_witness :
    RefsValid twoUsers ∧
    (∀ x ∈ [Send.mk "c1" "a" "u1" "t1" "a1" "t2", Send.mk "c2" "b" "u3" "t3" "a3" "t4",
        Send.mk "c1" "c" "u5" "t5" "a5" "t6"], InRoom twoUsers x.socketId "general") ∧
    ((threadMessages ([Send.mk "c1" "a" "u1" "t1" "a1" "t2", Send.mk "c2" "b" "u3" "t3" "a3" "t4",
        Send.mk "c1" "c" "u5" "t5" "a5" "t6"].foldl (sendThrough "default") twoUsers)
        "general" "default").drop (threadMessages twoUsers "general" "default").length).filter
        (fun m => decide (m.type = MsgType.user)) =
      [userMessage "u1" "alice" "a" "t1", userMessage "u3" "bob" "b" "t3",
       userMessage "u5" "alice" "c" "t5"] :=
  ⟨refsValid_run _ _ refsValid_init,
    fun x hx => inRoom_twoUsers x.socketId
      (by simp at hx; rcases hx with h | h | h <;> rw [h] <;> simp),
    ((thread_lists_append_only twoUsers (refsValid_run _ _ refsValid_init)).2 "general" "default"
      [Send.mk "c1" "a" "u1" "t1" "a1" "t2", Send.mk "c2" "b" "u3" "t3" "a3" "t4",
        Send.mk "c1" "c" "u5" "t5" "a5" "t6"]
      (fun x hx => inRoom_twoUsers x.socketId
        (by simp at hx; rcases hx with h | h | h <;> rw [h] <;> simp))).trans
      (by decide)⟩

/-- C2, refuted as stated: two connections send on the same thread and the second handler
runs while the first awaits `saveData`. When the first handler reaches its backend call the
thread holds three new messages, with the other user's message between the first user's
message and its placeholder. -/
theorem send_message_two_new_messages_counterexample :
    threadMessages (run twoUsers
        [Event.sendMessage "c1" "a" none "u1" "t1", Event.sendMessage "c2" "b" none "u2" "t2",
          Event.sendSaved 0 "a1" "t3"]) "general" "default" =
      [userMessage "u1" "alice" "a" "t1", userMessage "u2" "bob" "b" "t2", aiMessage "a1" "t3"] ∧
    threadMessages (run twoUsers
        [Event.sendMessage "c1" "a" none "u1" "t1", Event.sendMessage "c2" "b" none "u2" "t2",
          Event.sendSaved 0 "a1" "t3"]) "general" "default" ≠
      threadMessages twoUsers "general" "default" ++
        [userMessage "u1" "alice" "a" "t1", aiMessage "a1" "t3"] := by
  decide

/-- C2, amended: for a registered connection and a thread id that is a key of the room's
threads or no inherited property name, `send-message` appends the user message (username of
the sender, the text, type user) to the end of the target thread and then waits for
`saveData`; whatever is handled during the wait leaves that list an initial segment of the
thread; on resumption the handler appends the placeholder (username "Llama 3 AI", empty body,
type ai, streaming) to the end of the thread, emits `ai-message-start` carrying it to the room
and to the sender, and only then holds a request in its posting phase, so no chunk has been
processed. With nothing handled during the wait the thread is its previous list followed by
exactly these two messages. For a thread id that is an inherited property name and no key of
the room's threads the push throws: no message object is stored, no thread list and no
pointer changes, nothing is emitted and no task is left to resume. -/
theorem send_message_user_then_placeholder (s : State) (hv : RefsValid s) (c msg : String)
    (τ : Option String) (uuid now : String) (user : User)
    (hu : mapGet s.activeUsers c = some user) (es : List Event)
    (hes : ∀ e ∈ es, ∀ u n, e ≠ Event.sendSaved s.tasks.length u n) (aiUuid aiNow : String) :
    (threadThrows (roomOf s.chatRooms user.roomId).threads (τ.getD "default") = false →
      threadMessages (sendMessage s c msg τ uuid now) user.roomId (τ.getD "default") =
        threadMessages s user.roomId (τ.getD "default") ++
          [{ id := uuid, username := user.username, message := msg, timestamp := now,
             type := MsgType.user, isStreaming := none }] ∧
      threadIds (sendMessage s c msg τ uuid now) user.roomId (τ.getD "default") <+:
        threadIds (run (sendMessage s c msg τ uuid now) es) user.roomId (τ.getD "default") ∧
      threadMessages (sendSaved (run (sendMessage s c msg τ uuid now) es) s.tasks.length
          aiUuid aiNow) user.roomId (τ.getD "default") =
        threadMessages (run (sendMessage s c msg τ uuid now) es) user.roomId
            (τ.getD "default") ++
          [{ id := aiUuid, username := "Llama 3 AI", message := "", timestamp := aiNow,
             type := MsgType.ai, isStreaming := some true }] ∧
      (sendSaved (run (sendMessage s c msg τ uuid now) es) s.tasks.length aiUuid aiNow).emitted =
        (run (sendMessage s c msg τ uuid now) es).emitted ++
          [(Target.toRoom user.roomId c, OutEvent.newMessage
              (heapGet (run (sendMessage s c msg τ uuid now) es).heap s.heap.length)),
           (Target.toSocket c, OutEvent.messageSent
              (heapGet (run (sendMessage s c msg τ uuid now) es).heap s.heap.length)),
           (Target.toRoom user.roomId c, OutEvent.aiMessageStart
              { id := aiUuid, username := "Llama 3 AI", message := "", timestamp := aiNow,
                type := MsgType.ai, isStreaming := some true }),
           (Target.toSocket c, OutEvent.aiMessageStart
              { id := aiUuid, username := "Llama 3 AI", message := "", timestamp := aiNow,
                type := MsgType.ai, isStreaming := some true })] ∧
      (∃ g, (sendSaved (run (sendMessage s c msg τ uuid now) es) s.tasks.length
          aiUuid aiNow).tasks[s.tasks.length]? = some (Task.gen g) ∧
        g.phase = Phase.posting ∧ g.full = "" ∧ g.settled = false ∧ g.aiId = aiUuid) ∧
      (es = [] →
        threadMessages (sendSaved (run (sendMessage s c msg τ uuid now) es) s.tasks.length
          aiUuid aiNow) user.roomId (τ.getD "default") =
        threadMessages s user.roomId (τ.getD "default") ++
          [{ id := uuid, username := user.username, message := msg, timestamp := now,
             type := MsgType.user, isStreaming := none },
           { id := aiUuid, username := "Llama 3 AI", message := "", timestamp := aiNow,
             type := MsgType.ai, isStreaming := some true }])) ∧
    (threadThrows (roomOf s.chatRooms user.roomId).threads (τ.getD "default") = true →
      (sendMessage s c msg τ uuid now).heap = s.heap ∧
      (sendMessage s c msg τ uuid now).tasks = s.tasks ∧
      (sendMessage s c msg τ uuid now).emitted = s.emitted ∧
      (∀ r t, threadMessages (sendMessage s c msg τ uuid now) r t = threadMessages s r t) ∧
      (∀ r, (roomOf (sendMessage s c msg τ uuid now).chatRooms r).activeThreads =
        (roomOf s.chatRooms r).activeThreads)) := by
  constructor
  · intro hok
    have h1 := sendMessage_fields s c msg τ uuid now user hu hok
    have hv1 : RefsValid (sendMessage s c msg τ uuid now) :=
      refsValid_step s (Event.sendMessage c msg τ uuid now) hv
    have hv2 : RefsValid (run (sendMessage s c msg τ uuid now) es) := refsValid_run es _ hv1
    have ht1 : (sendMessage s c msg τ uuid now).tasks[s.tasks.length]? =
        some (Task.sendSaving c user.username user.roomId (τ.getD "default") msg
          s.heap.length) := by
      rw [h1.2.1]; simp
    have ht2 := sendSaving_run es _ _ _ _ _ _ _ _ ht1 hes
    have hkey := hasKey_run es _ _ _ (sendMessage_key s c msg τ uuid now user hu hok)
    have h2 := sendSaved_fields _ s.tasks.length aiUuid aiNow _ _ _ _ _ _ ht2 hkey
    have hm1 := threadMessages_sendMessage s hv c msg τ uuid now user hu hok
    have hm2 := threadMessages_sendSaved _ hv2 s.tasks.length aiUuid aiNow _ _ _ _ _ _ ht2 hkey
    refine ⟨hm1, threadIds_run es _ hv1 _ _, hm2, h2.2.2.1, ?_, ?_⟩
    · have hlt := (List.getElem?_eq_some_iff.mp ht2).1
      exact ⟨_, by rw [h2.2.2.2.2, List.getElem?_set_self hlt], rfl, rfl, rfl, rfl⟩
    · intro hnil
      subst hnil
      rw [hm2]
      simp only [run, List.foldl_nil]
      rw [hm1]
      simp [aiMessage, userMessage]
  · intro hth
    have hst := sendMessage_throws s c msg τ uuid now user hu hth
    have hro : ∀ r, roomOf (sendMessage s c msg τ uuid now).chatRooms r =
        roomOf s.chatRooms r := by
      intro r
      rw [hst]
      exact roomOf_store_missing _ _ _
    refine ⟨by rw [hst], by rw [hst], by rw [hst], fun r t => ?_, fun r => by rw [hro]⟩
    unfold threadMessages
    rw [threadRefs_eq, threadRefs_eq, hro, hst]

/-- Witness for C2 (amended): alice sends while bob's send is handled during her wait. -/
theorem send_message_user_then_placeholder_witness :
    RefsValid twoUsers ∧
    mapGet twoUsers.activeUsers "c1" =
      some { username := "alice", apiKey := "k1", roomId := "general" } ∧
    threadThrows (roomOf twoUsers.chatRooms "general").threads "default" = false ∧
    threadMessages (sendSaved (run (sendMessage twoUsers "c1" "a" none "u1" "t1")
        [Event.sendMessage "c2" "b" none "u2" "t2"]) twoUsers.tasks.length "a1" "t3")
        "general" "default" =
      threadMessages (run (sendMessage twoUsers "c1" "a" none "u1" "t1")
        [Event.sendMessage "c2" "b" none "u2" "t2"]) "general" "default" ++
        [{ id := "a1", username := "Llama 3 AI", message := "", timestamp := "t3",
           type := MsgType.ai, isStreaming := some true }] :=
  ⟨refsValid_run _ _ refsValid_init, by decide, by decide,
    ((send_message_user_then_placeholder twoUsers (refsValid_run _ _ refsValid_init) "c1" "a"
      none "u1" "t1" { username := "alice", apiKey := "k1", roomId := "general" } (by decide)
      [Event.sendMessage "c2" "b" none "u2" "t2"] (by simp) "a1" "t3").1 (by decide)).2.2.1⟩

/-- C3: a generation that completes normally. The request of task `k` is answered, the
stream delivers chunks whose lines carry the response pieces, and exactly the last line has
the `done` flag. Whatever other events are handled in between (first part, for every run of
the event loop whose backend events for the task are these), the body of the AI message is
then the concatenation of the pieces, which is the full text the backend client reports
(`full`), and its streaming flag is false. Handled on their own, these backend events emit
the chunk events of the pieces followed by `ai-message-done` to the room and to the sender
with that body as content. The `end` of the stream leaves body and flag as they are. -/
theorem completed_generation_body (s : State) (hsep : GensSeparate s) (k : Nat) (g : Gen)
    (m : Message) (hk : s.tasks[k]? = some (Task.gen g)) (hp : g.phase = Phase.posting)
    (hs : g.settled = false) (hm : s.heap[g.aiRef]? = some m)
    (cs : List (List (Option StreamLine))) (init : List (Option StreamLine)) (d : StreamLine)
    (hl : cs.flatten = init ++ [some d]) (hnd : NoDone init) (hd : d.done = true) :
    (∀ es : List Event, backendFor k es = BackendEvent.response :: cs.map BackendEvent.data →
      (run s es).heap[g.aiRef]? =
        some { m with message := String.join (responses cs.flatten),
                      isStreaming := some false } ∧
      ∃ g', (run s es).tasks[k]? = some (Task.gen g') ∧
        g'.full = String.join (responses cs.flatten) ∧ g'.settled = true) ∧
    (run s (answered k cs)).emitted =
      s.emitted ++ chunkEvents g (responses cs.flatten) ++
        doneEvents g (String.join (responses cs.flatten)) ∧
    (∀ es : List Event,
      backendFor k es =
        BackendEvent.response :: (cs.map BackendEvent.data ++ [BackendEvent.streamEnd]) →
      (run s es).heap[g.aiRef]? =
        some { m with message := String.join (responses cs.flatten),
                      isStreaming := some false }) := by
  have hcf := dataListener_done_last init d hnd hd s { g with phase := Phase.streaming, full := "" }
  rw [← hl] at hcf
  simp only [String.empty_append] at hcf
  have hfold : (BackendEvent.response :: cs.map BackendEvent.data).foldl listen (s, g) =
      dataListener (s, { g with phase := Phase.streaming, full := "" }) cs.flatten :=
    foldl_listen_stream cs s g hp hs
  refine ⟨?_, ?_, ?_⟩
  · intro es hes
    obtain ⟨hheap, g', hg', hcore⟩ := interleaved_message es s k g hsep hk _ hes
    rw [hfold, hcf] at hheap hcore
    refine ⟨?_, g', hg', ?_, ?_⟩
    · rw [hheap]
      exact finalBody_getElem? _ _ _ m hm
    · rw [core_full hcore]
    · rw [core_settled hcore]
  · rw [run_answered k cs s g hk hp hs, emitted_putGen, hcf]
    rfl
  · intro es hes
    obtain ⟨hheap, -⟩ := interleaved_message es s k g hsep hk _ hes
    rw [hheap, ← List.cons_append, List.foldl_append, hfold, hcf]
    simp only [List.foldl_cons, List.foldl_nil, listen, listener, if_true, Option.getD_some,
      endListener]
    rw [finish_eq]
    simp only [finalBody_finalBody]
    exact finalBody_getElem? _ _ _ m hm

/-- Witness for C3: the reply "Hello" in two chunks, the second ending with the `done` line,
while bob joins in between. -/
theorem completed_generation_body_witness :
    GensSeparate posted ∧
    posted.tasks[0]? = some (Task.gen postedGen) ∧
    posted.heap[postedGen.aiRef]? = some (aiMessage "a1" "t2") ∧
    (run posted [Event.backend 0 BackendEvent.response,
        Event.backend 0 (BackendEvent.data [some ⟨"Hel", false⟩]),
        Event.joinChat "c2" "bob" "k2" none "t3",
        Event.backend 0 (BackendEvent.data [some ⟨"lo", false⟩, some ⟨"", true⟩])]).heap[
        postedGen.aiRef]? =
      some { aiMessage "a1" "t2" with message := "Hello", isStreaming := some false } :=
  ⟨gensSeparate_run _ _ gensSeparate_init, by decide, by decide,
    ((completed_generation_body posted (gensSeparate_run _ _ gensSeparate_init) 0 postedGen
      (aiMessage "a1" "t2") (by decide) rfl rfl (by decide)
      [[some ⟨"Hel", false⟩], [some ⟨"lo", false⟩, some ⟨"", true⟩]]
      [some ⟨"Hel", false⟩, some ⟨"lo", false⟩] ⟨"", true⟩ rfl
      (by intro d hd; simp at hd; rcases hd with h | h <;> rw [h]) rfl).1 _ (by decide)).1⟩

/-- C4, the failing run: the stream delivers "Hi", then the line with the `done` flag, then
ends. The `done` callback runs for the line and again for `end`, so `ai-message-done` for the
message goes out twice to the sender and twice to the room. -/
theorem done_line_then_end_emits_done_twice :
    doneCount (run posted (answered 0 [[some ⟨"Hi", false⟩, some ⟨"", true⟩]] ++
        [Event.backend 0 BackendEvent.streamEnd])) (Target.toSocket "c1") "a1" = 2 ∧
    doneCount (run posted (answered 0 [[some ⟨"Hi", false⟩, some ⟨"", true⟩]] ++
        [Event.backend 0 BackendEvent.streamEnd])) (Target.toRoom "general" "c1") "a1" = 2 := by
  decide

/-- C5, a defect of the code: a stopped generation does not get the cancellation marker. The
`catch` blocks test `error.name === 'AbortError'`, but the error an aborted request raises is
named `CanceledError`. So when the request of task `k` is aborted, be it before an answer or
after the chunk callbacks with contents `c1..ck` have run, then, whatever other events (the
`stop-generation` that caused the abort among them) are handled in between, the handler takes
the branch for failures: the body of the AI message becomes "Error: " followed by the message
of the error, the text streamed so far is replaced, and no marker is written; only the
streaming flag is false as claimed. The marker is written for an error named `AbortError`,
which the backend client raises for no request. -/
theorem stopped_generation_body (s : State) (hsep : GensSeparate s) (k : Nat) (g : Gen)
    (m : Message) (hk : s.tasks[k]? = some (Task.gen g)) (hp : g.phase = Phase.posting)
    (hs : g.settled = false) (hm : s.heap[g.aiRef]? = some m) :
    (∀ es : List Event, backendFor k es = [BackendEvent.requestFailed canceledError] →
      (run s es).heap[g.aiRef]? =
        some { m with message := "Error: Ollama API error: canceled",
                      isStreaming := some false }) ∧
    (∀ (cs : List (List (Option StreamLine))) (es : List Event), NoDone cs.flatten →
      backendFor k es =
        BackendEvent.response ::
          (cs.map BackendEvent.data ++ [BackendEvent.streamError canceledError]) →
      (run s es).heap[g.aiRef]? =
        some { m with message := "Error: canceled", isStreaming := some false }) ∧
    (∀ (e : JsError) (cs : List (List (Option StreamLine))) (es : List Event),
      e.name = "AbortError" → m.message = "" → NoDone cs.flatten →
      backendFor k es =
        BackendEvent.response :: (cs.map BackendEvent.data ++ [BackendEvent.streamError e]) →
      (run s es).heap[g.aiRef]? =
        some { m with
          message := String.join (responses cs.flatten) ++ "\n\n*Generation stopped by user*",
          isStreaming := some false }) := by
  have hne : ¬ ("Error" = "AbortError") := by decide
  have hce : ¬ (canceledError.name = "AbortError") := by decide
  refine ⟨?_, ?_, ?_⟩
  · intro es hes
    obtain ⟨hheap, -⟩ := interleaved_message es s k g hsep hk _ hes
    rw [hheap]
    simp only [List.foldl_cons, List.foldl_nil]
    rw [listen_requestFailed s g canceledError hp hs, handlerCatch_eq s g _ m hm]
    simp only [rethrown, hce, if_false, hne]
    exact finalBody_getElem? _ _ _ m hm
  · intro cs es hnd hes
    have hm' : (appendBody s.heap g.aiRef (String.join (responses cs.flatten)))[g.aiRef]? =
        some { m with message := m.message ++ String.join (responses cs.flatten) } :=
      appendBody_getElem? _ _ _ m hm
    obtain ⟨hheap, -⟩ := interleaved_message es s k g hsep hk _ hes
    rw [hheap, ← List.cons_append, List.foldl_append, foldl_listen_stream cs s g hp hs,
      dataListener_noDone _ hnd]
    simp only [List.foldl_cons, List.foldl_nil, listen, listener, reject, hs, if_true,
      Option.getD_some, Bool.false_eq_true, if_false]
    rw [handlerCatch_eq _ _ canceledError _ hm']
    simp only [hce, if_false]
    rw [finalBody_appendBody]
    exact finalBody_getElem? _ _ _ m hm
  · intro e cs es he hb hnd hes
    obtain ⟨hheap, -⟩ := interleaved_message es s k g hsep hk _ hes
    rw [hheap, ← List.cons_append, List.foldl_append, foldl_listen_stream cs s g hp hs,
      dataListener_noDone _ hnd]
    simp only [List.foldl_cons, List.foldl_nil, listen, listener, reject, hs, if_true,
      Option.getD_some, Bool.false_eq_true, if_false]
    have hm' : (appendBody s.heap g.aiRef (String.join (responses cs.flatten)))[g.aiRef]? =
        some { m with message := m.message ++ String.join (responses cs.flatten) } :=
      appendBody_getElem? _ _ _ m hm
    rw [handlerCatch_eq _ _ e _ hm']
    simp only [he, if_true]
    rw [finalBody_appendBody, finalBody_getElem? _ _ _ m hm, hb]
    simp [stoppedMarker]

/-- The failing run of C5: "Hel" was delivered, alice stopped the generation, and the aborted
stream raised its error. The message ends as "Error: canceled": the streamed text is gone and
the marker is missing. -/
theorem stopped_generation_body_witness :
    GensSeparate posted ∧
    posted.tasks[0]? = some (Task.gen postedGen) ∧
    posted.heap[postedGen.aiRef]? = some (aiMessage "a1" "t2") ∧
    (run posted [Event.backend 0 BackendEvent.response,
        Event.backend 0 (BackendEvent.data [some ⟨"Hel", false⟩]),
        Event.stopGeneration "c1" "a1",
        Event.backend 0 (BackendEvent.streamError canceledError)]).heap[postedGen.aiRef]? =
      some { aiMessage "a1" "t2" with message := "Error: canceled", isStreaming := some false } ∧
    "Error: canceled" ≠ "Hel" ++ "\n\n*Generation stopped by user*" :=
  ⟨gensSeparate_run _ _ gensSeparate_init, by decide, by decide,
    (stopped_generation_body posted (gensSeparate_run _ _ gensSeparate_init) 0 postedGen
      (aiMessage "a1" "t2") (by decide) rfl rfl (by decide)).2.1 [[some ⟨"Hel", false⟩]] _
      (by intro d hd; simp at hd; rw [hd]) (by decide),
    by decide⟩

/-- C6: `stop-generation {messageId: m}` from connection `c` acts exactly when a task is
registered under the key of `(c, m)`. When one is, the handler signals that task's abort
handle, leaves every other task as it is, removes that key and no other from
`activeStreams`, emits exactly one `generation-stopped {messageId: m}` to `c`, leaves
sessions, rooms, thread catalogs and messages alone, and a second `stop-generation` for `m`
changes nothing. When none is, the state is unchanged: nothing is emitted, no error is
raised. -/
theorem stop_generation_acts_iff_registered (s : State) (c m : String) :
    (∀ ctrl, mapGet s.activeStreams (streamKey c m) = some ctrl →
      (∀ g, s.tasks[ctrl]? = some (Task.gen g) →
        (stopGeneration s c m).tasks[ctrl]? = some (Task.gen { g with aborted := true })) ∧
      (∀ j, j ≠ ctrl → (stopGeneration s c m).tasks[j]? = s.tasks[j]?) ∧
      (∀ key, mapGet (stopGeneration s c m).activeStreams key =
        if streamKey c m = key then none else mapGet s.activeStreams key) ∧
      (stopGeneration s c m).emitted =
        s.emitted ++ [(Target.toSocket c, OutEvent.generationStopped m)] ∧
      (stopGeneration s c m).activeUsers = s.activeUsers ∧
      (stopGeneration s c m).userSessions = s.userSessions ∧
      (stopGeneration s c m).chatRooms = s.chatRooms ∧
      (stopGeneration s c m).userThreads = s.userThreads ∧
      (stopGeneration s c m).heap = s.heap ∧
      stopGeneration (stopGeneration s c m) c m = stopGeneration s c m) ∧
    (mapGet s.activeStreams (streamKey c m) = none → stopGeneration s c m = s) := by
  constructor
  · intro ctrl hctrl
    have hkey : ∀ key, mapGet (stopGeneration s c m).activeStreams key =
        if streamKey c m = key then none else mapGet s.activeStreams key := by
      intro key
      simp only [stopGeneration, hctrl, mapGet_mapDelete]
    have hnone : mapGet (stopGeneration s c m).activeStreams (streamKey c m) = none := by
      rw [hkey]; simp
    refine ⟨?_, ?_, hkey, ?_, ?_, ?_, ?_, ?_, ?_, ?_⟩
    · intro g hg
      simp only [stopGeneration, hctrl, hg]
      rw [List.getElem?_set_self (List.getElem?_eq_some_iff.mp hg).1]
    · intro j hj
      simp only [stopGeneration, hctrl]
      split
      · rw [List.getElem?_set_ne (fun h => hj h.symm)]
      · rfl
    · simp only [stopGeneration, hctrl]
    · simp only [stopGeneration, hctrl]
    · simp only [stopGeneration, hctrl]
    · simp only [stopGeneration, hctrl]
    · simp only [stopGeneration, hctrl]
    · simp only [stopGeneration, hctrl]
    · generalize stopGeneration s c m = s' at hnone
      simp only [stopGeneration, hnone]
  · intro hnone
    simp only [stopGeneration, hnone]

/-- Witness for C6: alice stops the generation posted for her message. -/
theorem stop_generation_acts_iff_registered_witness :
    mapGet posted.activeStreams (streamKey "c1" "a1") = some 0 ∧
    (stopGeneration posted "c1" "a1").emitted =
      posted.emitted ++ [(Target.toSocket "c1", OutEvent.generationStopped "a1")] ∧
    stopGeneration (stopGeneration posted "c1" "a1") "c1" "a1" =
      stopGeneration posted "c1" "a1" :=
  ⟨by decide,
    ((stop_generation_acts_iff_registered posted "c1" "a1").1 0 (by decide)).2.2.2.1,
    ((stop_generation_acts_iff_registered posted "c1" "a1").1 0
      (by decide)).2.2.2.2.2.2.2.2.2⟩

/-- C7, refuted as stated: alice stops the generation of message `a1`; `generation-stopped`
has been emitted, the abort handle is signalled and the task is gone from `activeStreams`.
A `data` event of the stream processed afterwards still emits `ai-message-chunk` for `a1` to
the room and to alice. -/
theorem chunk_after_generation_stopped_counterexample :
    (Target.toSocket "c1", OutEvent.generationStopped "a1") ∈ stopped.emitted ∧
    stopped.activeStreams = [] ∧
    newEvents stopped (Event.backend 0 (BackendEvent.data [some ⟨"late", false⟩])) =
      [(Target.toRoom "general" "c1", OutEvent.aiMessageChunk "a1" "late"),
       (Target.toSocket "c1", OutEvent.aiMessageChunk "a1" "late")] := by
  decide

/-- C7, amended: an `ai-message-chunk` for a message id is emitted only in a turn that
processes a `data` event of a response stream whose message has that id, and its content is
a non-empty response of a line of that event; `stop-generation` itself emits none. The `data`
listener reads neither the abort handle nor `activeStreams`: on a stream that is being
listened to, a line with a non-empty response emits its chunk to the room and to the sender
whether or not the generation was stopped. -/
theorem chunk_only_from_data_event (s : State) :
    (∀ (e : Event) (t : Target) (m p : String),
      (t, OutEvent.aiMessageChunk m p) ∈ newEvents s e →
      ∃ k lines g, e = Event.backend k (BackendEvent.data lines) ∧
        s.tasks[k]? = some (Task.gen g) ∧ g.phase = Phase.streaming ∧ g.aiId = m ∧
        p ∈ responses lines) ∧
    (∀ (k : Nat) (g : Gen) (p : String), s.tasks[k]? = some (Task.gen g) →
      g.phase = Phase.streaming → p ≠ "" →
      newEvents s (Event.backend k (BackendEvent.data [some ⟨p, false⟩])) =
        [(Target.toRoom g.roomId g.socketId, OutEvent.aiMessageChunk g.aiId p),
         (Target.toSocket g.socketId, OutEvent.aiMessageChunk g.aiId p)]) := by
  constructor
  · intro e t m p hmem
    by_cases he : ∃ k lines, e = Event.backend k (BackendEvent.data lines)
    · obtain ⟨k, lines, rfl⟩ := he
      cases hk : s.tasks[k]? with
      | none => simp [newEvents, step, backend, hk] at hmem
      | some task =>
        cases task with
        | gen g =>
          by_cases hp : g.phase = Phase.streaming
          · have hem : EmitsOnly (ChunkOf g.aiId (responses lines)) s.emitted
                (step s (Event.backend k (BackendEvent.data lines))).emitted := by
              rw [step_backend_eq s k g _ hk, emitted_putGen]
              simp only [listen, listener, hp, if_true, Option.getD_some]
              exact emits_dataListener lines (s, g)
            have := newEvents_of_emitsOnly _ s _ hem _ hmem m p rfl
            exact ⟨k, lines, g, rfl, hk, hp, this.1.symm, this.2⟩
          · simp [newEvents, step, backend, hk, listener, hp] at hmem
        | sendSaving c u ρ τ msg uref => simp [newEvents, step, backend, hk] at hmem
        | createSaving c u => simp [newEvents, step, backend, hk] at hmem
        | completed => simp [newEvents, step, backend, hk] at hmem
    · have hem := emits_step_noData s e (fun k lines h => he ⟨k, lines, h⟩)
      have := newEvents_of_emitsOnly _ s _ hem _ hmem m p rfl
      exact absurd this.2 (List.not_mem_nil _)
  · intro k g p hk hp hne
    unfold newEvents
    rw [step_backend_eq s k g _ hk, emitted_putGen]
    simp only [listen, listener, hp, if_true, Option.getD_some]
    have hnd : NoDone [some (⟨p, false⟩ : StreamLine)] := by
      intro d hd
      simp only [List.mem_singleton, Option.some.injEq] at hd
      rw [hd]
    rw [dataListener_noDone _ hnd]
    simp [responses, hne, chunkEvents]

/-- Witness for C7 (amended): the late chunk of the stopped generation comes from a `data`
event of its own stream. -/
theorem chunk_only_from_data_event_witness :
    (Target.toSocket "c1", OutEvent.aiMessageChunk "a1" "late") ∈
      newEvents stopped (Event.backend 0 (BackendEvent.data [some ⟨"late", false⟩])) ∧
    ∃ k lines g, Event.backend 0 (BackendEvent.data [some ⟨"late", false⟩]) =
        Event.backend k (BackendEvent.data lines) ∧
      stopped.tasks[k]? = some (Task.gen g) ∧ g.phase = Phase.streaming ∧ g.aiId = "a1" ∧
      "late" ∈ responses lines :=
  ⟨by decide,
    (chunk_only_from_data_event stopped).1 _ (Target.toSocket "c1") "a1" "late" (by decide)⟩

/-- C8: a generation whose backend call fails with an error that is not an abort. When
`axios.post` is refused with reason `e`, the client throws "Ollama API error: " followed by
the reason; when the response stream raises `e` after some chunks, the error reaches the
handler as it is. In both cases, whatever other events are handled in between, the body of
the AI message becomes "Error: " followed by the message of the error thrown, replacing the
text accumulated so far, and the streaming flag becomes false. Handled on their own, the
backend events emit the chunk events and then `ai-message-done` with that body to the room
and to the sender, and no `error` event. -/
theorem failed_generation_notice (s : State) (hsep : GensSeparate s) (k : Nat) (g : Gen)
    (m : Message) (hk : s.tasks[k]? = some (Task.gen g)) (hp : g.phase = Phase.posting)
    (hs : g.settled = false) (hm : s.heap[g.aiRef]? = some m)
    (e : JsError) (he : e.name ≠ "AbortError") :
    ((∀ es : List Event, backendFor k es = [BackendEvent.requestFailed e] →
        (run s es).heap[g.aiRef]? =
          some { m with message := "Error: " ++ ("Ollama API error: " ++ e.message),
                        isStreaming := some false }) ∧
      (step s (Event.backend k (BackendEvent.requestFailed e))).emitted =
        s.emitted ++
          [(Target.toRoom g.roomId g.socketId,
              OutEvent.aiMessageDone g.aiId ("Error: " ++ ("Ollama API error: " ++ e.message))),
           (Target.toSocket g.socketId,
              OutEvent.aiMessageDone g.aiId
                ("Error: " ++ ("Ollama API error: " ++ e.message)))]) ∧
    ∀ cs : List (List (Option StreamLine)), NoDone cs.flatten →
      (∀ es : List Event,
        backendFor k es =
          BackendEvent.response :: (cs.map BackendEvent.data ++ [BackendEvent.streamError e]) →
        (run s es).heap[g.aiRef]? =
          some { m with message := "Error: " ++ e.message, isStreaming := some false }) ∧
      (run s (answered k cs ++ [Event.backend k (BackendEvent.streamError e)])).emitted =
        s.emitted ++ chunkEvents g (responses cs.flatten) ++
          [(Target.toRoom g.roomId g.socketId,
              OutEvent.aiMessageDone g.aiId ("Error: " ++ e.message)),
           (Target.toSocket g.socketId,
              OutEvent.aiMessageDone g.aiId ("Error: " ++ e.message))] := by
  have hne : ¬ ("Error" = "AbortError") := by decide
  refine ⟨⟨?_, ?_⟩, ?_⟩
  · intro es hes
    obtain ⟨hheap, -⟩ := interleaved_message es s k g hsep hk _ hes
    rw [hheap]
    simp only [List.foldl_cons, List.foldl_nil]
    rw [listen_requestFailed s g e hp hs, handlerCatch_eq s g _ m hm]
    simp only [rethrown, he, if_false, hne]
    exact finalBody_getElem? _ _ _ m hm
  · rw [step_backend_eq s k g _ hk, emitted_putGen, listen_requestFailed s g e hp hs,
      handlerCatch_eq s g _ m hm]
    simp only [rethrown, he, if_false, hne]
    rfl
  · intro cs hnd
    have hm' : (appendBody s.heap g.aiRef (String.join (responses cs.flatten)))[g.aiRef]? =
        some { m with message := m.message ++ String.join (responses cs.flatten) } :=
      appendBody_getElem? _ _ _ m hm
    constructor
    · intro es hes
      obtain ⟨hheap, -⟩ := interleaved_message es s k g hsep hk _ hes
      rw [hheap, ← List.cons_append, List.foldl_append, foldl_listen_stream cs s g hp hs,
        dataListener_noDone _ hnd]
      simp only [List.foldl_cons, List.foldl_nil, listen, listener, reject, hs, if_true,
        Option.getD_some, Bool.false_eq_true, if_false]
      rw [handlerCatch_eq _ _ e _ hm']
      simp only [he, if_false]
      rw [finalBody_appendBody]
      exact finalBody_getElem? _ _ _ m hm
    · rw [run_answered_then k cs s g hk hp hs, emitted_putGen, dataListener_noDone _ hnd]
      simp only [listen, listener, reject, hs, if_true, Option.getD_some, Bool.false_eq_true,
        if_false]
      rw [handlerCatch_eq _ _ e _ hm']
      simp only [he, if_false]
      rfl

/-- Witness for C8: the backend refuses the connection. -/
theorem failed_generation_notice_witness :
    GensSeparate posted ∧
    posted.tasks[0]? = some (Task.gen postedGen) ∧
    (step posted (Event.backend 0 (BackendEvent.requestFailed
        ⟨"Error", "connect ECONNREFUSED"⟩))).emitted =
      posted.emitted ++
        [(Target.toRoom "general" "c1",
            OutEvent.aiMessageDone "a1" "Error: Ollama API error: connect ECONNREFUSED"),
         (Target.toSocket "c1",
            OutEvent.aiMessageDone "a1" "Error: Ollama API error: connect ECONNREFUSED")] :=
  ⟨gensSeparate_run _ _ gensSeparate_init, by decide,
    (failed_generation_notice posted (gensSeparate_run _ _ gensSeparate_init) 0 postedGen
      (aiMessage "a1" "t2") (by decide) rfl rfl (by decide) ⟨"Error", "connect ECONNREFUSED"⟩
      (by decide)).1.2⟩

/-- C9: a key is in `activeStreams` only while its generation is in flight. In every
reachable state each entry belongs to a generation whose promise has not settled and is
filed under that generation's key; so when no generation is in flight the registry is empty.
The key is added when `send-message` resumes and posts its request; it is absent after the
turn in which the generation ends (by completion or by an error, whatever the backend event)
and after `stop-generation` for it. -/
theorem active_streams_only_in_flight (s : State) (h : Reachable s) :
    (∀ key k, mapGet s.activeStreams key = some k →
      ∃ g, s.tasks[k]? = some (Task.gen g) ∧ g.settled = false ∧
        key = streamKey g.socketId g.aiId) ∧
    ((∀ (k : Nat) (g : Gen), s.tasks[k]? = some (Task.gen g) → g.settled = true) →
      s.activeStreams = []) ∧
    (∀ (k : Nat) (uuid now c u ρ τ msg : String) (uref : Nat),
      s.tasks[k]? = some (Task.sendSaving c u ρ τ msg uref) →
      mapGet (sendSaved s k uuid now).activeStreams (streamKey c uuid) = some k ∧
      ∃ g, (sendSaved s k uuid now).tasks[k]? = some (Task.gen g) ∧ g.settled = false ∧
        g.socketId = c ∧ g.aiId = uuid) ∧
    (∀ (k : Nat) (g : Gen) (b : BackendEvent) (g' : Gen),
      s.tasks[k]? = some (Task.gen g) → g.settled = false →
      (step s (Event.backend k b)).tasks[k]? = some (Task.gen g') → g'.settled = true →
      mapGet (step s (Event.backend k b)).activeStreams (streamKey g.socketId g.aiId) = none) ∧
    (∀ c m : String, mapGet (stopGeneration s c m).activeStreams (streamKey c m) = none) := by
  have hlive := streamsLive_of_reachable s h
  refine ⟨hlive, ?_, ?_, ?_, ?_⟩
  · intro hall
    apply eq_nil_of_mapGet_none
    intro key
    cases hk : mapGet s.activeStreams key with
    | none => rfl
    | some k =>
      obtain ⟨g, hg, hs, _⟩ := hlive key k hk
      have := hall k g hg
      rw [hs] at this
      cases this
  · intro k uuid now c u ρ τ msg uref hk
    have hf := sendSaved_fields s k uuid now c u ρ τ msg uref hk
      (savingFiled_of_reachable s h k c u ρ τ msg uref hk)
    have hlt := (List.getElem?_eq_some_iff.mp hk).1
    exact ⟨by rw [hf.2.2.2.1, mapGet_mapSet]; simp, _,
      by rw [hf.2.2.2.2, List.getElem?_set_self hlt], rfl, rfl, rfl⟩
  · intro k g b g' hk hs hk' hs'
    have hlt := (List.getElem?_eq_some_iff.mp hk).1
    rw [step_backend_eq s k g b hk] at hk' ⊢
    rw [tasks_putGen k _ (by rw [tasks_listen]; exact hlt)] at hk'
    have hg' : (listen (s, g) b).2 = g' := by
      simpa using hk'
    rw [activeStreams_putGen]
    rcases settling_listen (s, g) b with ⟨_, hset⟩ | ⟨_, hr⟩
    · rw [hg'] at hset
      simp only at hset
      rw [hs, hs'] at hset
      cases hset
    · rw [hr, mapGet_mapDelete]
      simp
  · intro c m
    simp only [stopGeneration]
    split
    · assumption
    · simp only [mapGet_mapDelete, if_true]

/-- Witness for C9: the state in which alice's request is posted is reachable. -/
theorem active_streams_only_in_flight_witness :
    Reachable posted ∧
    ∀ key k, mapGet posted.activeStreams key = some k →
      ∃ g, posted.tasks[k]? = some (Task.gen g) ∧ g.settled = false ∧
        key = streamKey g.socketId g.aiId :=
  ⟨reachable_run _ _ Reachable.init,
    (active_streams_only_in_flight posted (reachable_run _ _ Reachable.init)).1⟩

/-- C10: chunk callbacks are relayed one to one and in order. For chunk callbacks with
contents `p1..pn` on one AI message whose body is still empty, the events emitted are, for
each piece in turn, `ai-message-chunk {messageId, content}` to the room and to the
originating connection: each of the two receives exactly the contents `p1..pn` in that order,
`2 * n` events in all; after the `i`-th callback the body is `p1 ++ ... ++ pi`. The `data`
listener makes exactly these callbacks: one per line with a non-empty response, in stream
order. -/
theorem chunk_events_in_order (s : State) (g : Gen) (m : Message) (ps : List String)
    (hm : s.heap[g.aiRef]? = some m) (hb : m.message = "") :
    (chunkCallbacks s g ps).emitted = s.emitted ++ chunkEvents g ps ∧
    chunksTo (Target.toSocket g.socketId) g.aiId (chunkEvents g ps) = ps ∧
    chunksTo (Target.toRoom g.roomId g.socketId) g.aiId (chunkEvents g ps) = ps ∧
    (chunkEvents g ps).length = 2 * ps.length ∧
    (∀ i, (chunkCallbacks s g (ps.take i)).heap[g.aiRef]? =
      some { m with message := String.join (ps.take i) }) ∧
    (∀ (k : Nat) (cs : List (List (Option StreamLine))),
      s.tasks[k]? = some (Task.gen g) → g.phase = Phase.streaming → NoDone cs.flatten →
      run s (cs.map (fun c => Event.backend k (BackendEvent.data c))) =
        putGen k (chunkCallbacks s g (responses cs.flatten),
          { g with full := g.full ++ String.join (responses cs.flatten) })) := by
  refine ⟨?_, chunksTo_socket g ps, chunksTo_room g ps, ?_, ?_, ?_⟩
  · rw [chunkCallbacks_eq]
  · simp only [chunkEvents, List.length_flatMap]
    induction ps with
    | nil => rfl
    | cons p rest ih => simp at ih ⊢; omega
  · intro i
    rw [chunkCallbacks_eq]
    simp only
    rw [appendBody_getElem? _ _ _ m hm, hb, String.empty_append]
  · intro k cs hk hp hnd
    rw [run_data k cs s g hk hp, dataListener_noDone _ hnd, chunkCallbacks_eq]

/-- Witness for C10: two pieces on the placeholder of `posted`. -/
theorem chunk_events_in_order_witness :
    posted.heap[postedGen.aiRef]? = some (aiMessage "a1" "t2") ∧
    (chunkCallbacks posted postedGen ["Hel", "lo"]).emitted =
      posted.emitted ++
        [(Target.toRoom "general" "c1", OutEvent.aiMessageChunk "a1" "Hel"),
         (Target.toSocket "c1", OutEvent.aiMessageChunk "a1" "Hel"),
         (Target.toRoom "general" "c1", OutEvent.aiMessageChunk "a1" "lo"),
         (Target.toSocket "c1", OutEvent.aiMessageChunk "a1" "lo")] :=
  ⟨by decide,
    (chunk_events_in_order posted postedGen (aiMessage "a1" "t2") ["Hel", "lo"] (by decide)
      rfl).1⟩

/-- C11, a defect of the code: the existence check of the thread is a truthiness test on a
plain object. For a `send-message` with text `m` from a registered connection on a thread id
that is a key of the room's threads or no inherited property name, whatever is handled while
the handler waits for `saveData`, the prompt handed to the backend client is built from the
last ten messages the target thread holds when the handler resumes (all of them when there
are fewer), oldest first: one line `username: message` per message, the lines joined by
newlines, then a blank line, then `m`. For such thread ids `getThreadContext` returns the last
`min 10 n` of the `n` messages of the thread, in thread order, and the empty list when the
room or the thread does not exist. For a thread id that is an inherited property name and no
key of the room's threads the claim fails: `getThreadContext` throws instead of returning the
empty list, and `send-message` throws at its push, leaves no task behind and hands no prompt
to the backend client. -/
theorem prompt_from_last_ten (s : State) (c msg : String)
    (τ : Option String) (uuid now : String) (user : User)
    (hu : mapGet s.activeUsers c = some user) (es : List Event)
    (hes : ∀ e ∈ es, ∀ u n, e ≠ Event.sendSaved s.tasks.length u n) (aiUuid aiNow : String) :
    (threadThrows (roomOf s.chatRooms user.roomId).threads (τ.getD "default") = false →
      ∃ g, (sendSaved (run (sendMessage s c msg τ uuid now) es) s.tasks.length
          aiUuid aiNow).tasks[s.tasks.length]? = some (Task.gen g) ∧
        g.prompt =
          "\n".intercalate
            (((threadMessages (run (sendMessage s c msg τ uuid now) es) user.roomId
                (τ.getD "default")).drop
              ((threadMessages (run (sendMessage s c msg τ uuid now) es) user.roomId
                (τ.getD "default")).length - 10)).map
              (fun x => x.username ++ ": " ++ x.message)) ++ "\n\n" ++ msg) ∧
    (threadThrows (roomOf s.chatRooms user.roomId).threads (τ.getD "default") = true →
      (sendMessage s c msg τ uuid now).tasks = s.tasks ∧
      (sendMessage s c msg τ uuid now).heap = s.heap ∧
      sendSaved (sendMessage s c msg τ uuid now) s.tasks.length aiUuid aiNow =
        sendMessage s c msg τ uuid now) ∧
    (∀ (s' : State) (t r : String),
      (mapHas (roomOf s'.chatRooms r).threads t = true ∨ inheritedNames.contains t = false →
        getThreadContext s' t r =
          some ((threadMessages s' r t).drop ((threadMessages s' r t).length - 10)) ∧
        ((threadMessages s' r t).drop ((threadMessages s' r t).length - 10)).length =
          min 10 (threadMessages s' r t).length) ∧
      (mapGet s'.chatRooms r = none → getThreadContext s' t r = some []) ∧
      (∀ room, mapGet s'.chatRooms r = some room → mapGet room.threads t = none →
        getThreadContext s' t r = if inheritedNames.contains t then none else some [])) := by
  refine ⟨fun hok => ?_, fun hth => ?_, fun s' t r => ⟨fun h => ?_, fun hnone => ?_,
    fun room hroom hno => ?_⟩⟩
  · have h1 := sendMessage_fields s c msg τ uuid now user hu hok
    have ht1 : (sendMessage s c msg τ uuid now).tasks[s.tasks.length]? =
        some (Task.sendSaving c user.username user.roomId (τ.getD "default") msg
          s.heap.length) := by
      rw [h1.2.1]; simp
    have ht2 := sendSaving_run es _ _ _ _ _ _ _ _ ht1 hes
    have hkey := hasKey_run es _ _ _ (sendMessage_key s c msg τ uuid now user hu hok)
    have h2 := sendSaved_fields _ s.tasks.length aiUuid aiNow _ _ _ _ _ _ ht2 hkey
    have hlt := (List.getElem?_eq_some_iff.mp ht2).1
    refine ⟨_, by rw [h2.2.2.2.2, List.getElem?_set_self hlt], ?_⟩
    simp only
    have hmem : s.heap.length ∈
        threadRefs (run (sendMessage s c msg τ uuid now) es) user.roomId (τ.getD "default") := by
      apply (threadRefs_run es _ _ _).subset
      rw [threadRefs_sendMessage s c msg τ uuid now user hu hok]
      simp
    have hlen : s.heap.length < (run (sendMessage s c msg τ uuid now) es).heap.length := by
      have := heap_length_run es (sendMessage s c msg τ uuid now)
      rw [h1.1] at this
      simp only [List.length_append, List.length_singleton] at this
      omega
    rw [getThreadContext_eq _ _ _ (Or.inl hkey), Option.getD_some]
    have hne : (threadMessages (run (sendMessage s c msg τ uuid now) es) user.roomId
          (τ.getD "default")).drop
        ((threadMessages (run (sendMessage s c msg τ uuid now) es) user.roomId
          (τ.getD "default")).length - 10) ≠ [] := by
      have hd := deref_ne_nil _ _ _ hmem hlen
      intro hnil
      have hl := congrArg List.length hnil
      simp only [List.length_drop, List.length_nil] at hl
      have hpos : 0 < (threadMessages (run (sendMessage s c msg τ uuid now) es) user.roomId
          (τ.getD "default")).length := List.length_pos.mpr hd
      omega
    rw [buildPrompt_of_ne_nil _ _ hne]
  · have hst := sendMessage_throws s c msg τ uuid now user hu hth
    refine ⟨by rw [hst], by rw [hst], ?_⟩
    have hnone : (sendMessage s c msg τ uuid now).tasks[s.tasks.length]? = none := by
      rw [hst]; simp
    simp only [sendSaved, hnone]
  · refine ⟨getThreadContext_eq s' t r h, ?_⟩
    rw [List.length_drop]
    omega
  · simp [getThreadContext, hnone]
  · simp [getThreadContext, hroom, hno]

/-- Witness for C11: alice sends "hi" in an empty thread and the prompt is her line, a blank
line and her text; sent on the thread id `__proto__` the same message leaves the store as it
was, and `getThreadContext` throws for the thread id `constructor`. -/
theorem prompt_from_last_ten_witness :
    mapGet twoUsers.activeUsers "c1" =
      some { username := "alice", apiKey := "k1", roomId := "general" } ∧
    (∃ g, (sendSaved (run (sendMessage twoUsers "c1" "hi" none "u1" "t1") [])
        twoUsers.tasks.length "a1" "t2").tasks[twoUsers.tasks.length]? = some (Task.gen g) ∧
      g.prompt = "alice: hi\n\nhi") ∧
    (sendMessage twoUsers "c1" "hi" (some "__proto__") "u1" "t1").tasks = twoUsers.tasks ∧
    getThreadContext twoUsers "constructor" "general" = none := by
  refine ⟨by decide, ?_, ?_, by decide⟩
  · obtain ⟨g, hg, hp⟩ := (prompt_from_last_ten twoUsers "c1"
      "hi" none "u1" "t1" { username := "alice", apiKey := "k1", roomId := "general" }
      (by decide) [] (by simp) "a1" "t2").1 (by decide)
    refine ⟨g, hg, ?_⟩
    rw [hp]
    decide
  · exact ((prompt_from_last_ten twoUsers "c1" "hi" (some "__proto__") "u1" "t1"
      { username := "alice", apiKey := "k1", roomId := "general" } (by decide) [] (by simp)
      "a1" "t2").2.1 (by decide)).1

/-- C12: events from a connection without a session. When `switch-thread`, `create-thread`
or `send-message` arrives on a connection that has no entry in `activeUsers`, the handler
emits exactly one `error` event with message "User not authenticated" to that connection,
and the state is otherwise what it was: rooms, thread lists, thread catalogs, sessions,
active streams, messages and suspended handlers are unchanged. -/
theorem unauthenticated_events_rejected (s : State) (c : String)
    (h : mapGet s.activeUsers c = none) :
    (∀ t : String, step s (Event.switchThread c t) =
      { s with emitted := s.emitted ++
          [(Target.toSocket c, OutEvent.error "User not authenticated")] }) ∧
    (∀ n uuid now : String, step s (Event.createThread c n uuid now) =
      { s with emitted := s.emitted ++
          [(Target.toSocket c, OutEvent.error "User not authenticated")] }) ∧
    (∀ (m : String) (τ : Option String) (uuid now : String),
      step s (Event.sendMessage c m τ uuid now) =
        { s with emitted := s.emitted ++
            [(Target.toSocket c, OutEvent.error "User not authenticated")] }) := by
  refine ⟨fun t => ?_, fun n uuid now => ?_, fun m τ uuid now => ?_⟩
  · simp [step, switchThread, h, emit]
  · simp [step, createThread, h, emit]
  · simp [step, sendMessage, h, emit]

/-- Witness for C12: a connection that never joined sends a message. -/
theorem unauthenticated_events_rejected_witness :
    mapGet twoUsers.activeUsers "c9" = none ∧
    step twoUsers (Event.sendMessage "c9" "hi" none "u1" "t1") =
      { twoUsers with emitted := twoUsers.emitted ++
          [(Target.toSocket "c9", OutEvent.error "User not authenticated")] } :=
  ⟨by decide, (unauthenticated_events_rejected twoUsers "c9" (by decide)).2.2 "hi" none "u1" "t1"⟩

/-- C13, refuted as stated: a connection that never joined sends `stop-generation`. Nothing
is emitted, so no `error` event reaches it; the state is what it was. -/
theorem stop_generation_unauthenticated_counterexample :
    mapGet twoUsers.activeUsers "c9" = none ∧
    newEvents twoUsers (Event.stopGeneration "c9" "a1") = [] ∧
    step twoUsers (Event.stopGeneration "c9" "a1") = twoUsers := by
  decide

/-- C13, amended: `stop-generation` is handled without consulting the session registry.
Whether or not the connection has a session, the only event the handler can emit is
`generation-stopped` for the message to that connection, never an `error`; when no task is
registered under the key of the connection and the message it performs no mutation and emits
nothing; and its effect is the same for every content of `activeUsers`. -/
theorem stop_generation_ignores_session (s : State) (c m : String) :
    (∀ ev ∈ newEvents s (Event.stopGeneration c m),
      ev = (Target.toSocket c, OutEvent.generationStopped m)) ∧
    (mapGet s.activeStreams (streamKey c m) = none → step s (Event.stopGeneration c m) = s) ∧
    (∀ au : List (String × User),
      stopGeneration { s with activeUsers := au } c m =
        { stopGeneration s c m with activeUsers := au }) := by
  refine ⟨?_, ?_, ?_⟩
  · intro ev hev
    simp only [newEvents, step, stopGeneration] at hev
    split at hev
    · simp at hev
    · simpa using hev
  · intro hnone
    simp only [step, stopGeneration, hnone]
  · intro au
    simp only [stopGeneration]
    split <;> rfl

/-- Witness for C13 (amended): no task is registered for the connection that never joined. -/
theorem stop_generation_ignores_session_witness :
    mapGet twoUsers.activeStreams (streamKey "c9" "a1") = none ∧
    step twoUsers (Event.stopGeneration "c9" "a1") = twoUsers :=
  ⟨by decide, (stop_generation_ignores_session twoUsers "c9" "a1").2.1 (by decide)⟩

/-- C14: a `send-message` of a registered connection touches one thread only. With `t` the
requested thread id (`"default"` when the id is omitted) and `r` the sender's room, the message
list of every other thread of every room is, after the handler's first half and any number of
its later turns (the resumption after `saveData` and the backend events of its request), what
it was before the event; in particular a message sent on another thread is not filed under
`"default"`. The handler's own thread receives the user message, unless `t` is an inherited
property name that is no key of the room's threads: then the push throws and that list too
stays as it is. -/
theorem send_message_touches_one_thread (s : State) (hr : Reachable s) (c msg : String)
    (τ : Option String) (uuid now : String) (user : User)
    (hu : mapGet s.activeUsers c = some user) (es : List Event)
    (hes : ∀ e ∈ es, OwnTurn s.tasks.length e) :
    (∀ r' t', ¬ (r' = user.roomId ∧ t' = τ.getD "default") →
      threadMessages (run (sendMessage s c msg τ uuid now) es) r' t' = threadMessages s r' t') ∧
    (τ.getD "default" ≠ "default" →
      threadMessages (run (sendMessage s c msg τ uuid now) es) user.roomId "default" =
        threadMessages s user.roomId "default") ∧
    sendMessage s c msg none uuid now = sendMessage s c msg (some "default") uuid now ∧
    threadMessages (sendMessage s c msg τ uuid now) user.roomId (τ.getD "default") =
      threadMessages s user.roomId (τ.getD "default") ++
        (if threadThrows (roomOf s.chatRooms user.roomId).threads (τ.getD "default") then []
         else [userMessage uuid user.username msg now]) := by
  have hv := refsValid_of_reachable s hr
  have hd := threadsDisjoint_of_reachable s hr
  have hstep : sendMessage s c msg τ uuid now = step s (Event.sendMessage c msg τ uuid now) := rfl
  have hthrown : threadThrows (roomOf s.chatRooms user.roomId).threads (τ.getD "default") = true →
      ∀ r' t', threadMessages (sendMessage s c msg τ uuid now) r' t' =
        threadMessages s r' t' := by
    intro hth r' t'
    unfold threadMessages
    rw [threadRefs_sendMessage_throws s c msg τ uuid now user hu hth,
      sendMessage_throws s c msg τ uuid now user hu hth]
  have hframe : ∀ r' t', ¬ (r' = user.roomId ∧ t' = τ.getD "default") →
      threadMessages (run (sendMessage s c msg τ uuid now) es) r' t' =
        threadMessages s r' t' := by
    intro r' t' hne
    cases hth : threadThrows (roomOf s.chatRooms user.roomId).threads (τ.getD "default") with
    | true =>
      have ho : Owns (sendMessage s c msg τ uuid now) s.tasks.length user.roomId
          (τ.getD "default") := by
        refine Or.inr (Or.inr (Or.inl ?_))
        rw [sendMessage_throws s c msg τ uuid now user hu hth]
        simp
      rw [own_run_frame es _ s.tasks.length user.roomId (τ.getD "default")
        (by rw [hstep]; exact refsValid_step s _ hv)
        (by rw [hstep]; exact threadsDisjoint_step s _ hv hd) ho hes r' t' hne]
      exact hthrown hth r' t'
    | false =>
      have hf := sendMessage_fields s c msg τ uuid now user hu hth
      have ho : Owns (sendMessage s c msg τ uuid now) s.tasks.length user.roomId
          (τ.getD "default") := by
        refine Or.inl ⟨c, user.username, msg, s.heap.length, ?_⟩
        rw [hf.2.1]
        simp
      rw [own_run_frame es _ s.tasks.length user.roomId (τ.getD "default")
        (by rw [hstep]; exact refsValid_step s _ hv)
        (by rw [hstep]; exact threadsDisjoint_step s _ hv hd) ho hes r' t' hne]
      unfold threadMessages
      rw [threadRefs_sendMessage s c msg τ uuid now user hu hth, hf.1]
      have : ¬ (user.roomId = r' ∧ τ.getD "default" = t') := fun h => hne ⟨h.1.symm, h.2.symm⟩
      simp only [this, if_false]
      exact deref_grow _ _ _ (hv r' t')
  refine ⟨hframe, ?_, rfl, ?_⟩
  · intro hne
    exact hframe _ _ (fun h => hne h.2.symm)
  · cases hth : threadThrows (roomOf s.chatRooms user.roomId).threads (τ.getD "default") with
    | true =>
      rw [hthrown hth]
      simp
    | false =>
      rw [threadMessages_sendMessage s hv c msg τ uuid now user hu hth]
      simp

/-- Witness for C14: alice posts on thread `"x1"` of the general room and the request runs to
its end; the `"default"` thread of the room still holds no message. -/
theorem send_message_touches_one_thread_witness :
    mapGet twoUsers.activeUsers "c1" =
      some { username := "alice", apiKey := "k1", roomId := "general" } ∧
    threadMessages (run (sendMessage twoUsers "c1" "hi" (some "x1") "u1" "t1")
      [Event.sendSaved 0 "a1" "t2", Event.backend 0 BackendEvent.response,
       Event.backend 0 BackendEvent.streamEnd]) "general" "default" =
      threadMessages twoUsers "general" "default" :=
  ⟨by decide, (send_message_touches_one_thread twoUsers (reachable_run _ _ Reachable.init)
    "c1" "hi" (some "x1") "u1" "t1" { username := "alice", apiKey := "k1", roomId := "general" }
    (by decide) [Event.sendSaved 0 "a1" "t2", Event.backend 0 BackendEvent.response,
       Event.backend 0 BackendEvent.streamEnd]
    (by
      intro e he
      simp only [List.mem_cons, List.mem_singleton, List.not_mem_nil, or_false] at he
      rcases he with rfl | rfl | rfl
      · exact Or.inl ⟨_, _, rfl⟩
      · exact Or.inr ⟨_, rfl⟩
      · exact Or.inr ⟨_, rfl⟩)).1 "general" "default" (by decide)⟩

/-- C15, a defect of the code: an active-thread pointer can name no thread. The guard
`if (!room.threads[threadId])` of `switch-thread` is false for a property name that the
object inherits, so after a joined user switches to the thread id `constructor` the pointer
holds `constructor`, which is no key of the room's thread mapping. In every state reachable
from the empty store through the event handlers, a pointer names a key of the room's thread
mapping or an inherited property name. -/
theorem active_pointer_without_thread :
    (Reachable (run twoUsers [Event.switchThread "c1" "constructor"]) ∧
      mapGet (roomOf (run twoUsers [Event.switchThread "c1" "constructor"]).chatRooms
        "general").activeThreads "alice" = some "constructor" ∧
      mapHas (roomOf (run twoUsers [Event.switchThread "c1" "constructor"]).chatRooms
        "general").threads "constructor" = false) ∧
    (∀ (s : State), Reachable s → ∀ (r : String) (room : Room) (u t : String),
      mapGet s.chatRooms r = some room → mapGet room.activeThreads u = some t →
      mapHas room.threads t = true ∨ inheritedNames.contains t = true) := by
  refine ⟨⟨reachable_run _ _ (reachable_run _ _ Reachable.init), by decide, by decide⟩, ?_⟩
  intro s h r room u t hr hp
  exact pointersFiled_of_reachable s h r room hr u t hp

/-- Witness for C15: after alice switches to thread `"x1"`, which no message was ever sent on,
her pointer in the general room holds `"x1"`, no inherited name, and `"x1"` is a key of the
room's threads. -/
theorem active_pointer_without_thread_witness :
    mapGet (roomOf (run twoUsers [Event.switchThread "c1" "x1"]).chatRooms
      "general").activeThreads "alice" = some "x1" ∧
    inheritedNames.contains "x1" = false ∧
    mapHas (roomOf (run twoUsers [Event.switchThread "c1" "x1"]).chatRooms
      "general").threads "x1" = true :=
  ⟨by decide, by decide,
    (active_pointer_without_thread.2 (run twoUsers [Event.switchThread "c1" "x1"])
      (reachable_run _ _ (reachable_run _ _ Reachable.init)) "general"
      (roomOf (run twoUsers [Event.switchThread "c1" "x1"]).chatRooms "general") "alice" "x1"
      (by decide) (by decide)).resolve_right (by decide)⟩

/-- C16, refuted as stated: the first `join-chat` into room `"general"` (the room id a join
without `roomId` gets) creates the room with the display name `"General Chat"`, which is not
the room id. -/
theorem join_chat_room_name_counterexample :
    mapGet init.chatRooms "general" = none ∧
    (mapGet (step init (Event.joinChat "c1" "alice" "k1" none "t0")).chatRooms "general").map
      (fun room => (room.id, room.name)) = some ("general", "General Chat") := by
  decide

/-- C16, amended: a `join-chat` whose room id `ρ` (`"general"` when omitted) is not yet in the
store leaves under `ρ` the room with id `ρ`, display name `"General Chat"` when `ρ` is
`"general"` and `ρ` otherwise, the joining username as only member, the empty thread
`"default"` and an empty active-thread map. For a room already in the store the join keeps
id, name and active-thread pointers, keeps every existing thread (it can only add the user's
active thread as an empty one) and adds the username to the members (to the empty set when the
stored `users` is not a set). No other room changes. -/
theorem join_chat_room (s : State) (c u a : String) (ρ : Option String) (now : String) :
    (mapGet s.chatRooms (ρ.getD "general") = none →
      mapGet (joinChat s c u a ρ now).chatRooms (ρ.getD "general") =
        some { id := ρ.getD "general",
               name := if ρ.getD "general" = "general" then "General Chat" else ρ.getD "general",
               users := some [u], threads := [("default", [])], activeThreads := [] }) ∧
    (∀ room, mapGet s.chatRooms (ρ.getD "general") = some room →
      ∃ room', mapGet (joinChat s c u a ρ now).chatRooms (ρ.getD "general") = some room' ∧
        room'.id = room.id ∧ room'.name = room.name ∧
        room'.activeThreads = room.activeThreads ∧
        (∀ t, mapHas room.threads t = true → mapGet room'.threads t = mapGet room.threads t) ∧
        (∀ t, (mapGet room'.threads t).getD [] = (mapGet room.threads t).getD []) ∧
        room'.users = some (if u ∈ room.users.getD [] then room.users.getD []
          else room.users.getD [] ++ [u])) ∧
    (∀ r, r ≠ ρ.getD "general" →
      mapGet (joinChat s c u a ρ now).chatRooms r = mapGet s.chatRooms r) := by
  refine ⟨fun h => ?_, fun room h => ?_, fun r hr => ?_⟩
  · have hd : ensureThread [] "default" = [("default", [])] := by decide
    simp [joinChat, mapGet_mapSet, roomOf, h, newRoom, mapGet, hd]
  · refine ⟨_, by simp only [joinChat, mapGet_mapSet, if_true]; rfl, ?_, ?_, ?_, ?_, ?_, ?_⟩
    · simp [roomOf, h]
    · simp [roomOf, h]
    · simp [roomOf, h]
    · intro t ht
      simp only [roomOf, h, Option.getD_some]
      unfold ensureThread
      split
      · rfl
      · rename_i hno
        rw [mapGet_mapSet]
        split
        · rename_i heq
          rw [heq, ht] at hno
          exact absurd rfl hno
        · rfl
    · intro t
      simp only [roomOf, h, Option.getD_some]
      exact getD_ensureThread _ _ _
    · simp only [roomOf, h, Option.getD_some]
      cases room.users <;> rfl
  · simp only [joinChat, mapGet_mapSet]
    rw [if_neg (fun h => hr h.symm)]

/-- Witness for C16 (amended): the first join into room `"lab"` creates it under its own id as
display name, with alice as only member. -/
theorem join_chat_room_witness :
    mapGet init.chatRooms "lab" = none ∧
    mapGet (joinChat init "c1" "alice" "k1" (some "lab") "t0").chatRooms "lab" =
      some { id := "lab", name := "lab", users := some ["alice"],
             threads := [("default", [])], activeThreads := [] } :=
  ⟨by decide, (join_chat_room init "c1" "alice" "k1" (some "lab") "t0").1 (by decide)⟩

/-- C17, refuted as stated: alice posts on the thread whose id is the empty string, which
makes it her active thread in the room, and joins again. The join sends her the messages of
thread `"default"` (none) under the id `"default"`, not those of her active thread. -/
theorem join_chat_empty_pointer_counterexample :
    mapGet (roomOf (run init [Event.joinChat "c1" "alice" "k1" none "t0",
        Event.sendMessage "c1" "hi" (some "") "u1" "t1"]).chatRooms "general").activeThreads
      "alice" = some "" ∧
    threadMessages (run init [Event.joinChat "c1" "alice" "k1" none "t0",
        Event.sendMessage "c1" "hi" (some "") "u1" "t1"]) "general" "" =
      [userMessage "u1" "alice" "hi" "t1"] ∧
    newEvents (run init [Event.joinChat "c1" "alice" "k1" none "t0",
        Event.sendMessage "c1" "hi" (some "") "u1" "t1"])
      (Event.joinChat "c1" "alice" "k1" none "t2") =
      [(Target.toSocket "c1", OutEvent.threadsLoaded []),
       (Target.toSocket "c1", OutEvent.messagesLoaded [] "default"),
       (Target.toRoom "general" "c1", OutEvent.userJoined "alice")] := by
  decide

/-- C17, amended: a `join-chat` by `u` into room `r` (`"general"` when omitted) emits, in this
order, `threads-loaded` with `u`'s thread catalog (the empty list when `u` has none) to
the joining connection, `messages-loaded` with the messages of the active thread and its id
to the joining connection, and `user-joined` to the rest of the room. The active thread is
`u`'s pointer in `r` when that is a non-empty string, and `"default"` when `u` has no pointer
in `r` or the pointer is the empty string. When the pointer is an inherited property name
that is no key of the room's threads, `messages-loaded` carries the inherited value under
that id instead of a message list. A first join with no prior state yields `threads-loaded`
with `[]` and `messages-loaded` with `[]` and `"default"`. -/
theorem join_chat_emissions (s : State) (c u a : String) (ρ : Option String) (now : String) :
    (∀ t, mapGet (roomOf s.chatRooms (ρ.getD "general")).activeThreads u = some t → t ≠ "" →
      newEvents s (Event.joinChat c u a ρ now) =
        [(Target.toSocket c, OutEvent.threadsLoaded ((mapGet s.userThreads u).getD [])),
         (Target.toSocket c,
            if threadThrows (roomOf s.chatRooms (ρ.getD "general")).threads t
            then OutEvent.messagesLoadedInherited t
            else OutEvent.messagesLoaded (threadMessages s (ρ.getD "general") t) t),
         (Target.toRoom (ρ.getD "general") c, OutEvent.userJoined u)]) ∧
    (mapGet (roomOf s.chatRooms (ρ.getD "general")).activeThreads u = none ∨
     mapGet (roomOf s.chatRooms (ρ.getD "general")).activeThreads u = some "" →
      newEvents s (Event.joinChat c u a ρ now) =
        [(Target.toSocket c, OutEvent.threadsLoaded ((mapGet s.userThreads u).getD [])),
         (Target.toSocket c, OutEvent.messagesLoaded
            (threadMessages s (ρ.getD "general") "default") "default"),
         (Target.toRoom (ρ.getD "general") c, OutEvent.userJoined u)]) ∧
    (mapGet s.chatRooms (ρ.getD "general") = none → mapGet s.userThreads u = none →
      newEvents s (Event.joinChat c u a ρ now) =
        [(Target.toSocket c, OutEvent.threadsLoaded []),
         (Target.toSocket c, OutEvent.messagesLoaded [] "default"),
         (Target.toRoom (ρ.getD "general") c, OutEvent.userJoined u)]) := by
  have hdef : ∀ th : List (String × List Nat), threadThrows th "default" = false := by
    intro th
    have : inheritedNames.contains "default" = false := by decide
    simp only [threadThrows, this, Bool.and_false]
  refine ⟨fun t ht hne => ?_, fun h => ?_, fun hr hu => ?_⟩
  · rw [newEvents_joinChat]
    simp only [ht, hne, if_false]
  · rw [newEvents_joinChat]
    rcases h with h | h <;> simp only [h, if_true, hdef, Bool.false_eq_true, if_false]
  · rw [newEvents_joinChat]
    simp [roomOf, hr, hu, newRoom, mapGet, threadMessages, threadRefs, deref, hdef]

/-- Witness for C17 (amended): alice joins the general room of the empty store. -/
theorem join_chat_emissions_witness :
    mapGet init.chatRooms "general" = none ∧ mapGet init.userThreads "alice" = none ∧
    newEvents init (Event.joinChat "c1" "alice" "k1" none "t0") =
      [(Target.toSocket "c1", OutEvent.threadsLoaded []),
       (Target.toSocket "c1", OutEvent.messagesLoaded [] "default"),
       (Target.toRoom "general" "c1", OutEvent.userJoined "alice")] :=
  ⟨by decide, by decide,
    (join_chat_emissions init "c1" "alice" "k1" none "t0").2.2 (by decide) (by decide)⟩

/-- C18, a defect of the code: `switch-thread` to an inherited property name creates no thread
and sends no message list. In a reachable state, for a registered connection `c` of user `u`
in room `r` and every thread id `t`, `switch-thread` sets `u`'s active-thread pointer in `r`
to `t`, changes no other pointer of any room, leaves the message list of every thread of
every room as it was, adds no room, leaves the message objects, the catalogs and the
connection registry alone, and emits exactly one event, `messages-loaded` with
`activeThread = t`, to the caller. But the guard `if (!room.threads[threadId])` is a
truthiness test on a plain object: `t` becomes a key of the room's threads only when it is no
inherited property name, and when `t` is an inherited property name and no key, the event
carries the inherited value instead of the messages of `t`. -/
theorem switch_thread_sets_pointer (s : State) (hr : Reachable s) (c t : String) (user : User)
    (hu : mapGet s.activeUsers c = some user) :
    mapGet (roomOf (switchThread s c t).chatRooms user.roomId).activeThreads user.username =
      some t ∧
    (∀ r u', ¬ (r = user.roomId ∧ u' = user.username) →
      mapGet (roomOf (switchThread s c t).chatRooms r).activeThreads u' =
        mapGet (roomOf s.chatRooms r).activeThreads u') ∧
    (∀ r τ, threadMessages (switchThread s c t) r τ = threadMessages s r τ) ∧
    (∀ r τ, mapHas (roomOf (switchThread s c t).chatRooms r).threads τ = true ↔
      (r = user.roomId ∧ τ = t ∧ inheritedNames.contains t = false) ∨
        mapHas (roomOf s.chatRooms r).threads τ = true) ∧
    (∀ r, mapHas (switchThread s c t).chatRooms r = mapHas s.chatRooms r) ∧
    newEvents s (Event.switchThread c t) =
      [(Target.toSocket c,
        if threadThrows (roomOf s.chatRooms user.roomId).threads t
        then OutEvent.messagesLoadedInherited t
        else OutEvent.messagesLoaded (threadMessages s user.roomId t) t)] ∧
    (switchThread s c t).heap = s.heap ∧
    (switchThread s c t).userThreads = s.userThreads ∧
    (switchThread s c t).activeUsers = s.activeUsers := by
  obtain ⟨room, hroom⟩ := room_of_registered s hr c user hu
  have hro : roomOf s.chatRooms user.roomId = room := by simp [roomOf, hroom]
  have hheap : (switchThread s c t).heap = s.heap := by simp only [switchThread, hu, hroom]
  refine ⟨?_, ?_, ?_, ?_, ?_, ?_, hheap, ?_, ?_⟩
  · simp only [switchThread, hu, hroom, roomOf_mapSet, if_true, mapGet_mapSet]
  · intro r u' hne
    simp only [switchThread, hu, hroom, roomOf_mapSet]
    split
    · rename_i h
      subst h
      have : ¬ user.username = u' := fun h => hne ⟨rfl, h.symm⟩
      simp only [mapGet_mapSet, this, if_false, hro]
    · rfl
  · intro r τ
    unfold threadMessages
    rw [threadRefs_switchThread, hheap]
  · intro r τ
    simp only [switchThread, hu, hroom, roomOf_mapSet]
    split
    · rename_i h
      subst h
      rw [mapHas_ensureThread, hro]
      constructor
      · rintro (h | h)
        · exact Or.inl ⟨rfl, h.1.symm, h.2⟩
        · exact Or.inr h
      · rintro (h | h)
        · exact Or.inl ⟨h.2.1.symm, h.2.2⟩
        · exact Or.inr h
    · rename_i h
      constructor
      · exact Or.inr
      · rintro (h' | h')
        · exact absurd h'.1.symm h
        · exact h'
  · intro r
    simp only [switchThread, hu, hroom]
    rw [Bool.eq_iff_iff, mapHas_mapSet]
    constructor
    · rintro (h | h)
      · subst h
        simp [mapHas, hroom]
      · exact h
    · exact Or.inr
  · simp only [newEvents, step, switchThread, hu, hroom, List.drop_left,
      messagesLoadedOf_ensureThread, threadMessages, threadRefs, hro]
  · simp only [switchThread, hu, hroom]
  · simp only [switchThread, hu, hroom]

/-- The failing run of C18: alice, who posted on `"default"`, switches to the thread id
`constructor`. Her pointer is `constructor`, the room's threads have no such key, and the
caller gets `messages-loaded` with the inherited value instead of a message list. -/
theorem switch_thread_sets_pointer_witness :
    mapGet posted.activeUsers "c1" =
      some { username := "alice", apiKey := "k1", roomId := "general" } ∧
    mapGet (roomOf (switchThread posted "c1" "constructor").chatRooms
      "general").activeThreads "alice" = some "constructor" ∧
    mapHas (roomOf (switchThread posted "c1" "constructor").chatRooms "general").threads
      "constructor" = false ∧
    newEvents posted (Event.switchThread "c1" "constructor") =
      [(Target.toSocket "c1", OutEvent.messagesLoadedInherited "constructor")] :=
  ⟨by decide,
    (switch_thread_sets_pointer posted (reachable_run _ _ Reachable.init) "c1" "constructor"
      { username := "alice", apiKey := "k1", roomId := "general" } (by decide)).1,
    by decide,
    (switch_thread_sets_pointer posted (reachable_run _ _ Reachable.init) "c1" "constructor"
      { username := "alice", apiKey := "k1", roomId := "general" }
      (by decide)).2.2.2.2.2.1.trans (by decide)⟩

/-- C19: for a registered connection `c` of user `u` and every name `n`, `create-thread`
appends exactly one descriptor, with the generated id, the name `n` and the creation time, to
the end of `u`'s thread catalog, and leaves every other user's catalog, all rooms, the message
objects and the connection registry unchanged; it emits nothing before its `saveData`
returns. When the handler resumes, after any turns of other handlers, it emits exactly one
event, `threads-loaded` to the caller, carrying `u`'s catalog of that moment: the old entries,
the new descriptor, and whatever was appended since; resumed at once, that is the old catalog
followed by the new descriptor. The resumption changes no catalog and no room. -/
theorem create_thread_appends (s : State) (c n uuid now : String) (user : User)
    (hu : mapGet s.activeUsers c = some user) :
    mapGet (createThread s c n uuid now).userThreads user.username =
      some ((mapGet s.userThreads user.username).getD [] ++
        [{ id := uuid, name := n, createdAt := now }]) ∧
    (∀ u', u' ≠ user.username →
      mapGet (createThread s c n uuid now).userThreads u' = mapGet s.userThreads u') ∧
    (createThread s c n uuid now).chatRooms = s.chatRooms ∧
    (createThread s c n uuid now).heap = s.heap ∧
    (createThread s c n uuid now).activeUsers = s.activeUsers ∧
    (createThread s c n uuid now).emitted = s.emitted ∧
    (createThread s c n uuid now).tasks = s.tasks ++ [Task.createSaving c user.username] ∧
    newEvents (createThread s c n uuid now) (Event.createSaved s.tasks.length) =
      [(Target.toSocket c, OutEvent.threadsLoaded
        ((mapGet s.userThreads user.username).getD [] ++
          [{ id := uuid, name := n, createdAt := now }]))] ∧
    (∀ es : List Event, (∀ e ∈ es, e ≠ Event.createSaved s.tasks.length) →
      (∃ rest, newEvents (run (createThread s c n uuid now) es)
          (Event.createSaved s.tasks.length) =
        [(Target.toSocket c, OutEvent.threadsLoaded
          ((mapGet s.userThreads user.username).getD [] ++
            [{ id := uuid, name := n, createdAt := now }] ++ rest))] ∧
        (mapGet (run (createThread s c n uuid now) es).userThreads user.username).getD [] =
          (mapGet s.userThreads user.username).getD [] ++
            [{ id := uuid, name := n, createdAt := now }] ++ rest) ∧
      (createSaved (run (createThread s c n uuid now) es) s.tasks.length).userThreads =
        (run (createThread s c n uuid now) es).userThreads ∧
      (createSaved (run (createThread s c n uuid now) es) s.tasks.length).chatRooms =
        (run (createThread s c n uuid now) es).chatRooms) := by
  have htasks : (createThread s c n uuid now).tasks =
      s.tasks ++ [Task.createSaving c user.username] := by
    simp only [createThread, hu]
  have hk : (createThread s c n uuid now).tasks[s.tasks.length]? =
      some (Task.createSaving c user.username) := by
    rw [htasks]
    simp
  have hcat : mapGet (createThread s c n uuid now).userThreads user.username =
      some ((mapGet s.userThreads user.username).getD [] ++
        [{ id := uuid, name := n, createdAt := now }]) := by
    simp only [createThread, hu, mapGet_mapSet, if_true]
  have hemit : ∀ s' : State, s'.tasks[s.tasks.length]? =
      some (Task.createSaving c user.username) →
      newEvents s' (Event.createSaved s.tasks.length) =
        [(Target.toSocket c, OutEvent.threadsLoaded
          ((mapGet s'.userThreads user.username).getD []))] ∧
      (createSaved s' s.tasks.length).userThreads = s'.userThreads ∧
      (createSaved s' s.tasks.length).chatRooms = s'.chatRooms := by
    intro s' hs'
    simp only [newEvents, step, createSaved, hs', emit, setTask, List.drop_left, and_self]
  refine ⟨hcat, ?_, ?_, ?_, ?_, ?_, htasks, ?_, ?_⟩
  · intro u' hne
    simp only [createThread, hu, mapGet_mapSet]
    rw [if_neg (fun h => hne h.symm)]
  · simp only [createThread, hu]
  · simp only [createThread, hu]
  · simp only [createThread, hu]
  · simp only [createThread, hu]
  · rw [(hemit _ hk).1, hcat]
    rfl
  · intro es hes
    have hk' := createSaving_run es _ _ _ _ hk hes
    obtain ⟨rest, hrest⟩ := catalog_run es (createThread s c n uuid now) user.username
    rw [hcat, Option.getD_some] at hrest
    exact ⟨⟨rest, by rw [(hemit _ hk').1, hrest], hrest⟩, (hemit _ hk').2⟩

/-- Witness for C19: alice creates the thread `"Project X"`; it is the one entry of her
catalog and the resumption sends her that catalog. -/
theorem create_thread_appends_witness :
    mapGet twoUsers.activeUsers "c1" =
      some { username := "alice", apiKey := "k1", roomId := "general" } ∧
    mapGet (createThread twoUsers "c1" "Project X" "x1" "t1").userThreads "alice" =
      some [{ id := "x1", name := "Project X", createdAt := "t1" }] ∧
    newEvents (createThread twoUsers "c1" "Project X" "x1" "t1") (Event.createSaved 0) =
      [(Target.toSocket "c1", OutEvent.threadsLoaded
        [{ id := "x1", name := "Project X", createdAt := "t1" }])] :=
  ⟨by decide,
    (create_thread_appends twoUsers "c1" "Project X" "x1" "t1"
      { username := "alice", apiKey := "k1", roomId := "general" } (by decide)).1,
    (create_thread_appends twoUsers "c1" "Project X" "x1" "t1"
      { username := "alice", apiKey := "k1", roomId := "general" }
      (by decide)).2.2.2.2.2.2.2.1⟩

/-- C20, refuted as stated: alice joins on connection `"c1"` and the connection closes. Her
session is kept with the new last-seen time, and it still holds the connection id `"c1"`. -/
theorem disconnect_keeps_socket_id_counterexample :
    mapGet (run init [Event.joinChat "c1" "alice" "k1" none "t0",
      Event.disconnect "c1" "t9"]).activeUsers "c1" = none ∧
    mapGet (run init [Event.joinChat "c1" "alice" "k1" none "t0",
      Event.disconnect "c1" "t9"]).userSessions "alice" =
      some { username := "alice", apiKey := "k1", roomId := "general", lastSeen := "t9",
             socketId := "c1" } := by
  decide

/-- C20, amended: in a reachable state, for a registered connection `c` of user `u`,
`disconnect` removes `c` from the connection registry and leaves the other connections
registered as they were, so that later `switch-thread`, `create-thread` and `send-message`
events from `c` are answered with the error `User not authenticated`; `u` has a session, and
the handler sets its last-seen time and changes no other field of it: the session is not
deleted and keeps the connection id it held. No other session changes, and rooms, catalogs,
message objects and emissions are untouched. -/
theorem disconnect_detaches_connection (s : State) (hr : Reachable s) (c now : String)
    (user : User) (hu : mapGet s.activeUsers c = some user) :
    mapGet (disconnect s c now).activeUsers c = none ∧
    (∀ c', c' ≠ c → mapGet (disconnect s c now).activeUsers c' = mapGet s.activeUsers c') ∧
    (∃ session, mapGet s.userSessions user.username = some session ∧
      mapGet (disconnect s c now).userSessions user.username =
        some { session with lastSeen := now }) ∧
    (∀ u', u' ≠ user.username →
      mapGet (disconnect s c now).userSessions u' = mapGet s.userSessions u') ∧
    (disconnect s c now).chatRooms = s.chatRooms ∧
    (disconnect s c now).userThreads = s.userThreads ∧
    (disconnect s c now).heap = s.heap ∧
    (disconnect s c now).emitted = s.emitted ∧
    (∀ t, newEvents (disconnect s c now) (Event.switchThread c t) =
      [(Target.toSocket c, OutEvent.error "User not authenticated")]) ∧
    (∀ n uuid now', newEvents (disconnect s c now) (Event.createThread c n uuid now') =
      [(Target.toSocket c, OutEvent.error "User not authenticated")]) ∧
    (∀ m τ uuid now', newEvents (disconnect s c now) (Event.sendMessage c m τ uuid now') =
      [(Target.toSocket c, OutEvent.error "User not authenticated")]) := by
  obtain ⟨session, hs⟩ := session_of_registered s hr c user hu
  have hgone : mapGet (disconnect s c now).activeUsers c = none := by
    simp only [disconnect, hu, mapGet_mapDelete, if_true]
  refine ⟨hgone, ?_, ⟨session, hs, ?_⟩, ?_, ?_, ?_, ?_, ?_, ?_, ?_, ?_⟩
  · intro c' hne
    simp only [disconnect, hu, mapGet_mapDelete]
    rw [if_neg (fun h => hne h.symm)]
  · simp only [disconnect, hu, hs, mapGet_mapSet, if_true]
  · intro u' hne
    simp only [disconnect, hu, hs, mapGet_mapSet]
    rw [if_neg (fun h => hne h.symm)]
  · simp only [disconnect, hu]
  · simp only [disconnect, hu]
  · simp only [disconnect, hu]
  · simp only [disconnect, hu]
  · intro t
    simp only [newEvents, step, switchThread, hgone, emit, List.drop_left]
  · intro n uuid now'
    simp only [newEvents, step, createThread, hgone, emit, List.drop_left]
  · intro m τ uuid now'
    simp only [newEvents, step, sendMessage, hgone, emit, List.drop_left]

/-- Witness for C20 (amended): bob's connection `"c2"` closes at `"t9"`; he is no longer
registered, and his session is the one he had with the new last-seen time. -/
theorem disconnect_detaches_connection_witness :
    mapGet twoUsers.activeUsers "c2" =
      some { username := "bob", apiKey := "k2", roomId := "general" } ∧
    mapGet (disconnect twoUsers "c2" "t9").activeUsers "c2" = none ∧
    ∃ session, mapGet twoUsers.userSessions "bob" = some session ∧
      mapGet (disconnect twoUsers "c2" "t9").userSessions "bob" =
        some { session with lastSeen := "t9" } :=
  ⟨by decide,
    (disconnect_detaches_connection twoUsers (reachable_run _ _ Reachable.init) "c2" "t9"
      { username := "bob", apiKey := "k2", roomId := "general" } (by decide)).1,
    (disconnect_detaches_connection twoUsers (reachable_run _ _ Reachable.init) "c2" "t9"
      { username := "bob", apiKey := "k2", roomId := "general" } (by decide)).2.2.1⟩

/-- C21, a defect of the code: `saveData` does not write a room whose id is `__proto__`. For
every store state, loading what `saveData` wrote for the rooms succeeds and gives a store in
which every room with another id is there as before, with the same id and name, the same
thread ids, for every thread the same messages in the same order, and the same active-thread
pointer for every username; the room with the id `__proto__` is not in the loaded store. With
alice in the room `__proto__` and her message and its placeholder in the default thread, the
loaded store has no such room and no message. -/
theorem save_load_drops_proto_room (s : State) :
    (∃ s', loadRooms (saveRooms s) = some s' ∧
      mapHas s'.chatRooms "__proto__" = false ∧
      (∀ r, r ≠ "__proto__" → mapHas s'.chatRooms r = mapHas s.chatRooms r) ∧
      (∀ r, r ≠ "__proto__" → (mapGet s'.chatRooms r).map (fun room => (room.id, room.name)) =
        (mapGet s.chatRooms r).map (fun room => (room.id, room.name))) ∧
      (∀ r t, r ≠ "__proto__" → mapHas (roomOf s'.chatRooms r).threads t =
        mapHas (roomOf s.chatRooms r).threads t) ∧
      (∀ r t, r ≠ "__proto__" → threadMessages s' r t = threadMessages s r t) ∧
      (∀ r u, r ≠ "__proto__" → mapGet (roomOf s'.chatRooms r).activeThreads u =
        mapGet (roomOf s.chatRooms r).activeThreads u)) ∧
    (Reachable protoRoom ∧
      mapHas protoRoom.chatRooms "__proto__" = true ∧
      threadMessages protoRoom "__proto__" "default" =
        [userMessage "u1" "alice" "hi" "t1", aiMessage "a1" "t2"] ∧
      (loadRooms (saveRooms protoRoom)).map
        (fun s' => (mapHas s'.chatRooms "__proto__", threadMessages s' "__proto__" "default")) =
        some (false, [])) := by
  refine ⟨?_, reachable_run _ _ Reachable.init, by decide, by decide, by decide⟩
  obtain ⟨h', rooms', hload, -, hprop⟩ := loadRoomList_map s.heap
    (s.chatRooms.filter (fun kr => kr.1 != "__proto__")) []
  have hget : ∀ r, r ≠ "__proto__" →
      mapGet (s.chatRooms.filter (fun kr => kr.1 != "__proto__")) r = mapGet s.chatRooms r :=
    fun r hr => by rw [mapGet_filter_ne, if_neg hr]
  refine ⟨{ init with chatRooms := rooms', heap := h' }, ?_, ?_, ?_, ?_, ?_, ?_, ?_⟩
  · simp only [loadRooms, saveRooms, hload]
  · have := (hprop "__proto__").1 (by rw [mapGet_filter_ne, if_pos rfl])
    simp [mapHas, this]
  · intro r hne
    cases hr : mapGet s.chatRooms r with
    | none => simp [mapHas, hr, (hprop r).1 ((hget r hne).trans hr)]
    | some room =>
      obtain ⟨room', hr', -⟩ := (hprop r).2 room ((hget r hne).trans hr)
      simp [mapHas, hr, hr']
  · intro r hne
    cases hr : mapGet s.chatRooms r with
    | none => simp [(hprop r).1 ((hget r hne).trans hr)]
    | some room =>
      obtain ⟨room', hr', hid, hname, -⟩ := (hprop r).2 room ((hget r hne).trans hr)
      simp [hr', hid, hname]
  · intro r t hne
    cases hr : mapGet s.chatRooms r with
    | none => simp [roomOf, hr, (hprop r).1 ((hget r hne).trans hr)]
    | some room =>
      obtain ⟨room', hr', -, -, -, -, hth⟩ := (hprop r).2 room ((hget r hne).trans hr)
      simp only [roomOf, hr, hr', Option.getD_some]
      exact (hth t).1
  · intro r t hne
    cases hr : mapGet s.chatRooms r with
    | none =>
      simp [threadMessages, threadRefs, hr, (hprop r).1 ((hget r hne).trans hr), deref]
    | some room =>
      obtain ⟨room', hr', -, -, -, -, hth⟩ := (hprop r).2 room ((hget r hne).trans hr)
      simp only [threadMessages, threadRefs, hr, hr']
      have := (hth t).2 []
      rw [List.append_nil] at this
      exact this
  · intro r u hne
    cases hr : mapGet s.chatRooms r with
    | none => simp [roomOf, hr, (hprop r).1 ((hget r hne).trans hr)]
    | some room =>
      obtain ⟨room', hr', -, -, -, hat, -⟩ := (hprop r).2 room ((hget r hne).trans hr)
      simp only [roomOf, hr, hr', Option.getD_some, hat]

/-- Witness for C21: the general room of the store with two registered users is there after
the reload. -/
theorem save_load_drops_proto_room_witness :
    ∃ s', loadRooms (saveRooms twoUsers) = some s' ∧ mapHas s'.chatRooms "general" = true := by
  obtain ⟨s', h, -, hh, -⟩ := (save_load_drops_proto_room twoUsers).1
  exact ⟨s', h, (hh "general" (by decide)).trans (by decide)⟩

/-- C22, a defect of the code: `saveData` writes the member set of a room as the empty object,
so loading what it wrote gives, for every store state, rooms whose `users` is not a set: no
member survives. With alice and bob as members of the general room before, a join by carol
after the reload leaves carol as the only member. -/
theorem save_load_loses_members (s : State) :
    (∃ s', loadRooms (saveRooms s) = some s' ∧
      ∀ r, (mapGet s'.chatRooms r).bind Room.users = none) ∧
    (mapGet twoUsers.chatRooms "general").bind Room.users = some ["alice", "bob"] ∧
    (loadRooms (saveRooms twoUsers)).map (fun s' => (mapGet s'.chatRooms "general").bind
      Room.users) = some none ∧
    (loadRooms (saveRooms twoUsers)).map (fun s' =>
      (mapGet (joinChat s' "c3" "carol" "k3" none "t5").chatRooms "general").bind Room.users) =
      some (some ["carol"]) := by
  refine ⟨?_, by decide, by decide, by decide⟩
  obtain ⟨h', rooms', hload, -, hprop⟩ := loadRoomList_map s.heap
    (s.chatRooms.filter (fun kr => kr.1 != "__proto__")) []
  refine ⟨{ init with chatRooms := rooms', heap := h' }, ?_, fun r => ?_⟩
  · simp only [loadRooms, saveRooms, hload]
  · cases hr : mapGet (s.chatRooms.filter (fun kr => kr.1 != "__proto__")) r with
    | none => simp [(hprop r).1 hr]
    | some room =>
      obtain ⟨room', hr', -, -, hu, -⟩ := (hprop r).2 room hr
      simp [hr', hu]

/-- C23: the notices for a refused connection, a missing model and a timeout are pairwise
different on both paths. The streaming call wraps every rejection that is not an abort into
an `Error` whose message is `Ollama API error: ` followed by the transport's message, and the
notice of the coordinator is that message behind `Error: `: two failures get the same notice
exactly when the transport reports them with the same message, and the messages of a refused
connection, of an HTTP 404 and of a timeout differ. The non-streaming call gives a refused
connection and a 404 their own messages and a timeout the generic one around the transport's
message, and the answer `callLlama3` makes of each is that message between `Error: ` and a
fixed hint; the three are pairwise different whatever the transport's messages are. -/
theorem backend_failures_distinct_notices :
    (∀ e : AxiosError, e.name ≠ "AbortError" →
      errorNotice (rethrown e.js) = "Error: Ollama API error: " ++ e.message) ∧
    (∀ e1 e2 : AxiosError, e1.name ≠ "AbortError" → e2.name ≠ "AbortError" →
      (errorNotice (rethrown e1.js) = errorNotice (rethrown e2.js) ↔
        e1.message = e2.message)) ∧
    (errorNotice (rethrown refusedError.js) ≠ errorNotice (rethrown notFoundError.js) ∧
      errorNotice (rethrown refusedError.js) ≠ errorNotice (rethrown timeoutError.js) ∧
      errorNotice (rethrown notFoundError.js) ≠ errorNotice (rethrown timeoutError.js)) ∧
    (∀ e1 e2 e3 : AxiosError,
      e1.code = some "ECONNREFUSED" → e1.status ≠ some 404 →
      e2.status = some 404 →
      e3.code ≠ some "ECONNREFUSED" → e3.status ≠ some 404 →
      e3.dataError ≠ some "model is required" →
      ((callOllamaCatch e1).message =
          "Ollama is not running. Please start Ollama with: ollama serve" ∧
        (callOllamaCatch e2).message =
          "Llama 3 model not found. Please run: ollama pull llama3" ∧
        (callOllamaCatch e3).message = "Ollama API error: " ++ e3.message) ∧
      (callLlama3Catch (callOllamaCatch e1) ≠ callLlama3Catch (callOllamaCatch e2) ∧
        callLlama3Catch (callOllamaCatch e1) ≠ callLlama3Catch (callOllamaCatch e3) ∧
        callLlama3Catch (callOllamaCatch e2) ≠ callLlama3Catch (callOllamaCatch e3))) ∧
    (∀ e : AxiosError, callLlama3Catch (callOllamaCatch e) =
      "Error: " ++ (callOllamaCatch e).message ++
        ". Please check if Ollama is running and the llama3 model is available.") := by
  have hre : ∀ e : AxiosError, e.name ≠ "AbortError" →
      errorNotice (rethrown e.js) = "Error: Ollama API error: " ++ e.message := by
    intro e he
    have h1 : rethrown e.js =
        { name := "Error", message := "Ollama API error: " ++ e.message } := by
      simp [rethrown, AxiosError.js, he]
    rw [h1]
    simp only [errorNotice]
    rw [← String.append_assoc]
    rfl
  have hgen : ∀ e : AxiosError, callLlama3Catch (callOllamaCatch e) =
      "Error: " ++ (callOllamaCatch e).message ++
        ". Please check if Ollama is running and the llama3 model is available." := by
    intro e
    have hc : (callOllamaCatch e).code = none ∧ (callOllamaCatch e).status = none := by
      unfold callOllamaCatch
      split
      · exact ⟨rfl, rfl⟩
      · split
        · exact ⟨rfl, rfl⟩
        · split <;> exact ⟨rfl, rfl⟩
    simp [callLlama3Catch, hc.1, hc.2]
  have hinj : ∀ e e' : AxiosError,
      callLlama3Catch (callOllamaCatch e) = callLlama3Catch (callOllamaCatch e') →
      (callOllamaCatch e).message = (callOllamaCatch e').message := by
    intro e e' h
    rw [hgen, hgen, string_append_right_cancel, string_append_left_cancel] at h
    exact h
  refine ⟨hre, fun e1 e2 h1 h2 => ?_, by decide, ?_, hgen⟩
  · rw [hre e1 h1, hre e2 h2, string_append_left_cancel]
  · intro e1 e2 e3 hc1 hs1 hs2 hc3 hs3 hd3
    have m1 : (callOllamaCatch e1).message =
        "Ollama is not running. Please start Ollama with: ollama serve" := by
      simp [callOllamaCatch, hs1, hc1, newError]
    have m2 : (callOllamaCatch e2).message =
        "Llama 3 model not found. Please run: ollama pull llama3" := by
      simp [callOllamaCatch, hs2, newError]
    have m3 : (callOllamaCatch e3).message = "Ollama API error: " ++ e3.message := by
      simp [callOllamaCatch, hs3, hc3, hd3, newError]
    refine ⟨⟨m1, m2, m3⟩, fun h => ?_, fun h => ?_, fun h => ?_⟩
    · have := hinj _ _ h
      rw [m1, m2] at this
      exact absurd this (by decide)
    · have := hinj _ _ h
      rw [m1, m3] at this
      exact api_error_ne _ _ (by decide) this.symm
    · have := hinj _ _ h
      rw [m2, m3] at this
      exact api_error_ne _ _ (by decide) this.symm

/-- Witness for C23: the answers of `POST /api/chat` for a refused connection, an HTTP 404 and
a timeout of the backend request, as axios reports them. -/
theorem backend_failures_distinct_notices_witness :
    callLlama3Catch (callOllamaCatch refusedError) =
      "Error: Ollama is not running. Please start Ollama with: ollama serve. Please check " ++
        "if Ollama is running and the llama3 model is available." ∧
    callLlama3Catch (callOllamaCatch notFoundError) =
      "Error: Llama 3 model not found. Please run: ollama pull llama3. Please check " ++
        "if Ollama is running and the llama3 model is available." ∧
    callLlama3Catch (callOllamaCatch timeoutError) =
      "Error: Ollama API error: timeout of 60000ms exceeded. Please check " ++
        "if Ollama is running and the llama3 model is available." ∧
    callLlama3Catch (callOllamaCatch refusedError) ≠
      callLlama3Catch (callOllamaCatch notFoundError) ∧
    callLlama3Catch (callOllamaCatch refusedError) ≠
      callLlama3Catch (callOllamaCatch timeoutError) ∧
    callLlama3Catch (callOllamaCatch notFoundError) ≠
      callLlama3Catch (callOllamaCatch timeoutError) :=
  ⟨by decide, by decide, by decide,
    (backend_failures_distinct_notices.2.2.2.1 refusedError notFoundError timeoutError
      (by decide) (by decide) (by decide) (by decide) (by decide) (by decide)).2⟩


/-- C24, refuted as stated: a request whose prompt is the non-empty string `Hello` in a body
of 200000 bytes (the rest of the body being, say, a long `apiKey`). The body parser installed
before the route refuses it with status 413; the handler does not run, no backend request is
made and the response carries no `answer`. -/
theorem api_chat_large_body_counterexample :
    apiRoute (fun _ => "") { bodyLength := 200000, prompt := some (Json.str "Hello") }
        (Except.ok (Json.obj [("response", Json.str "Hi")])) =
      { status := 413, body := ApiBody.errorPage, posted := [] } ∧
    apiRoute (fun _ => "") { bodyLength := 200, prompt := some (Json.str "Hello") }
        (Except.ok (Json.obj [("response", Json.str "Hi")])) =
      { status := 200, body := ApiBody.answer "Hi", posted := ["Hello"] } := by
  decide

/-- C24, amended: a `POST /api/chat` whose body is within the limit of the body parser (100 kB)
and whose prompt is a non-empty string is answered with status 200 and a body carrying
`answer`, never with 500, after one backend request with that prompt: the answer is the
result of `callOllama` when that call succeeds, and when it fails in any way the answer is
what the `catch` of `callLlama3` makes of the error, a string that begins with `Error: `. Such
a request whose prompt is missing or the empty string is answered with status 400 and the
error `Prompt is required`, and no backend request is made. A request whose body is over the
limit is answered with status 413 by the body parser, whatever its prompt: the handler does
not run and no backend request is made. -/
theorem api_chat_answers (stringify : Json → String) (outcome : Except AxiosError Json) :
    (∀ (req : ApiRequest) (text : String), req.bodyLength ≤ jsonBodyLimit →
      req.prompt = some (Json.str text) → text ≠ "" →
      ∃ answer, apiRoute stringify req outcome =
          { status := 200, body := ApiBody.answer answer, posted := [text] } ∧
        (∀ a, callOllama stringify outcome = Except.ok a → answer = a) ∧
        (∀ e, callOllama stringify outcome = Except.error e →
          answer = callLlama3Catch e ∧ ∃ rest, answer = "Error: " ++ rest)) ∧
    (∀ req : ApiRequest, req.bodyLength ≤ jsonBodyLimit →
      req.prompt = none ∨ req.prompt = some (Json.str "") →
      apiRoute stringify req outcome =
        { status := 400, body := ApiBody.error "Prompt is required", posted := [] }) ∧
    (∀ req : ApiRequest, jsonBodyLimit < req.bodyLength →
      apiRoute stringify req outcome =
        { status := 413, body := ApiBody.errorPage, posted := [] }) := by
  refine ⟨fun req text hlen hprompt htext => ?_, fun req hlen hprompt => ?_, fun req hlen => ?_⟩
  · have hroute : apiRoute stringify req outcome =
        apiChat stringify (some (Json.str text)) outcome := by
      simp [apiRoute, Nat.not_lt.mpr hlen, hprompt]
    rw [hroute]
    have hp : buildPrompt [] text = text := by simp [buildPrompt]
    have herr : ∀ e : AxiosError, ∃ rest, callLlama3Catch e = "Error: " ++ rest := by
      intro e
      unfold callLlama3Catch
      split
      · exact ⟨"Ollama is not running. Please start Ollama with: ollama serve", by decide⟩
      · split
        · exact ⟨"Llama 3 model not found. Please run: ollama pull llama3", by decide⟩
        · split
          · exact ⟨"Request timed out. The AI model might be busy or not responding.",
              by decide⟩
          · exact ⟨_, String.append_assoc _ _ _⟩
    cases hc : callOllama stringify outcome with
    | ok a =>
      refine ⟨a, ?_, fun a' ha' => (by cases ha'; rfl), fun e he => (by cases he)⟩
      simp [apiChat, Json.truthy, htext, callLlama3, hc, hp]
    | error e =>
      refine ⟨callLlama3Catch e, ?_, fun a' ha' => (by cases ha'), fun e' he' => ?_⟩
      · simp [apiChat, Json.truthy, htext, callLlama3, hc, hp]
      · cases he'
        exact ⟨rfl, herr e⟩
  · rcases hprompt with h | h <;> simp [apiRoute, Nat.not_lt.mpr hlen, h] <;> rfl
  · simp [apiRoute, hlen]

/-- Witness for C24 (amended): the prompt `Hello` in a small body while the backend refuses
the connection. -/
theorem api_chat_answers_witness :
    apiRoute (fun _ => "") { bodyLength := 18, prompt := some (Json.str "Hello") }
        (Except.error refusedError) =
      { status := 200,
        body := ApiBody.answer ("Error: Ollama is not running. Please start Ollama with: " ++
          "ollama serve. Please check if Ollama is running and the llama3 model is available."),
        posted := ["Hello"] } := by
  obtain ⟨answer, h, -, herr⟩ := (api_chat_answers (fun _ => "")
    (Except.error refusedError)).1 { bodyLength := 18, prompt := some (Json.str "Hello") }
    "Hello" (by decide) rfl (by decide)
  rw [h, (herr (callOllamaCatch refusedError) rfl).1]
  decide


/-- C25, a defect of the code: the result of the streaming call depends on how the stream is
cut into `data` events. The listener parses the lines of each chunk on their own and ignores
what does not parse, so a line delivered in two pieces `a` and `b`, neither of which is JSON,
is lost: delivered in one chunk, the line `a ++ b` with the response `r` makes one chunk
callback with `r` and appends `r` to the full text; delivered as the chunk `a` followed by
the chunk of `b` and the newline, the same stream makes no callback and leaves the full text
as it was. -/
theorem split_line_is_lost (parse : String → Option StreamLine) (sg : State × Gen)
    (a b r : String) (ha : '\n' ∉ a.toList) (hb : '\n' ∉ b.toList) (hane : a ≠ "")
    (hbne : b ≠ "") (hpa : parse a = none) (hpb : parse b = none)
    (hp : parse (a ++ b) = some { response := r, done := false }) (hr : r ≠ "") :
    a ++ (b ++ "\n") = a ++ b ++ "\n" ∧
    dataChunk parse sg (a ++ b ++ "\n") =
      (onChunk sg.1 { sg.2 with full := sg.2.full ++ r }
          { type := ChunkType.chunk, content := r },
        { sg.2 with full := sg.2.full ++ r }) ∧
    dataChunk parse (dataChunk parse sg a) (b ++ "\n") = sg := by
  have hab : '\n' ∉ (a ++ b).toList := by
    simp only [String.toList, String.data_append, List.mem_append, not_or]
    exact ⟨ha, hb⟩
  have habne : a ++ b ≠ "" := by
    intro h
    apply hane
    have := congrArg String.data h
    simp only [String.data_append, List.append_eq_nil] at this
    exact String.ext this.1
  refine ⟨(String.append_assoc a b "\n").symm, ?_, ?_⟩
  · simp only [dataChunk, chunkLines_of_line_newline _ hab habne, List.map_cons, List.map_nil,
      hp, dataListener, List.foldl_cons, List.foldl_nil, streamLine, lineResponse, hr, if_false,
      lineDone, Bool.false_eq_true]
  · simp only [dataChunk, chunkLines_of_line _ ha hane, chunkLines_of_line_newline _ hb hbne,
      List.map_cons, List.map_nil, hpa, hpb, dataListener, List.foldl_cons, List.foldl_nil,
      streamLine]

/-- Witness for C25: the line `{"response":"Hi","done":false}` of the answer to alice. In one
chunk it puts `Hi` into the full text; cut after `H` it puts nothing there. -/
theorem split_line_is_lost_witness :
    (dataChunk parseExample answering
      ("\x7b\"response\":\"H" ++ "i\",\"done\":false\x7d" ++ "\n")).2.full = "Hi" ∧
    (dataChunk parseExample (dataChunk parseExample answering "\x7b\"response\":\"H")
      ("i\",\"done\":false\x7d" ++ "\n")).2.full = "" := by
  have h := split_line_is_lost parseExample answering "\x7b\"response\":\"H"
    "i\",\"done\":false\x7d" "Hi" (by decide) (by decide) (by decide) (by decide) (by decide)
    (by decide) (by decide) (by decide)
  refine ⟨?_, ?_⟩
  · rw [h.2.1]
    rfl
  · rw [h.2.2]
    rfl


/-- C26, refuted as stated: alice and bob are in the general room. Alice sends `hi`, and
while her handler waits for `saveData` bob sends `yo` on the same thread. The context alice's
handler then reads ends with bob's message, and her prompt ends with bob's line, not hers. -/
theorem context_last_entry_counterexample :
    getThreadContext (run twoUsers [Event.sendMessage "c1" "hi" none "u1" "t1",
      Event.sendMessage "c2" "yo" none "u2" "t2"]) "default" "general" =
      some [userMessage "u1" "alice" "hi" "t1", userMessage "u2" "bob" "yo" "t2"] ∧
    (run twoUsers [Event.sendMessage "c1" "hi" none "u1" "t1",
      Event.sendMessage "c2" "yo" none "u2" "t2", Event.sendSaved 0 "a1" "t3"]).tasks[0]? =
      some (Task.gen { socketId := "c1", roomId := "general", aiRef := 2, aiId := "a1",
                       prompt := "alice: hi\nbob: yo\n\nhi", phase := Phase.posting,
                       full := "", settled := false, aborted := false }) := by
  decide

/-- C26, amended: for a thread id that is a key of the room's threads or no inherited
property name, `send-message` reads the context window when it resumes after `saveData`,
after the new user message has been appended to the thread. Whatever is handled during the
wait, the read succeeds, the context is not empty and the thread holds the user message. When
the thread's message list at the resumption is the one the first half of the handler left,
the context is the last at most 9 earlier messages followed by the new user message, and the
prompt is the lines of these messages, ending with the line of the username and the text,
then a blank line and the text again. For a thread id that is an inherited property name and
no key of the room's threads the push of the user message throws: the handler leaves no task
to resume, so no context is read and no prompt is built. -/
theorem context_after_user_message (s : State) (hr : Reachable s) (c msg : String)
    (τ : Option String) (uuid now : String) (user : User)
    (hu : mapGet s.activeUsers c = some user) (es : List Event)
    (hes : ∀ e ∈ es, ∀ u n, e ≠ Event.sendSaved s.tasks.length u n) (aiUuid aiNow : String) :
    (threadThrows (roomOf s.chatRooms user.roomId).threads (τ.getD "default") = false →
      (∃ context, getThreadContext (run (sendMessage s c msg τ uuid now) es)
          (τ.getD "default") user.roomId = some context ∧ context ≠ []) ∧
      uuid ∈ threadIds (run (sendMessage s c msg τ uuid now) es) user.roomId
        (τ.getD "default") ∧
      ((threadMessages s user.roomId (τ.getD "default")).drop
        ((threadMessages s user.roomId (τ.getD "default")).length - 9)).length ≤ 9 ∧
      (threadMessages (run (sendMessage s c msg τ uuid now) es) user.roomId
          (τ.getD "default") =
          threadMessages (sendMessage s c msg τ uuid now) user.roomId (τ.getD "default") →
        getThreadContext (run (sendMessage s c msg τ uuid now) es) (τ.getD "default")
            user.roomId =
          some ((threadMessages s user.roomId (τ.getD "default")).drop
            ((threadMessages s user.roomId (τ.getD "default")).length - 9) ++
            [userMessage uuid user.username msg now]) ∧
        ∃ g, (sendSaved (run (sendMessage s c msg τ uuid now) es) s.tasks.length
            aiUuid aiNow).tasks[s.tasks.length]? = some (Task.gen g) ∧
          g.prompt =
            "\n".intercalate
              (((threadMessages s user.roomId (τ.getD "default")).drop
                  ((threadMessages s user.roomId (τ.getD "default")).length - 9)).map
                (fun x => x.username ++ ": " ++ x.message) ++
               [user.username ++ ": " ++ msg]) ++ "\n\n" ++ msg)) ∧
    (threadThrows (roomOf s.chatRooms user.roomId).threads (τ.getD "default") = true →
      (sendMessage s c msg τ uuid now).tasks = s.tasks ∧
      (∀ r t, threadMessages (sendMessage s c msg τ uuid now) r t = threadMessages s r t) ∧
      sendSaved (sendMessage s c msg τ uuid now) s.tasks.length aiUuid aiNow =
        sendMessage s c msg τ uuid now) := by
  constructor
  · intro hok
    have hv := refsValid_of_reachable s hr
    have h1 := sendMessage_fields s c msg τ uuid now user hu hok
    have hv1 : RefsValid (sendMessage s c msg τ uuid now) :=
      refsValid_step s (Event.sendMessage c msg τ uuid now) hv
    have htm := threadMessages_sendMessage s hv c msg τ uuid now user hu hok
    have hkey := hasKey_run es _ _ _ (sendMessage_key s c msg τ uuid now user hu hok)
    have hgc := getThreadContext_eq (run (sendMessage s c msg τ uuid now) es)
      (τ.getD "default") user.roomId (Or.inl hkey)
    have hids : uuid ∈ threadIds (run (sendMessage s c msg τ uuid now) es) user.roomId
        (τ.getD "default") := by
      apply (threadIds_run es _ hv1 user.roomId (τ.getD "default")).subset
      simp [threadIds, ids, htm, userMessage]
    have hne : (threadMessages (run (sendMessage s c msg τ uuid now) es) user.roomId
          (τ.getD "default")).drop
        ((threadMessages (run (sendMessage s c msg τ uuid now) es) user.roomId
          (τ.getD "default")).length - 10) ≠ [] := by
      intro hnil
      have hl := congrArg List.length hnil
      simp only [List.length_drop, List.length_nil] at hl
      have hpos : 0 < (threadIds (run (sendMessage s c msg τ uuid now) es) user.roomId
          (τ.getD "default")).length := List.length_pos_of_mem hids
      simp only [threadIds, ids, List.length_map] at hpos
      omega
    refine ⟨⟨_, hgc, hne⟩, hids, by rw [List.length_drop]; omega, fun hsame => ?_⟩
    have hctx : (threadMessages (run (sendMessage s c msg τ uuid now) es) user.roomId
          (τ.getD "default")).drop
        ((threadMessages (run (sendMessage s c msg τ uuid now) es) user.roomId
          (τ.getD "default")).length - 10) =
        (threadMessages s user.roomId (τ.getD "default")).drop
          ((threadMessages s user.roomId (τ.getD "default")).length - 9) ++
          [userMessage uuid user.username msg now] := by
      rw [hsame, htm]
      simp only [List.length_append, List.length_singleton]
      rw [List.drop_append_of_le_length (by omega)]
      congr 2
    refine ⟨by rw [hgc, hctx], ?_⟩
    have ht1 : (sendMessage s c msg τ uuid now).tasks[s.tasks.length]? =
        some (Task.sendSaving c user.username user.roomId (τ.getD "default") msg
          s.heap.length) := by
      rw [h1.2.1]; simp
    have ht2 := sendSaving_run es _ _ _ _ _ _ _ _ ht1 hes
    have h2 := sendSaved_fields _ s.tasks.length aiUuid aiNow _ _ _ _ _ _ ht2 hkey
    have hlt := (List.getElem?_eq_some_iff.mp ht2).1
    refine ⟨_, by rw [h2.2.2.2.2, List.getElem?_set_self hlt], ?_⟩
    simp only
    rw [hgc, Option.getD_some, buildPrompt_of_ne_nil _ _ hne, hctx]
    simp [userMessage]
  · intro hth
    have hst := sendMessage_throws s c msg τ uuid now user hu hth
    refine ⟨by rw [hst], fun r t => ?_, ?_⟩
    · unfold threadMessages
      rw [threadRefs_sendMessage_throws s c msg τ uuid now user hu hth, hst]
    · have hnone : (sendMessage s c msg τ uuid now).tasks[s.tasks.length]? = none := by
        rw [hst]; simp
      simp only [sendSaved, hnone]

/-- Witness for C26 (amended): alice's handler resumes at once in an empty thread; the context
is her message and the prompt holds her text twice. -/
theorem context_after_user_message_witness :
    mapGet twoUsers.activeUsers "c1" =
      some { username := "alice", apiKey := "k1", roomId := "general" } ∧
    threadThrows (roomOf twoUsers.chatRooms "general").threads "default" = false ∧
    getThreadContext (run (sendMessage twoUsers "c1" "hi" none "u1" "t1") []) "default"
      "general" = some [userMessage "u1" "alice" "hi" "t1"] := by
  refine ⟨by decide, by decide, ?_⟩
  have h := ((context_after_user_message twoUsers (reachable_run _ _ Reachable.init) "c1" "hi"
    none "u1" "t1" { username := "alice", apiKey := "k1", roomId := "general" } (by decide) []
    (by simp) "a1" "t2").1 (by decide)).2.2.2 rfl
  exact h.1


/-- C27, refuted as stated: the key of connection `a-b` and message `c` is the key of
connection `a` and message `b-c`. When the generation of `(a-b, c)` is in flight, a
`stop-generation` for `b-c` from connection `a`, which never joined, aborts it. -/
theorem stream_key_collision_counterexample :
    streamKey "a-b" "c" = streamKey "a" "b-c" ∧
    (run init [Event.joinChat "a-b" "alice" "k1" none "t0",
      Event.sendMessage "a-b" "hi" none "u1" "t1", Event.sendSaved 0 "c" "t2",
      Event.stopGeneration "a" "b-c"]).tasks[0]? =
      some (Task.gen { socketId := "a-b", roomId := "general", aiRef := 1, aiId := "c",
                       prompt := "alice: hi\n\nhi", phase := Phase.posting, full := "",
                       settled := false, aborted := true }) := by
  decide

/-- C27, amended: the key identifies the pair among connection ids of one length, and among
message ids of one length: for such ids equal keys imply equal connection ids and equal
message ids. In a reachable state the task a `stop-generation` from connection `c` for
message `m` finds is a generation in flight whose own key is the key of `(c, m)`, so when its
connection id has the length of `c` it is the generation of connection `c` for message `m`. -/
theorem stream_key_identifies_pair (c1 m1 c2 m2 : String) :
    (c1.length = c2.length ∨ m1.length = m2.length →
      streamKey c1 m1 = streamKey c2 m2 → c1 = c2 ∧ m1 = m2) ∧
    (∀ (s : State) (k : Nat), Reachable s → mapGet s.activeStreams (streamKey c1 m1) = some k →
      ∃ g, s.tasks[k]? = some (Task.gen g) ∧ g.settled = false ∧
        streamKey g.socketId g.aiId = streamKey c1 m1 ∧
        (g.socketId.length = c1.length → g.socketId = c1 ∧ g.aiId = m1)) := by
  have hinj : ∀ a b a' b' : String, (a.length = a'.length ∨ b.length = b'.length) →
      streamKey a b = streamKey a' b' → a = a' ∧ b = b' := by
    intro a b a' b' hlen hkey
    have hd := congrArg String.data hkey
    simp only [streamKey, String.data_append] at hd
    have hd' : a.data ++ ('-' :: b.data) = a'.data ++ ('-' :: b'.data) := by
      simpa using hd
    have := (show a.data = a'.data ∧ ('-' :: b.data) = ('-' :: b'.data) from by
      rcases hlen with h | h
      · exact List.append_inj hd' h
      · exact List.append_inj' hd' (by simpa using h))
    exact ⟨String.ext this.1, String.ext (List.cons.inj this.2).2⟩
  refine ⟨hinj c1 m1 c2 m2, fun s k hr hk => ?_⟩
  obtain ⟨g, hg, hset, hkey⟩ := streamsLive_of_reachable s hr _ k hk
  exact ⟨g, hg, hset, hkey.symm, fun hlen => hinj _ _ _ _ (Or.inl hlen) hkey.symm⟩

/-- Witness for C27 (amended): two ids of twenty characters each. -/
theorem stream_key_identifies_pair_witness :
    streamKey "AbCdEfGhIjKlMnOpQr-T" "m1" ≠ streamKey "AbCdEfGhIjKlMnOpQrS-" "T-m1" :=
  fun h => absurd ((stream_key_identifies_pair "AbCdEfGhIjKlMnOpQr-T" "m1"
    "AbCdEfGhIjKlMnOpQrS-" "T-m1").1 (Or.inl (by decide)) h).1 (by decide)


/-- C28: in every state reachable from the empty store through the event handlers, every
connection of the connection registry names a room id that is in the room store. Hence no
`switch-thread` event, from whatever connection, is answered with `Room not found`, and a
`send-message` of a registered connection works on the stored room and adds no room to the
store. -/
theorem registered_room_exists (s : State) (hr : Reachable s) :
    (∀ c user, mapGet s.activeUsers c = some user →
      mapGet s.chatRooms user.roomId = some (roomOf s.chatRooms user.roomId)) ∧
    (∀ c t ev, ev ∈ newEvents s (Event.switchThread c t) →
      ev.2 ≠ OutEvent.error "Room not found") ∧
    (∀ c msg τ uuid now user, mapGet s.activeUsers c = some user →
      ∀ r, mapHas (sendMessage s c msg τ uuid now).chatRooms r = mapHas s.chatRooms r) := by
  have hroom : ∀ c user, mapGet s.activeUsers c = some user →
      mapGet s.chatRooms user.roomId = some (roomOf s.chatRooms user.roomId) := by
    intro c user hu
    obtain ⟨room, hroom⟩ := room_of_registered s hr c user hu
    simp [roomOf, hroom]
  refine ⟨hroom, ?_, ?_⟩
  · intro c t ev hev
    cases hu : mapGet s.activeUsers c with
    | none =>
      simp only [newEvents, step, switchThread, hu, emit, List.drop_left,
        List.mem_singleton] at hev
      rw [hev]
      simp
    | some user =>
      have := hroom c user hu
      simp only [newEvents, step, switchThread, hu, this, List.drop_left,
        List.mem_singleton] at hev
      rw [hev]
      rcases messagesLoadedOf_cases s.heap
        (ensureThread (roomOf s.chatRooms user.roomId).threads t) t with ⟨ms, h⟩ | h <;>
        rw [h] <;> simp
  · intro c msg τ uuid now user hu r
    have := hroom c user hu
    have hhas : mapHas s.chatRooms user.roomId = true := by simp [mapHas, this]
    cases hth : threadThrows (roomOf s.chatRooms user.roomId).threads (τ.getD "default") with
    | true =>
      rw [sendMessage_throws s c msg τ uuid now user hu hth]
      simp only [hhas, if_true]
    | false =>
      rw [sendMessage_ok s c msg τ uuid now user hu hth]
      simp only
      rw [Bool.eq_iff_iff, mapHas_mapSet]
      constructor
      · rintro (h | h)
        · subst h
          exact hhas
        · exact h
      · exact Or.inr

/-- Witness for C28: alice's connection in `twoUsers` names the general room, which is
stored. -/
theorem registered_room_exists_witness :
    mapGet twoUsers.activeUsers "c1" =
      some { username := "alice", apiKey := "k1", roomId := "general" } ∧
    mapGet twoUsers.chatRooms "general" = some (roomOf twoUsers.chatRooms "general") :=
  ⟨by decide, (registered_room_exists twoUsers (reachable_run _ _ Reachable.init)).1 "c1"
    { username := "alice", apiKey := "k1", roomId := "general" } (by decide)⟩


/-- C29, a defect of the code: `formatMessageContent` escapes nothing. A message that is an
`img` element with an `onerror` handler matches none of the twelve patterns and comes out
unchanged, so the markup `renderMessageContent` hands to `dangerouslySetInnerHTML` is the
message's own; markup inside emphasised text is kept inside the generated tag. (The third
equation shows the replacements at work on a message without markup of its own.) -/
theorem format_keeps_markup :
    formatMessageContent "<img src=x onerror=alert(1)>" = "<img src=x onerror=alert(1)>" ∧
    formatMessageContent "**<i>x</i>**" = "<strong><i>x</i></strong>" ∧
    formatMessageContent "**bold** and `code`" =
      "<strong>bold</strong> and <code>code</code>" := by
  decide


/-- C30: `restore` selects the latest backup. When every entry of the backup directory that
starts with `backup-` is a name `backup.js` made at a moment whose year has four digits, and
the name of the moment `t` is among them and no such entry is of a later moment, the entry
`restore` picks by filter, sort, reverse and first is the name of `t`. Whatever the directory
holds, the entry picked is one of its entries and starts with `backup-`, and nothing is picked
exactly when no entry starts with `backup-`. -/
theorem restore_takes_latest (backups : List String) :
    (∀ t : Stamp, t.fits → backupName t ∈ backups →
      (∀ b ∈ backups, startsWith b "backup-" = true → ∃ u : Stamp, u.fits ∧ b = backupName u) →
      (∀ u : Stamp, u.fits → backupName u ∈ backups → unitsLt t.fields u.fields = false) →
      latestBackup backups = some (backupName t)) ∧
    (∀ x, latestBackup backups = some x → x ∈ backups ∧ startsWith x "backup-" = true) ∧
    (latestBackup backups = none ↔ ∀ b ∈ backups, startsWith b "backup-" = false) := by
  have hsome : ∀ x, latestBackup backups = some x →
      (x ∈ backups ∧ startsWith x "backup-" = true) ∧
      ∀ y ∈ backups, startsWith y "backup-" = true → jsLe y x = true := by
    intro x hx
    obtain ⟨hmem, hmax⟩ := head_reverse_sort _ x hx
    rw [List.mem_filter] at hmem
    exact ⟨hmem, fun y hy hp => hmax y (List.mem_filter.mpr ⟨hy, hp⟩)⟩
  refine ⟨fun t ht hmem hform hmax => ?_, fun x hx => (hsome x hx).1, ?_⟩
  · cases hl : latestBackup backups with
    | none =>
      have := head_reverse_sort_none _ hl
      have hin : backupName t ∈ backups.filter (fun b => startsWith b "backup-") :=
        List.mem_filter.mpr ⟨hmem, backupName_startsWith t⟩
      rw [this] at hin
      cases hin
    | some x =>
      obtain ⟨⟨hx, hpx⟩, hle⟩ := hsome x hl
      obtain ⟨u, hu, rfl⟩ := hform x hx hpx
      have h1 := hle (backupName t) hmem (backupName_startsWith t)
      simp only [jsLe, Bool.not_eq_true_eq_eq_false] at h1
      rw [backupName_lt u t hu ht] at h1
      have h2 := hmax u hu hx
      rw [stamp_eq_of_fields u t (unitsLt_trichotomy _ _ h1 h2)]
  · constructor
    · intro hnone b hb
      have := head_reverse_sort_none _ hnone
      cases hp : startsWith b "backup-" with
      | false => rfl
      | true =>
        have hin : b ∈ backups.filter (fun b => startsWith b "backup-") :=
          List.mem_filter.mpr ⟨hb, hp⟩
        rw [this] at hin
        cases hin
    · intro hall
      have : backups.filter (fun b => startsWith b "backup-") = [] := by
        rw [List.filter_eq_nil_iff]
        intro b hb
        simp [hall b hb]
      simp [latestBackup, this]

/-- Witness for C30: a directory with three backups and another file; the backup of 1 March
2024 is picked. -/
theorem restore_takes_latest_witness :
    latestBackup ["backup-2024-01-15T10-30-00-000Z", "notes.txt",
      "backup-2024-03-01T08-00-00-000Z", "backup-2023-12-31T23-59-59-999Z"] =
      some "backup-2024-03-01T08-00-00-000Z" := by
  have hf : ∀ y mo d h mi s ms : Nat, y ≤ 9999 → 1 ≤ mo → mo ≤ 12 → 1 ≤ d → d ≤ 31 → h ≤ 23 →
      mi ≤ 59 → s ≤ 59 → ms ≤ 999 → Stamp.fits ⟨y, mo, d, h, mi, s, ms⟩ :=
    fun _ _ _ _ _ _ _ a b c d e f g h i => ⟨a, b, c, d, e, f, g, h, i⟩
  have f1 : Stamp.fits ⟨2024, 1, 15, 10, 30, 0, 0⟩ := by
    apply hf <;> decide
  have f2 : Stamp.fits ⟨2024, 3, 1, 8, 0, 0, 0⟩ := by
    apply hf <;> decide
  have f3 : Stamp.fits ⟨2023, 12, 31, 23, 59, 59, 999⟩ := by
    apply hf <;> decide
  have n1 : "backup-2024-01-15T10-30-00-000Z" = backupName ⟨2024, 1, 15, 10, 30, 0, 0⟩ := by
    decide
  have n2 : "backup-2024-03-01T08-00-00-000Z" = backupName ⟨2024, 3, 1, 8, 0, 0, 0⟩ := by
    decide
  have n3 : "backup-2023-12-31T23-59-59-999Z" =
      backupName ⟨2023, 12, 31, 23, 59, 59, 999⟩ := by
    decide
  have h := (restore_takes_latest ["backup-2024-01-15T10-30-00-000Z", "notes.txt",
    "backup-2024-03-01T08-00-00-000Z", "backup-2023-12-31T23-59-59-999Z"]).1
    ⟨2024, 3, 1, 8, 0, 0, 0⟩ f2 (by rw [← n2]; decide)
    (by
      intro b hb hp
      simp only [List.mem_cons, List.mem_singleton, List.not_mem_nil, or_false] at hb
      rcases hb with rfl | rfl | rfl | rfl
      · exact ⟨_, f1, n1⟩
      · exact absurd hp (by decide)
      · exact ⟨_, f2, n2⟩
      · exact ⟨_, f3, n3⟩)
    (by
      intro u hu hmem
      simp only [List.mem_cons, List.mem_singleton, List.not_mem_nil, or_false] at hmem
      rcases hmem with h | h | h | h
      · rw [n1] at h
        rw [backupName_inj u _ hu f1 h]
        decide
      · have hp := backupName_startsWith u
        rw [h] at hp
        exact absurd hp (by decide)
      · rw [n2] at h
        rw [backupName_inj u _ hu f2 h]
        decide
      · rw [n3] at h
        rw [backupName_inj u _ hu f3 h]
        decide)
  rw [h, ← n2]

end ChatApp
